import Mathlib

/-!
# MaidSafe-Vault: the group database (`src/maidsafe/vault/group_db.h`)

A shallow embedding of `GroupDb<Persona>` for the generic persona (the only
`FindOrCreateGroup` / `UpdateGroup` bodies present in the header), followed by theorems
about its public operations. The file also embeds `Demultiplexer::HandleMessage`
(`demultiplexer.h`) and `Commander::CheckOptionValidity` (`tools/commander.cc`), and models
from the spec the version history and the disk-based store, of which only the tests are
among the sources.

Modelling conventions
* `std::map` and the leveldb store are key-ordered association lists.
* A C++ exception is the `Outcome.raised` result; the object state that the exception leaves
  behind is returned next to it.
* The two sources of nondeterminism are explicit inputs (`Env`): the successive results of
  `RandomInt32()` and, for every leveldb `Get` / `Put` / `Delete` call in order, whether the
  backend reports a status that is not ok.
* A functor is a function returning everything it left behind in its reference arguments
  together with either its return value or the exception it threw.
-/

namespace maidsafe
namespace vault

/-! ## Byte strings and ordered maps -/

/-- Byte strings (`std::string`, `leveldb::Slice`). -/
abbrev Bytes := List Nat

/-- Node identifiers of the routing layer. -/
abbrev NodeId := Nat

section OrderedMap

variable {κ β : Type} [LinearOrder κ]

/-- Lookup in an association list (`std::map::find`, leveldb point lookup). -/
def map_find (k : κ) : List (κ × β) → Option β
  | [] => none
  | (k', v) :: t => if k' = k then some v else map_find k t

/-- Ordered placement of a new binding: before the first entry with a greater key. -/
def map_place (k : κ) (v : β) : List (κ × β) → List (κ × β)
  | [] => [(k, v)]
  | (k', v') :: t => if k < k' then (k, v) :: (k', v') :: t else (k', v') :: map_place k v t

/-- Removal of the binding of a key. -/
def map_erase (k : κ) : List (κ × β) → List (κ × β)
  | [] => []
  | (k', v') :: t => if k' = k then map_erase k t else (k', v') :: map_erase k t

/-- Insertion as `std::map::insert` does it: an existing binding is kept and `false` is
returned with the map as it was, an absent key is placed in order and `true` is returned. -/
def map_insert (k : κ) (v : β) (m : List (κ × β)) : List (κ × β) × Bool :=
  match map_find k m with
  | some _ => (m, false)
  | none => (map_place k v m, true)

/-- Overwriting write (`leveldb::DB::Put`, `std::map::operator[]` assignment). -/
def map_put (k : κ) (v : β) (m : List (κ × β)) : List (κ × β) :=
  map_place k v (map_erase k m)

/-- In-place update of the value bound to a key, through a reference to the mapped value. -/
def map_modify (k : κ) (f : β → β) (m : List (κ × β)) : List (κ × β) :=
  m.map (fun entry => if entry.1 = k then (entry.1, f entry.2) else entry)

end OrderedMap

/-! ## Errors, outcomes, environment -/

/-- Error codes thrown by the group database, and any other exception a functor may throw. -/
inductive Error where
  | no_such_account
  | no_such_element
  | account_already_exists
  | failed_to_handle_request
  | null_pointer
  | other (code : Nat)
  deriving DecidableEq, Repr

/-- Result of a call: it returned a value, it threw, or it is still inside the GroupId
allocation loop after consuming every random draw that was supplied. -/
inductive Outcome (α : Type) where
  | returned (a : α)
  | raised (e : Error)
  | spinning
  deriving DecidableEq, Repr

/-- Nondeterministic inputs of one public call. -/
structure Env where
  /-- Successive results of `RandomInt32()`. -/
  draws : List Int
  /-- For each successive leveldb `Get` / `Put` / `Delete` call: `true` when the backend
  reports a status that is neither ok nor NotFound. Calls beyond the list succeed. -/
  faults : List Bool
  deriving Repr

/-- Environment with a working backend and the given random draws. -/
def Env.working (draws : List Int) : Env := { draws := draws, faults := [] }

/-- Status of the next backend call and the statuses left for the following ones. -/
def next_fault : List Bool → Bool × List Bool
  | [] => (false, [])
  | b :: rest => (b, rest)

/-- Return value of a record functor (`detail::DbAction`). -/
inductive DbAction where
  | kPut
  | kDelete
  deriving DecidableEq, Repr

/-- Calls observed during a commit. -/
inductive Event (G : Type) where
  | functor_invoked
  | update_group (group_name : G)
  deriving DecidableEq, Repr

/-! ## Fixed-width codec -/

/-- Modelled from the spec: `detail::ToFixedWidthString<width>` is declared in
`maidsafe/vault/utils.h`, which is not among the sources. Per the spec it is the big-endian
encoding of the number, left-padded with zeroes to `width` bytes. -/
def ToFixedWidthString : Nat → Nat → Bytes
  | 0, _ => []
  | width + 1, number => ToFixedWidthString width (number / 256) ++ [number % 256]

/-- Modelled from the spec: `detail::FromFixedWidthString<width>` is declared in
`maidsafe/vault/utils.h`, which is not among the sources. Per the spec it reverses
`ToFixedWidthString`: the big-endian value of the bytes. -/
def FromFixedWidthString (s : Bytes) : Nat :=
  s.foldl (fun acc b => acc * 256 + b) 0

/-! ## The persona and the database state -/

/-- What `GroupDb` uses of its `Persona` template argument. -/
structure Persona (G K V M : Type) where
  /-- Accessor `Key::group_name()`. -/
  group_name : K → G
  /-- Accessor `Key::ToFixedWidthString().string()`. -/
  key_string : K → Bytes
  /-- Constructor `Key(group_name, Key::FixedWidthString(bytes))`. -/
  make_key : G → Bytes → K
  /-- Constructor `Value(serialised)`. -/
  parse_value : Bytes → V
  /-- Method `Value::Serialise()`. -/
  Serialise : V → Bytes
  /-- Conversion `NodeId(group_name->string())`. -/
  node_id : G → NodeId

/-- Type `GroupDb::GroupId`. -/
abbrev GroupId := Nat

/-- Type `GroupDb::GroupMap`: group name to (GroupId, metadata), ordered by name. -/
abbrev GroupMap (G M : Type) := List (G × (GroupId × M))

/-- Mutable members of `GroupDb`: the registry and the contents of the leveldb store,
ordered by key. -/
structure GroupDb (G M : Type) where
  group_map_ : GroupMap G M
  leveldb_ : List (Bytes × Bytes)

/-- Type `GroupDb::Contents`. -/
structure Contents (G K V M : Type) where
  group_name : G
  metadata : M
  kv_pairs : List (K × V)

/-- Type `GroupDb::TransferInfo`: node id to the contents to send it, ordered by node id. -/
abbrev TransferInfo (G K V M : Type) := List (NodeId × List (Contents G K V M))

/-- Enumeration `routing::GroupRangeStatus`. -/
inductive GroupRangeStatus where
  | kInRange
  | kInProximalRange
  | kOutwithRange
  deriving DecidableEq, Repr

/-- Result of `routing::MatrixChange::CheckHolders`, as far as `GroupDb` reads it. -/
structure CheckHoldersResult where
  proximity_status : GroupRangeStatus
  new_holders : List NodeId

/-- Class `routing::MatrixChange`, as far as `GroupDb` uses it. -/
structure MatrixChange where
  CheckHolders : NodeId → CheckHoldersResult

/-- Constant `kPrefixWidth_`. -/
def kPrefixWidth_ : Nat := 2

/-- Constant `kGroupsLimit` of `AddGroupToMap`: `256 ^ kPrefixWidth_`. -/
def kGroupsLimit : Nat := 256 ^ kPrefixWidth_

/-- State of a newly constructed `GroupDb`. -/
def GroupDb.empty {G M : Type} : GroupDb G M := { group_map_ := [], leveldb_ := [] }

section Operations

variable {G K V M : Type} [LinearOrder G]

/-! ## Key encoding -/

/-- Function `GroupDb::MakeLevelDbKey`. -/
def MakeLevelDbKey (P : Persona G K V M) (group_id : GroupId) (key : K) : Bytes :=
  ToFixedWidthString kPrefixWidth_ group_id ++ P.key_string key

/-- Function `GroupDb::MakeKey`. -/
def MakeKey (P : Persona G K V M) (group_name : G) (level_db_key : Bytes) : K :=
  P.make_key group_name (level_db_key.drop kPrefixWidth_)

/-- Function `GroupDb::GetGroupId`. -/
def GetGroupId (level_db_key : Bytes) : Nat :=
  FromFixedWidthString (level_db_key.take kPrefixWidth_)

/-! ## Registry -/

/-- Function `GroupDb::FindGroup`: the entry the returned iterator points at. -/
def FindGroup (db : GroupDb G M) (group_name : G) : Outcome (GroupId × M) :=
  match map_find group_name db.group_map_ with
  | none => .raised .no_such_account
  | some entry => .returned entry

/-- Function `GroupDb::FindOrCreateGroup` (generic persona: no creation). -/
def FindOrCreateGroup (db : GroupDb G M) (group_name : G) : Outcome (GroupId × M) :=
  FindGroup db group_name

/-- Candidate GroupId computed from one random draw: `RandomInt32() % kGroupsLimit`, the
signed 32-bit draw being converted to unsigned 64-bit before the reduction. -/
def candidate_id (r : Int) : GroupId :=
  (r % 2 ^ 64).toNat % kGroupsLimit

/-- The `std::any_of` test of the allocation loop: some registered group has this id. -/
def id_in_use (group_map : GroupMap G M) (group_id : GroupId) : Bool :=
  group_map.any (fun element => group_id == element.2.1)

/-- The allocation loop of `AddGroupToMap`: draw until the candidate is unused. `none` when
the supplied draws are used up before that. -/
def pick_group_id (group_map : GroupMap G M) : List Int → Option GroupId
  | [] => none
  | r :: rest =>
    if id_in_use group_map (candidate_id r) then pick_group_id group_map rest
    else some (candidate_id r)

/-- Function `GroupDb::AddGroupToMap`: the entry of the returned iterator and the new state. -/
def AddGroupToMap (db : GroupDb G M) (group_name : G) (metadata : M) (draws : List Int) :
    Outcome (GroupId × M) × GroupDb G M :=
  if db.group_map_.length = kGroupsLimit - 1 then
    (.raised .failed_to_handle_request, db)
  else
    match pick_group_id db.group_map_ draws with
    | none => (.spinning, db)
    | some group_id =>
      let ret_val := map_insert group_name (group_id, metadata) db.group_map_
      if !ret_val.2 then (.raised .account_already_exists, db)
      else (.returned (group_id, metadata), { db with group_map_ := ret_val.1 })

/-- Function `GroupDb::AddGroup`. -/
def AddGroup (db : GroupDb G M) (group_name : G) (metadata : M) (env : Env) :
    Outcome Unit × GroupDb G M :=
  match AddGroupToMap db group_name metadata env.draws with
  | (.returned _, db') => (.returned (), db')
  | (.raised e, db') => (.raised e, db')
  | (.spinning, db') => (.spinning, db')

/-- Assignment through the iterator reference `it->second.second`: the metadata of the named
group is replaced, its GroupId kept. -/
def set_metadata (group_name : G) (metadata : M) (group_map : GroupMap G M) : GroupMap G M :=
  map_modify group_name (fun second => (second.1, metadata)) group_map

/-- Function `GroupDb::UpdateGroup` (generic persona: logs and does nothing). -/
def UpdateGroup (db : GroupDb G M) (_group_name : G) : GroupDb G M := db

/-! ## Record access -/

/-- Function `GroupDb::Get`, given whether the backend call fails. -/
def Get (P : Persona G K V M) (db : GroupDb G M) (key : K) (group_id : GroupId)
    (fault : Bool) : Outcome V :=
  if fault then .raised .failed_to_handle_request
  else
    match map_find (MakeLevelDbKey P group_id key) db.leveldb_ with
    | some value_string => .returned (P.parse_value value_string)
    | none => .raised .no_such_element

/-- Function `GroupDb::Put`, given whether the backend call fails; a failed write leaves the
store as it was. -/
def Put (P : Persona G K V M) (db : GroupDb G M) (key_value_pair : K × V)
    (group_id : GroupId) (fault : Bool) : Outcome Unit × GroupDb G M :=
  if fault then (.raised .failed_to_handle_request, db)
  else
    let store := map_put (MakeLevelDbKey P group_id key_value_pair.1)
      (P.Serialise key_value_pair.2) db.leveldb_
    (.returned (), { db with leveldb_ := store })

/-- Function `GroupDb::Delete`, given whether the backend call fails; a failed delete leaves
the store as it was. -/
def Delete (P : Persona G K V M) (db : GroupDb G M) (key : K) (group_id : GroupId)
    (fault : Bool) : Outcome Unit × GroupDb G M :=
  if fault then (.raised .failed_to_handle_request, db)
  else
    let store := map_erase (MakeLevelDbKey P group_id key) db.leveldb_
    (.returned (), { db with leveldb_ := store })

/-- Function `GroupDb::GetMetadata`. -/
def GetMetadata (db : GroupDb G M) (group_name : G) : Outcome M :=
  match FindGroup db group_name with
  | .returned it => .returned it.2
  | .raised e => .raised e
  | .spinning => .spinning

/-- Function `GroupDb::GetValue`. -/
def GetValue (P : Persona G K V M) (db : GroupDb G M) (key : K) (env : Env) : Outcome V :=
  match FindGroup db (P.group_name key) with
  | .returned it => Get P db key it.1 (next_fault env.faults).1
  | .raised e => .raised e
  | .spinning => .spinning

/-- The range the leveldb iterator visits in `GetContents` and `DeleteGroupEntries`:
`Seek(group_id_str)`, then forward while the key decodes to the group id. -/
def group_entries (group_id : GroupId) (store : List (Bytes × Bytes)) : List (Bytes × Bytes) :=
  (store.dropWhile (fun entry => entry.1 < ToFixedWidthString kPrefixWidth_ group_id)).takeWhile
    (fun entry => GetGroupId entry.1 == group_id)

/-- Function `GroupDb::GetContents(iterator)`. -/
def GetContents_it (P : Persona G K V M) (db : GroupDb G M) (group_name : G)
    (it : GroupId × M) : Contents G K V M :=
  { group_name := group_name,
    metadata := it.2,
    kv_pairs := List.map (fun entry => (MakeKey P group_name entry.1, P.parse_value entry.2))
      (group_entries it.1 db.leveldb_) }

/-- Function `GroupDb::GetContents(group_name)`. -/
def GetContents (P : Persona G K V M) (db : GroupDb G M) (group_name : G) :
    Outcome (Contents G K V M) :=
  match FindGroup db group_name with
  | .returned it => .returned (GetContents_it P db group_name it)
  | .raised e => .raised e
  | .spinning => .spinning

/-! ## Deleting a group -/

/-- The delete loop of `DeleteGroupEntries(iterator)`: one backend `Delete` per collected key,
stopping at the first one that fails. Returns whether all succeeded, the store and the
statuses left for later backend calls. -/
def delete_keys : List Bytes → List (Bytes × Bytes) → List Bool →
    Bool × List (Bytes × Bytes) × List Bool
  | [], store, faults => (true, store, faults)
  | key :: rest, store, faults =>
    if (next_fault faults).1 then (false, store, (next_fault faults).2)
    else delete_keys rest (map_erase key store) (next_fault faults).2

/-- Function `GroupDb::DeleteGroupEntries(iterator)`. -/
def DeleteGroupEntries_it (db : GroupDb G M) (group_name : G) (it : GroupId × M)
    (faults : List Bool) : Outcome Unit × GroupDb G M × List Bool :=
  let group_db_keys := (group_entries it.1 db.leveldb_).map Prod.fst
  let deleted := delete_keys group_db_keys db.leveldb_ faults
  if deleted.1 then
    (.returned (),
      { group_map_ := map_erase group_name db.group_map_, leveldb_ := deleted.2.1 }, deleted.2.2)
  else
    (.raised .failed_to_handle_request, { db with leveldb_ := deleted.2.1 }, deleted.2.2)

/-- Function `GroupDb::DeleteGroupEntries(group_name)`: every `maidsafe_error` is caught and
logged. -/
def DeleteGroupEntries (db : GroupDb G M) (group_name : G) (faults : List Bool) :
    GroupDb G M × List Bool :=
  match FindGroup db group_name with
  | .returned it => (DeleteGroupEntries_it db group_name it faults).2
  | .raised _ => (db, faults)
  | .spinning => (db, faults)

/-- Function `GroupDb::DeleteGroup`. -/
def DeleteGroup (db : GroupDb G M) (group_name : G) (env : Env) : Outcome Unit × GroupDb G M :=
  (.returned (), (DeleteGroupEntries db group_name env.faults).1)

/-! ## Commit -/

/-- A `std::function<void(Metadata&)>`: what it leaves in the metadata, and the exception it
threw, if any. -/
abbrev MetadataFunctor (M : Type) := M → M × Option Error

/-- A `std::function<detail::DbAction(Metadata&, std::unique_ptr<Value>&)>`: what it leaves in
the metadata and in the value slot, and its return value or the exception it threw. -/
abbrev RecordFunctor (M V : Type) := M → Option V → (M × Option V) × Except Error DbAction

/-- What a `Commit` call leaves behind: its outcome, the state, and the functor and
`UpdateGroup` calls made, in order. -/
structure CommitResult (G M α : Type) where
  outcome : Outcome α
  db : GroupDb G M
  events : List (Event G)

/-- Function `GroupDb::Commit(const GroupName&, functor)`. -/
def Commit_name (db : GroupDb G M) (group_name : G) (functor : MetadataFunctor M) :
    CommitResult G M Unit :=
  match FindOrCreateGroup db group_name with
  | .returned it =>
    let left := functor it.2
    let db1 : GroupDb G M := { db with group_map_ := set_metadata group_name left.1 db.group_map_ }
    { outcome := (match left.2 with
        | none => .returned ()
        | some e => .raised e),
      db := UpdateGroup db1 group_name,
      events := [.functor_invoked, .update_group group_name] }
  | .raised e => { outcome := .raised e, db := db, events := [] }
  | .spinning => { outcome := .spinning, db := db, events := [] }

/-- The second `try` block of `GroupDb::Commit(const Key&, functor)`: the functor is run on
the metadata and the loaded value, then the record is written or deleted. -/
def commit_action (P : Persona G K V M) (db : GroupDb G M) (key : K) (it : GroupId × M)
    (value : Option V) (functor : RecordFunctor M V) (fault : Bool) :
    Outcome (Option V) × GroupDb G M :=
  let left := functor it.2 value
  let db1 : GroupDb G M :=
    { db with group_map_ := set_metadata (P.group_name key) left.1.1 db.group_map_ }
  match left.2 with
  | .error e => (.raised e, db1)
  | .ok .kPut =>
    match left.1.2 with
    | none => (.raised .null_pointer, db1)
    | some v =>
      match Put P db1 (key, v) it.1 fault with
      | (.returned _, db2) => (.returned none, db2)
      | (.raised e, db2) => (.raised e, db2)
      | (.spinning, db2) => (.spinning, db2)
  | .ok .kDelete =>
    match left.1.2 with
    | some v =>
      match Delete P db1 key it.1 fault with
      | (.returned _, db2) => (.returned (some v), db2)
      | (.raised e, db2) => (.raised e, db2)
      | (.spinning, db2) => (.spinning, db2)
    | none => (.returned none, db1)

/-- Function `GroupDb::Commit(const Key&, functor)`. -/
def Commit_key (P : Persona G K V M) (db : GroupDb G M) (key : K) (functor : RecordFunctor M V)
    (env : Env) : CommitResult G M (Option V) :=
  let group_name := P.group_name key
  match FindOrCreateGroup db group_name with
  | .returned it =>
    let faults := next_fault env.faults
    match Get P db key it.1 faults.1 with
    | .returned v =>
      let done := commit_action P db key it (some v) functor (next_fault faults.2).1
      { outcome := done.1, db := UpdateGroup done.2 group_name,
        events := [.functor_invoked, .update_group group_name] }
    | .raised .no_such_element =>
      let done := commit_action P db key it none functor (next_fault faults.2).1
      { outcome := done.1, db := UpdateGroup done.2 group_name,
        events := [.functor_invoked, .update_group group_name] }
    | .raised e =>
      { outcome := .raised e, db := UpdateGroup db group_name,
        events := [.update_group group_name] }
    | .spinning =>
      { outcome := .spinning, db := UpdateGroup db group_name,
        events := [.update_group group_name] }
  | .raised e => { outcome := .raised e, db := db, events := [] }
  | .spinning => { outcome := .spinning, db := db, events := [] }

/-- The value slot as `Commit(const Key&, functor)` hands it to the functor when the backend
read succeeds: the parsed stored record, or empty when none is stored under the key. -/
def loaded_value (P : Persona G K V M) (db : GroupDb G M) (key : K) (it : GroupId × M) :
    Option V :=
  (map_find (MakeLevelDbKey P it.1 key) db.leveldb_).map P.parse_value

/-! ## Transfer -/

/-- The two branches on `transfer_info.find(new_holders.at(0))` in `GetTransferInfo`: append
to the vector found, or bind a new one-element vector. -/
def add_transfer (node : NodeId) (contents : Contents G K V M) (transfer_info : TransferInfo G K V M) :
    TransferInfo G K V M :=
  match map_find node transfer_info with
  | some _ => map_modify node (fun found => found ++ [contents]) transfer_info
  | none => map_put node [contents] transfer_info

/-- Body of the first loop of `GetTransferInfo`, for one registry entry: the transfer map and
the prune vector after it. -/
def scan_group (P : Persona G K V M) (db : GroupDb G M) (matrix_change : MatrixChange)
    (acc : TransferInfo G K V M × List G) (element : G × (GroupId × M)) :
    TransferInfo G K V M × List G :=
  let check_holder_result := matrix_change.CheckHolders (P.node_id element.1)
  if check_holder_result.proximity_status = GroupRangeStatus.kInRange then
    match check_holder_result.new_holders with
    | [] => acc
    | first :: _ => (add_transfer first (GetContents_it P db element.1 element.2) acc.1, acc.2)
  else (acc.1, acc.2 ++ [element.1])

/-- The second loop of `GetTransferInfo`: `DeleteGroupEntries(i)` for each pruned name. -/
def prune_groups : List G → GroupDb G M → List Bool → GroupDb G M
  | [], db, _ => db
  | i :: rest, db, faults =>
    prune_groups rest (DeleteGroupEntries db i faults).1 (DeleteGroupEntries db i faults).2

/-- Function `GroupDb::GetTransferInfo`. -/
def GetTransferInfo (P : Persona G K V M) (db : GroupDb G M) (matrix_change : MatrixChange)
    (env : Env) : TransferInfo G K V M × GroupDb G M :=
  let scanned := db.group_map_.foldl (scan_group P db matrix_change) ([], [])
  (scanned.1, prune_groups scanned.2 db env.faults)

/-- The loop of `ApplyTransfer`: `Put` each pair, any exception caught and logged. -/
def put_all (P : Persona G K V M) (group_id : GroupId) : List (K × V) → GroupDb G M → List Bool →
    GroupDb G M
  | [], db, _ => db
  | kv_pair :: rest, db, faults =>
    put_all P group_id rest (Put P db kv_pair group_id (next_fault faults).1).2
      (next_fault faults).2

/-- Function `GroupDb::ApplyTransfer`. -/
def ApplyTransfer (P : Persona G K V M) (db : GroupDb G M) (contents : Contents G K V M)
    (env : Env) : Outcome Unit × GroupDb G M :=
  match FindGroup db contents.group_name with
  | .returned itr => (.returned (), put_all P itr.1 contents.kv_pairs db env.faults)
  | _ =>
    match AddGroupToMap db contents.group_name contents.metadata env.draws with
    | (.returned itr, db1) => (.returned (), put_all P itr.1 contents.kv_pairs db1 env.faults)
    | (.raised e, db1) => (.raised e, db1)
    | (.spinning, db1) => (.spinning, db1)

/-- Function `GroupDb::HandleTransfer`. -/
def HandleTransfer (P : Persona G K V M) (db : GroupDb G M) (content : Contents G K V M)
    (env : Env) : Outcome Unit × GroupDb G M :=
  ApplyTransfer P db content env

/-! ## Sequences of public calls -/

/-- The public member functions of `GroupDb`, with their arguments. -/
inductive Call (G K V M : Type) where
  | add_group (group_name : G) (metadata : M)
  | delete_group (group_name : G)
  | commit_name (group_name : G) (functor : MetadataFunctor M)
  | commit_key (key : K) (functor : RecordFunctor M V)
  | get_transfer_info (matrix_change : MatrixChange)
  | handle_transfer (content : Contents G K V M)
  | get_metadata (group_name : G)
  | get_value (key : K)
  | get_contents (group_name : G)

/-- State of the database after a public call, whether it returned or threw. The three read
functions assign to no member. -/
def exec (P : Persona G K V M) (db : GroupDb G M) (env : Env) : Call G K V M → GroupDb G M
  | .add_group group_name metadata => (AddGroup db group_name metadata env).2
  | .delete_group group_name => (DeleteGroup db group_name env).2
  | .commit_name group_name functor => (Commit_name db group_name functor).db
  | .commit_key key functor => (Commit_key P db key functor env).db
  | .get_transfer_info matrix_change => (GetTransferInfo P db matrix_change env).2
  | .handle_transfer content => (HandleTransfer P db content env).2
  | .get_metadata _ => db
  | .get_value _ => db
  | .get_contents _ => db

/-- States reachable from a newly constructed database by public calls, under any random
draws and any backend failures. -/
inductive Reachable (P : Persona G K V M) : GroupDb G M → Prop where
  | init : Reachable P GroupDb.empty
  | step (db : GroupDb G M) (env : Env) (call : Call G K V M) :
      Reachable P db → Reachable P (exec P db env call)

end Operations

/-! ## Representation invariants -/

section Invariants

variable {G K V M : Type} [LinearOrder G]

/-- Keys of an ordered map are strictly ascending, as `std::map` and leveldb keep them. -/
def keys_ascending {κ β : Type} [LinearOrder κ] (m : List (κ × β)) : Prop :=
  m.Pairwise (fun a b => a.1 < b.1)

/-- Every key of the store was built by `MakeLevelDbKey` from a GroupId below `kGroupsLimit`. -/
def keys_encoded (P : Persona G K V M) (store : List (Bytes × Bytes)) : Prop :=
  ∀ entry ∈ store, ∃ (g : GroupId) (k : K), g < kGroupsLimit ∧ entry.1 = MakeLevelDbKey P g k

/-- Invariant of the database representation: GroupIds are below `kGroupsLimit` and pairwise
distinct, the registry is ordered by group name, the store is ordered by key, and every stored
key is an encoded one. -/
structure WellFormed (P : Persona G K V M) (db : GroupDb G M) : Prop where
  ids_lt : ∀ element ∈ db.group_map_, element.2.1 < kGroupsLimit
  ids_nodup : (db.group_map_.map (fun element => element.2.1)).Nodup
  names_ascending : keys_ascending db.group_map_
  store_ascending : keys_ascending db.leveldb_
  store_encoded : keys_encoded P db.leveldb_

/-! ## Statement of the transfer claims -/

/-- Whether `CheckHolders` classifies the group `kInRange`. -/
def in_range (P : Persona G K V M) (matrix_change : MatrixChange) (group_name : G) : Bool :=
  decide ((matrix_change.CheckHolders (P.node_id group_name)).proximity_status
    = GroupRangeStatus.kInRange)

/-- The node the claim on `GetTransferInfo` names as the target of a group: the first element
of `new_holders` when the group is in range and the list is not empty, no node otherwise. -/
def transfer_target (P : Persona G K V M) (matrix_change : MatrixChange) (group_name : G) :
    Option NodeId :=
  if in_range P matrix_change group_name then
    (matrix_change.CheckHolders (P.node_id group_name)).new_holders.head?
  else none

/-- The list the claim on `GetTransferInfo` expects under a node: the contents of the
registered groups whose target is that node, in registry order. -/
def transfers_to (P : Persona G K V M) (db : GroupDb G M) (matrix_change : MatrixChange)
    (node : NodeId) : List (Contents G K V M) :=
  (db.group_map_.filter (fun element => transfer_target P matrix_change element.1 = some node)).map
    (fun element => GetContents_it P db element.1 element.2)

end Invariants

/-! ## A small persona for concrete runs -/

/-- Keys of the test persona: the group name and the fixed-width string. -/
structure TestKey where
  group : Nat
  fixed : Bytes
  deriving DecidableEq, Repr

/-- Persona with natural-number group names and metadata and byte-string values; keys and
values round-trip through their strings. -/
def testPersona : Persona Nat TestKey Bytes Nat :=
  { group_name := fun k => k.group,
    key_string := fun k => k.fixed,
    make_key := fun g s => { group := g, fixed := s },
    parse_value := fun s => s,
    Serialise := fun v => v,
    node_id := fun g => g }

/-- Key of group 7 used in the concrete runs. -/
def demoKey : TestKey := { group := 7, fixed := [1, 2, 3] }

/-- Database after `AddGroup(7, 100)` on a new database, the random source returning -1. -/
def demoDb : GroupDb Nat Nat := (AddGroup GroupDb.empty 7 100 (Env.working [-1])).2

/-- Record functor that stores the value `[9, 9]`. -/
def put_nine : RecordFunctor Nat Bytes := fun metadata _ => ((metadata, some [9, 9]), .ok .kPut)

/-- Database `demoDb` after committing `put_nine` under `demoKey`. -/
def demoDbStored : GroupDb Nat Nat :=
  (Commit_key testPersona demoDb demoKey put_nine (Env.working [])).db

/-- Record functor that resets the value slot and returns `kDelete`. -/
def reset_then_delete : RecordFunctor Nat Bytes := fun metadata _ => ((metadata, none), .ok .kDelete)

/-- Record functor that replaces the loaded value by `[1]` and returns `kDelete`. -/
def replace_then_delete : RecordFunctor Nat Bytes :=
  fun metadata _ => ((metadata, some [1]), .ok .kDelete)

/-- Record functor that leaves the slot as loaded and returns `kDelete`. -/
def plain_delete : RecordFunctor Nat Bytes := fun metadata value => ((metadata, value), .ok .kDelete)

/-- Metadata functor that sets the metadata to 1 and then throws. -/
def set_then_throw : MetadataFunctor Nat := fun _ => (1, some (.other 0))

/-- Record functor that sets the metadata to 1 and then throws. -/
def set_then_throw_record : RecordFunctor Nat Bytes :=
  fun _ value => ((1, value), .error (.other 0))

/-- Registry with 65535 groups: group `i` has GroupId `i`, for every `i` below 65535. -/
def fullDb : GroupDb Nat Nat :=
  { group_map_ := (List.range 65535).map (fun i => (i, (i, 0))), leveldb_ := [] }

/-! ## The PmidManager health action -/

/-- Modelled from the spec: `PmidManagerMetadata` is declared in `pmid_manager/metadata.h`,
which is not among the sources. Per the spec its fields are `claimed`, `available`,
`stored_total_size` and `lost_total_size`. -/
structure PmidManagerMetadata where
  claimed : Int
  available : Int
  stored_total_size : Int
  lost_total_size : Int
  deriving DecidableEq, Repr

/-- Modelled from the spec: the body of `ActionPmidManagerSetPmidHealth::operator()` is not
among the sources (`action_set_pmid_health.h` declares it and the member `kDiskAvailableSize`).
Per the spec it sets `metadata.available = disk_available_size` and does not throw. -/
def ActionPmidManagerSetPmidHealth (kDiskAvailableSize : Int) :
    MetadataFunctor PmidManagerMetadata :=
  fun metadata => ({ metadata with available := kDiskAvailableSize }, none)

/-! ## The PmidManager hooks -/

/-- Modelled from the spec: the state of `GroupDb<PmidManager>` together with the durable copy
of the metadata that its `UpdateGroup` writes. The bodies of the two specialisations
`GroupDb<PmidManager>::FindOrCreateGroup` and `GroupDb<PmidManager>::UpdateGroup` are not among
the sources (`group_db.h` declares them); per the spec the first creates an absent group and
the second persists the metadata. -/
structure PmidManagerDb (G : Type) where
  db : GroupDb G PmidManagerMetadata
  persisted : List (G × PmidManagerMetadata)

/-- What a commit on `GroupDb<PmidManager>` leaves behind: its outcome, the state, and the
functor and `UpdateGroup` calls made, in order. -/
structure PmidManagerCommitResult (G : Type) where
  outcome : Outcome Unit
  state : PmidManagerDb G
  events : List (Event G)

section PmidManagerHooks

variable {G : Type} [LinearOrder G]

/-- Modelled from the spec: `GroupDb<PmidManager>::FindOrCreateGroup`, declared in `group_db.h`,
its body not among the sources. Per the spec it is find-or-create: the entry found, else the
entry that `AddGroupToMap` registers with the metadata constructed from the group name (the
constructor is the parameter `initial`). -/
def PmidManager_FindOrCreateGroup (initial : G → PmidManagerMetadata)
    (db : GroupDb G PmidManagerMetadata) (group_name : G) (draws : List Int) :
    Outcome (GroupId × PmidManagerMetadata) × GroupDb G PmidManagerMetadata :=
  match FindGroup db group_name with
  | .returned it => (.returned it, db)
  | _ => AddGroupToMap db group_name (initial group_name) draws

/-- Modelled from the spec: `GroupDb<PmidManager>::UpdateGroup`, declared in `group_db.h`, its
body not among the sources. Per the spec it persists the metadata: the durable copy of the
group's metadata becomes the one of the registry; registry and records stay as they are. -/
def PmidManager_UpdateGroup (state : PmidManagerDb G) (group_name : G) : PmidManagerDb G :=
  match FindGroup state.db group_name with
  | .returned it =>
    { db := state.db, persisted := map_put group_name it.2 state.persisted }
  | _ => state

/-- Function `GroupDb::Commit(const GroupName&, functor)` for the PmidManager persona: the body
of `group_db.h` with the two PmidManager hooks. -/
def PmidManager_Commit_name (initial : G → PmidManagerMetadata) (state : PmidManagerDb G)
    (group_name : G) (functor : MetadataFunctor PmidManagerMetadata) (env : Env) :
    PmidManagerCommitResult G :=
  match PmidManager_FindOrCreateGroup initial state.db group_name env.draws with
  | (.returned it, db0) =>
    let left := functor it.2
    let db1 : GroupDb G PmidManagerMetadata :=
      { db0 with group_map_ := set_metadata group_name left.1 db0.group_map_ }
    let updated := PmidManager_UpdateGroup { db := db1, persisted := state.persisted } group_name
    { outcome := (match left.2 with
        | none => .returned ()
        | some e => .raised e),
      state := updated,
      events := [.functor_invoked, .update_group group_name] }
  | (.raised e, db0) =>
    { outcome := .raised e, state := { db := db0, persisted := state.persisted }, events := [] }
  | (.spinning, db0) =>
    { outcome := .spinning, state := { db := db0, persisted := state.persisted }, events := [] }

end PmidManagerHooks

/-! ## More concrete runs -/

/-- Metadata functor that adds one to the metadata and returns. -/
def bump : MetadataFunctor Nat := fun metadata => (metadata + 1, none)

/-- Database of PmidManager metadata after `AddGroup(7, {10, 20, 30, 40})`, the random source
returning 3. -/
def pmidDb : GroupDb Nat PmidManagerMetadata :=
  (AddGroup GroupDb.empty 7
    { claimed := 10, available := 20, stored_total_size := 30, lost_total_size := 40 }
    (Env.working [3])).2

/-- Record functor that returns `kPut` with an empty value slot. -/
def put_nothing : RecordFunctor Nat Bytes := fun metadata _ => ((metadata, none), .ok .kPut)

/-- Transfer for group 7 that carries the value `[1]` under `demoKey`. -/
def demoTransfer : Contents Nat TestKey Bytes Nat :=
  { group_name := 7, metadata := 5, kv_pairs := [(demoKey, [1])] }

/-- Transfer for the new group 8 with two records. -/
def twoPairTransfer : Contents Nat TestKey Bytes Nat :=
  { group_name := 8, metadata := 5,
    kv_pairs := [({ group := 8, fixed := [1] }, [1]), ({ group := 8, fixed := [2] }, [2])] }

/-- Matrix change in which node 7 is in range with the new holders 42 and 43, and every other
node is out of range. -/
def demoMatrix : MatrixChange :=
  { CheckHolders := fun node =>
      if node = 7 then { proximity_status := .kInRange, new_holders := [42, 43] }
      else { proximity_status := .kOutwithRange, new_holders := [] } }

/-- Database `demoDbStored` after `AddGroup(8, 50)`, the random source returning 5. -/
def twoGroupDb : GroupDb Nat Nat := (AddGroup demoDbStored 8 50 (Env.working [5])).2

/-- Database `demoDb` after `AddGroup(8, 50)`, the random source returning first -1, which is
the GroupId 65535 of group 7 again, and then 5. -/
def collidingDb : GroupDb Nat Nat := (AddGroup demoDb 8 50 (Env.working [-1, 5])).2

/-- Record functor that stores the value `[8]`. -/
def put_eight : RecordFunctor Nat Bytes := fun metadata _ => ((metadata, some [8]), .ok .kPut)

/-- Database `twoGroupDb` after committing `put_eight` under the key `[1]` of group 8 and then
under the key `[0, 7]` of group 7: group 7 (GroupId 65535) holds two records, the one stored
last having the smaller key, and group 8 (GroupId 5) holds one. -/
def threeRecordDb : GroupDb Nat Nat :=
  (Commit_key testPersona
    (Commit_key testPersona twoGroupDb { group := 8, fixed := [1] } put_eight
      (Env.working [])).db
    { group := 7, fixed := [0, 7] } put_eight (Env.working [])).db

/-- Metadata of a new PmidManager group in the concrete runs: every field zero. -/
def newPmidMetadata : Nat → PmidManagerMetadata :=
  fun _ => { claimed := 0, available := 0, stored_total_size := 0, lost_total_size := 0 }

/-- PmidManager state over `pmidDb` with nothing persisted yet. -/
def pmidState : PmidManagerDb Nat := { db := pmidDb, persisted := [] }

/-! ## The demultiplexer (`src/maidsafe/vault/demultiplexer.h`) -/

/-- Modelled from the spec: the enumeration `nfs::Persona` is declared in the nfs library, which
is not among the sources. Per the spec the persona tag set is MaidNode, MpidNode, MaidManager,
VersionHandler, DataManager, PmidManager, PmidNode, DataGetter, MpidManager. -/
inductive nfs.Persona where
  | kMaidNode
  | kMpidNode
  | kMaidManager
  | kVersionHandler
  | kDataManager
  | kPmidManager
  | kPmidNode
  | kDataGetter
  | kMpidManager
  deriving DecidableEq, Repr

/-- Modelled from the spec: the tuple returned by `ParseMessageWrapper` is declared in the nfs
library, which is not among the sources. Per the spec it is
`(message_id, destination_persona, action, payload)`; `std::get<1>` is the persona. -/
abbrev MessageWrapper := Nat × nfs.Persona × Nat × Bytes

/-- The fields of a routing message that `Demultiplexer::HandleMessage` reads. -/
structure RoutingMessage (S R : Type) where
  contents : Bytes
  sender : S
  receiver : R

/-- The five service references that the `Demultiplexer` holds. -/
inductive ServiceRef where
  | maid_manager_service_
  | version_manager_service_
  | data_manager_service_
  | pmid_manager_service_
  | pmid_node_service_
  deriving DecidableEq, Repr

/-- One call `service.HandleMessage(wrapper_tuple, sender, receiver)`. -/
structure ServiceCall (S R : Type) where
  service : ServiceRef
  wrapper_tuple : MessageWrapper
  sender : S
  receiver : R
  deriving DecidableEq, Repr

/-- Function `Demultiplexer::HandleMessage`: the service calls it makes, in order. The parser
`ParseMessageWrapper` of the nfs library is a parameter. The `kPmidNode` case of the source
names `pmid_node_`, the member being `pmid_node_service_`; every tag without a case reaches
`default`, which logs and calls nothing. -/
def Demultiplexer.HandleMessage {S R : Type} (ParseMessageWrapper : Bytes → MessageWrapper)
    (routing_message : RoutingMessage S R) : List (ServiceCall S R) :=
  let wrapper_tuple := ParseMessageWrapper routing_message.contents
  match wrapper_tuple.2.1 with
  | .kMaidManager =>
    [{ service := .maid_manager_service_, wrapper_tuple := wrapper_tuple,
       sender := routing_message.sender, receiver := routing_message.receiver }]
  | .kDataManager =>
    [{ service := .data_manager_service_, wrapper_tuple := wrapper_tuple,
       sender := routing_message.sender, receiver := routing_message.receiver }]
  | .kPmidManager =>
    [{ service := .pmid_manager_service_, wrapper_tuple := wrapper_tuple,
       sender := routing_message.sender, receiver := routing_message.receiver }]
  | .kPmidNode =>
    [{ service := .pmid_node_service_, wrapper_tuple := wrapper_tuple,
       sender := routing_message.sender, receiver := routing_message.receiver }]
  | _ => []

/-- The service the claim on the demultiplexer names for a persona tag. -/
def corresponding_service : nfs.Persona → Option ServiceRef
  | .kMaidManager => some .maid_manager_service_
  | .kDataManager => some .data_manager_service_
  | .kPmidManager => some .pmid_manager_service_
  | .kPmidNode => some .pmid_node_service_
  | .kVersionHandler => some .version_manager_service_
  | _ => none

/-- A routing message from node 1 to node 2 with contents `[0]`. -/
def demoMessage : RoutingMessage Nat Nat := { contents := [0], sender := 1, receiver := 2 }

/-! ## The key tool (`src/maidsafe/vault/tools/commander.cc`) -/

/-- Names that `Commander::CheckOptionValidity` looks up in the variables map. -/
inductive OptionName where
  | help
  | create
  | load
  | run
  | bootstrap
  | store
  | verify
  | test
  | extended
  | delete
  | print
  deriving DecidableEq, Repr

/-- Type `po::variables_map`, as far as `CheckOptionValidity` reads it: the option names that
the parser stored. -/
abbrev VariablesMap := List OptionName

/-- Member function `variables_map.count(name)`. -/
def VariablesMap.count (variables_map : VariablesMap) (name : OptionName) : Nat :=
  if name ∈ variables_map then 1 else 0

/-- Struct `SelectedOperationsContainer`. -/
structure SelectedOperationsContainer where
  do_create : Bool
  do_load : Bool
  do_run : Bool
  do_bootstrap : Bool
  do_store : Bool
  do_verify : Bool
  do_test : Bool
  do_extended : Bool
  do_delete : Bool
  do_print : Bool
  deriving DecidableEq, Repr

/-- The lambda `conflicting_options` of `CheckOptionValidity`. -/
def conflicting_options (selected_ops_ : SelectedOperationsContainer) : Bool :=
  !selected_ops_.do_create && !selected_ops_.do_load && !selected_ops_.do_run &&
    !selected_ops_.do_bootstrap && !selected_ops_.do_store && !selected_ops_.do_verify &&
    !selected_ops_.do_test && !selected_ops_.do_extended && !selected_ops_.do_delete &&
    !selected_ops_.do_print

/-- What `CheckOptionValidity` leaves behind: the member `selected_ops_`, whether the help text
was printed, and the returned variables map (`none` when `std::exception` was thrown). -/
structure CheckedOptions where
  selected_ops_ : SelectedOperationsContainer
  printed_help : Bool
  returned : Option VariablesMap
  deriving DecidableEq, Repr

/-- Function `Commander::CheckOptionValidity`, from the variables map that `po::store` filled. -/
def CheckOptionValidity (variables_map : VariablesMap) : CheckedOptions :=
  let selected_ops_ : SelectedOperationsContainer :=
    { do_create := variables_map.count .create != 0,
      do_load := variables_map.count .load != 0,
      do_run := variables_map.count .run != 0,
      do_bootstrap := variables_map.count .bootstrap != 0,
      do_store := variables_map.count .store != 0,
      do_verify := variables_map.count .verify != 0,
      do_test := variables_map.count .test != 0,
      do_extended := variables_map.count .extended != 0,
      do_delete := variables_map.count .delete != 0,
      do_print := variables_map.count .print != 0 }
  if variables_map.count .help != 0 || conflicting_options selected_ops_ then
    { selected_ops_ := selected_ops_, printed_help := true, returned := none }
  else
    { selected_ops_ := selected_ops_, printed_help := false, returned := some variables_map }

/-- The key operation that `Commander::HandleKeys` performs first. -/
inductive KeysStep where
  | CreateKeys
  | ReadPmidList
  | nothing
  deriving DecidableEq, Repr

/-- The `if` / `else if` of `Commander::HandleKeys`. -/
def HandleKeys (selected_ops_ : SelectedOperationsContainer) : KeysStep :=
  if selected_ops_.do_create then .CreateKeys
  else if selected_ops_.do_load then .ReadPmidList
  else .nothing

/-- Function `Commander::HandleNetWork`: the `bootstrap_only` argument of its call of
`SetupNetwork`, or `none` when it makes no call. -/
def HandleNetWork (selected_ops_ : SelectedOperationsContainer) : Option Bool :=
  if selected_ops_.do_run || selected_ops_.do_bootstrap then
    some (!selected_ops_.do_run && selected_ops_.do_bootstrap)
  else none

/-- Whether a flag set selects two of the alternatives that the usage line
`[c|l|d] p [r|b] s v t` groups together. -/
def contradictory (variables_map : VariablesMap) : Bool :=
  decide (1 < variables_map.count .create + variables_map.count .load +
    variables_map.count .delete) ||
    decide (1 < variables_map.count .run + variables_map.count .bootstrap)

/-! ## The version history (spec, section 4.6) -/

/-- Modelled from the spec: `VersionName` belongs to `StructuredDataVersions`, whose code is not
among the sources (only `version_handler_test.cc` is). Per the spec a version name is an
`(index, id)` pair. -/
structure VersionName where
  index : Nat
  id : Bytes
  deriving DecidableEq, Repr

/-- Modelled from the spec: the version-DAG error kinds, whose declaration is not among the
sources. -/
inductive SdvError where
  | SdvCannotOverwriteExistingRoot
  | SdvVersionAlreadyExists
  | SdvNoBranchToDelete
  | SdvVersionNotFound
  deriving DecidableEq, Repr

/-- Modelled from the spec: `StructuredDataVersions`, whose code is not among the sources. Per
the spec it holds the two limits, the nodes keyed by version name, each with its parent, and
the bounded first-in-first-out buffer of orphans (declared parent, version). The children of
a node and the tips are read off the parents (`children`, `tips`); the spec gives no number
for the capacity of the orphan buffer, which is the field `max_orphans`. -/
structure StructuredDataVersions where
  max_versions : Nat
  max_branches : Nat
  max_orphans : Nat
  nodes : List (VersionName × Option VersionName)
  orphans : List (VersionName × VersionName)
  deriving DecidableEq, Repr

/-- Modelled from the spec: a new `StructuredDataVersions` (code not among the sources) has
no node and no orphan. -/
def StructuredDataVersions.create (max_versions max_branches max_orphans : Nat) :
    StructuredDataVersions :=
  { max_versions := max_versions, max_branches := max_branches, max_orphans := max_orphans,
    nodes := [], orphans := [] }

/-- Modelled from the spec: lookup of a node of `StructuredDataVersions` (code not among the
sources): `none` when the version is absent, else its parent. -/
def parent_of (nodes : List (VersionName × Option VersionName)) (version : VersionName) :
    Option (Option VersionName) :=
  (nodes.find? (fun node => node.1 = version)).map Prod.snd

/-- Modelled from the spec: the `children` of a node of `StructuredDataVersions` (code not
among the sources): the nodes whose parent it is. -/
def children (nodes : List (VersionName × Option VersionName)) (version : VersionName) :
    List VersionName :=
  (nodes.filter (fun node => node.2 = some version)).map Prod.fst

/-- Modelled from the spec: the `tips` of `StructuredDataVersions` (code not among the
sources): the leaves. -/
def tips (nodes : List (VersionName × Option VersionName)) : List VersionName :=
  (nodes.filter (fun node => (children nodes node.1).isEmpty)).map Prod.fst

/-- Modelled from the spec: the root of `StructuredDataVersions` (code not among the sources):
the node without parent. -/
def root (nodes : List (VersionName × Option VersionName)) : Option VersionName :=
  (nodes.find? (fun node => node.2 = none)).map Prod.fst

/-- Modelled from the spec: the order in which `get_versions` of `StructuredDataVersions` (code
not among the sources) lists the tips: by index descending, then by id ascending. -/
def version_before (a b : VersionName) : Prop :=
  b.index < a.index ∨ (a.index = b.index ∧ a.id ≤ b.id)

instance version_before_decidable : DecidableRel version_before :=
  fun a b => by unfold version_before; exact inferInstance

/-- Modelled from the spec: `get_versions` of `StructuredDataVersions` (code not among the
sources) returns the current tips in the order `version_before`. -/
def get_versions (versions : StructuredDataVersions) : List VersionName :=
  (tips versions.nodes).insertionSort version_before

/-- Modelled from the spec: the orphan re-scan of `put` of `StructuredDataVersions` (code not
among the sources): the orphans keyed by a newly attached version are attached under it and
leave the buffer, then the orphans keyed by those, and so on; one unit of fuel per attached
version. -/
def attach_orphans : Nat → List VersionName → List (VersionName × Option VersionName) →
    List (VersionName × VersionName) →
    List (VersionName × Option VersionName) × List (VersionName × VersionName)
  | 0, _, nodes, orphans => (nodes, orphans)
  | _ + 1, [], nodes, orphans => (nodes, orphans)
  | fuel + 1, version :: work, nodes, orphans =>
    let waiting := ((orphans.filter (fun orphan => orphan.1 = version)).map Prod.snd).dedup
    let fresh := waiting.filter (fun child => parent_of nodes child = none)
    attach_orphans fuel (work ++ fresh) (nodes ++ fresh.map (fun child => (child, some version)))
      (orphans.filter (fun orphan => orphan.1 ≠ version))

/-- Modelled from the spec: the trigger of the eviction of `StructuredDataVersions` (code not
among the sources): more nodes than `max_versions` or more tips than `max_branches`. -/
def over_capacity (versions : StructuredDataVersions) : Bool :=
  decide (versions.max_versions < versions.nodes.length) ||
    decide (versions.max_branches < (tips versions.nodes).length)

/-- Modelled from the spec: the cases of `put` of `StructuredDataVersions` (code not among the
sources) before eviction. Without old version the new one becomes the root, and is rejected
when a different root exists; with an absent old version the pair joins the orphan buffer,
whose oldest entry leaves when the capacity is exceeded; with a present old version the
edge is added and the waiting orphans are attached; a version already under the same parent
changes nothing, and one already under another parent is rejected
(`SdvVersionAlreadyExists`). -/
def put_version (versions : StructuredDataVersions) (old_version : Option VersionName)
    (new_version : VersionName) : Except SdvError StructuredDataVersions :=
  match old_version with
  | none =>
    match root versions.nodes with
    | none => .ok { versions with nodes := versions.nodes ++ [(new_version, none)] }
    | some existing =>
      if existing = new_version then .ok versions
      else .error .SdvCannotOverwriteExistingRoot
  | some p =>
    match parent_of versions.nodes p with
    | none =>
      let pushed := versions.orphans ++ [(p, new_version)]
      .ok { versions with
            orphans := if versions.max_orphans < pushed.length then pushed.tail else pushed }
    | some _ =>
      match parent_of versions.nodes new_version with
      | some existing =>
        if existing = some p then .ok versions else .error .SdvVersionAlreadyExists
      | none =>
        let attached := attach_orphans (versions.orphans.length + 1) [new_version]
          (versions.nodes ++ [(new_version, some p)]) versions.orphans
        .ok { versions with nodes := attached.1, orphans := attached.2 }

/-- Modelled from the spec: `put` of `StructuredDataVersions` (code not among the sources):
the cases of `put_version`, then the eviction when a limit is exceeded. The spec describes the
eviction policy in two ways (the oldest tip; the oldest node that is not a tip, then the root),
so the policy is the parameter `evict`. -/
def put (evict : StructuredDataVersions → StructuredDataVersions)
    (versions : StructuredDataVersions) (old_version : Option VersionName)
    (new_version : VersionName) : Except SdvError StructuredDataVersions :=
  match put_version versions old_version new_version with
  | .ok stored => .ok (if over_capacity stored then evict stored else stored)
  | .error e => .error e

/-- Modelled from the spec: the walk of `delete_branch_until_fork` of `StructuredDataVersions`
(code not among the sources): from the current node towards the root, collecting nodes; it
stops below a parent with two or more children and at the root. Every step lowers the index
by one, so the index of the start bounds the number of steps. -/
def branch_until_fork (nodes : List (VersionName × Option VersionName)) :
    Nat → VersionName → List VersionName
  | 0, current => [current]
  | fuel + 1, current =>
    match parent_of nodes current with
    | some (some p) =>
      if 2 ≤ (children nodes p).length then [current]
      else current :: branch_until_fork nodes fuel p
    | _ => [current]

/-- Modelled from the spec: `delete_branch_until_fork` of `StructuredDataVersions` (code not
among the sources): the nodes of the walk from the tip are removed; an absent version and a
version that is not a tip are rejected. -/
def delete_branch_until_fork (versions : StructuredDataVersions) (tip : VersionName) :
    Except SdvError StructuredDataVersions :=
  match parent_of versions.nodes tip with
  | none => .error .SdvVersionNotFound
  | some _ =>
    if (children versions.nodes tip).isEmpty then
      .ok { versions with
            nodes := versions.nodes.filter
              (fun node => decide (node.1 ∉ branch_until_fork versions.nodes tip.index tip)) }
    else .error .SdvNoBranchToDelete

/-- The constraints of the spec on a version tree: every version is a node once, at most one
node has no parent, and the parent of every other node is a node whose index is one less. -/
def version_tree (nodes : List (VersionName × Option VersionName)) : Prop :=
  (nodes.map Prod.fst).Nodup ∧ (nodes.filter (fun node => node.2 = none)).length ≤ 1 ∧
    ∀ node ∈ nodes, ∀ p ∈ node.2, parent_of nodes p ≠ none ∧ node.1.index = p.index + 1

instance version_tree_decidable (nodes : List (VersionName × Option VersionName)) :
    Decidable (version_tree nodes) := by
  unfold version_tree
  exact inferInstance

/-- The nodes that the claim on `delete_branch_until_fork` expects to be removed: the start,
and, as long as the parent has fewer than two children, the nodes of the parent's branch. -/
inductive on_branch (nodes : List (VersionName × Option VersionName)) :
    VersionName → VersionName → Prop where
  | here (start : VersionName) : on_branch nodes start start
  | up (start p version : VersionName) : parent_of nodes start = some (some p) →
      (children nodes p).length < 2 → on_branch nodes p version → on_branch nodes start version

/-- Version names of the test `FUNC_DeleteBranchUntilFork`, with one-byte ids. -/
def v0_aaa : VersionName := { index := 0, id := [97] }

/-- Version `v1_bbb` of the test. -/
def v1_bbb : VersionName := { index := 1, id := [98] }

/-- Version `v2_ccc` of the test. -/
def v2_ccc : VersionName := { index := 2, id := [99] }

/-- Version `v2_ddd` of the test. -/
def v2_ddd : VersionName := { index := 2, id := [100] }

/-- Version `v3_fff` of the test. -/
def v3_fff : VersionName := { index := 3, id := [102] }

/-- Version `v4_iii` of the test. -/
def v4_iii : VersionName := { index := 4, id := [105] }

/-- Eviction policy of the concrete runs: the oldest tip is removed. -/
def evict_oldest_tip (versions : StructuredDataVersions) : StructuredDataVersions :=
  match (get_versions versions).getLast? with
  | none => versions
  | some oldest => { versions with nodes := versions.nodes.filter (fun node => node.1 ≠ oldest) }

/-- A version history of at most 100 versions and 20 branches, with the given nodes and no
orphan. -/
def demoVersions (nodes : List (VersionName × Option VersionName)) : StructuredDataVersions :=
  { max_versions := 100, max_branches := 20, max_orphans := 10, nodes := nodes, orphans := [] }

/-- The puts of the test `FUNC_DeleteBranchUntilFork`, in order, on a history of at most 100
versions and 20 branches. -/
def forkTree : Except SdvError StructuredDataVersions :=
  [(some v0_aaa, v1_bbb), (some v1_bbb, v2_ccc), (some v2_ccc, v3_fff), (some v1_bbb, v2_ddd),
    (some v3_fff, v4_iii)].foldl
    (fun versions edge => versions.bind (fun s => put evict_oldest_tip s edge.1 edge.2))
    (put evict_oldest_tip (demoVersions []) none v0_aaa)

/-- The nodes that the puts of the test leave. -/
def forkNodes : List (VersionName × Option VersionName) :=
  [(v0_aaa, none), (v1_bbb, some v0_aaa), (v2_ccc, some v1_bbb), (v3_fff, some v2_ccc),
    (v2_ddd, some v1_bbb), (v4_iii, some v3_fff)]

/-! ## The disk-based store (spec, section 4.9) -/

/-- Modelled from the spec: the file names of `DiskBasedStorage`, whose code is not among the
sources (only `disk_based_storage_test.cc` is). Per the spec and the test a name is an index
and the encoded hash of the content. -/
structure FileName where
  index : Nat
  hash : Bytes
  deriving DecidableEq, Repr

/-- Modelled from the spec: `DiskBasedStorage`, whose code is not among the sources: one file
per index, each with the hash part of its name and its content, ordered by index. -/
structure DiskBasedStorage where
  files : List (Nat × (Bytes × Bytes))
  deriving DecidableEq, Repr

/-- Modelled from the spec: the constructor of `DiskBasedStorage` (code not among the
sources). Per the test `BEH_ConstructorDestructor` it generates one empty file. -/
def DiskBasedStorage.create : DiskBasedStorage := { files := [(0, ([], []))] }

/-- Modelled from the spec: `PutFile` of `DiskBasedStorage` (code not among the sources): the
file of that index is written, replacing the one the index had. -/
def PutFile (storage : DiskBasedStorage) (path : FileName) (content : Bytes) :
    DiskBasedStorage :=
  { files := map_put path.index (path.hash, content) storage.files }

/-- Modelled from the spec: `GetFile` of `DiskBasedStorage` (code not among the sources): the
content of the file of that name; the result being a `NonEmptyString`, an absent file and an
empty one give an error. -/
def GetFile (storage : DiskBasedStorage) (path : FileName) : Outcome Bytes :=
  match map_find path.index storage.files with
  | some file =>
    if file.1 = path.hash ∧ file.2 ≠ [] then .returned file.2 else .raised .no_such_element
  | none => .raised .no_such_element

/-- Modelled from the spec: `GetFileCount` of `DiskBasedStorage` (code not among the
sources). -/
def GetFileCount (storage : DiskBasedStorage) : Nat := storage.files.length

/-- Modelled from the spec: `GetFileNames` of `DiskBasedStorage` (code not among the
sources). -/
def GetFileNames (storage : DiskBasedStorage) : List FileName :=
  storage.files.map (fun file => { index := file.1, hash := file.2.1 })

/-- The puts of a run on a new `DiskBasedStorage`, in order. -/
def put_files (puts : List (FileName × Bytes)) : DiskBasedStorage :=
  puts.foldl (fun storage file => PutFile storage file.1 file.2) DiskBasedStorage.create

/-- Three files with the indices 2, 0, 1, in this order. -/
def demoFiles : List (FileName × Bytes) :=
  [({ index := 2, hash := [12] }, [3, 3]), ({ index := 0, hash := [10] }, [1]),
    ({ index := 1, hash := [11] }, [2])]

/-! ## Ownership of the stored records -/

section Ownership

variable {G K V M : Type} [LinearOrder G]

/-- Every key of the store decodes, by its first two bytes, to the GroupId of a registered
group. -/
def store_owned (db : GroupDb G M) : Prop :=
  ∀ entry ∈ db.leveldb_, ∃ element ∈ db.group_map_, GetGroupId entry.1 = element.2.1

/-- What the delete loop of `DeleteGroupEntries(iterator)` does as far as it depends on the
number of collected keys and on the backend statuses only: whether every `Delete` succeeded,
how many did before the first failure, and the statuses left for later backend calls. -/
def delete_run : Nat → List Bool → Bool × Nat × List Bool
  | 0, faults => (true, 0, faults)
  | count + 1, faults =>
    if (next_fault faults).1 then (false, 0, (next_fault faults).2)
    else
      ((delete_run count (next_fault faults).2).1,
        (delete_run count (next_fault faults).2).2.1 + 1,
        (delete_run count (next_fault faults).2).2.2)

end Ownership

/-! ## Runs that differ in the random draws -/

section Simulation

variable {G K V M : Type} [LinearOrder G]

/-- What the caller of a public function observes: the value returned or the error thrown. -/
inductive Observation (G K V M : Type) where
  | unit (outcome : Outcome Unit)
  | slot (outcome : Outcome (Option V))
  | transfer (transfer_info : TransferInfo G K V M)
  | metadata (outcome : Outcome M)
  | value (outcome : Outcome V)
  | contents (outcome : Outcome (Contents G K V M))

/-- The observation a public call gives in a state. -/
def observe (P : Persona G K V M) (db : GroupDb G M) (env : Env) :
    Call G K V M → Observation G K V M
  | .add_group group_name metadata => .unit (AddGroup db group_name metadata env).1
  | .delete_group group_name => .unit (DeleteGroup db group_name env).1
  | .commit_name group_name functor => .unit (Commit_name db group_name functor).outcome
  | .commit_key key functor => .slot (Commit_key P db key functor env).outcome
  | .get_transfer_info matrix_change => .transfer (GetTransferInfo P db matrix_change env).1
  | .handle_transfer content => .unit (HandleTransfer P db content env).1
  | .get_metadata group_name => .metadata (GetMetadata db group_name)
  | .get_value key => .value (GetValue P db key env)
  | .get_contents group_name => .contents (GetContents P db group_name)

/-- Whether the observation is that of a call still inside the GroupId allocation loop, the
supplied draws being used up. -/
def Observation.still_drawing : Observation G K V M → Bool
  | .unit .spinning => true
  | .slot .spinning => true
  | .metadata .spinning => true
  | .value .spinning => true
  | .contents .spinning => true
  | _ => false

/-- The observations of a sequence of public calls, each with its random draws and backend
statuses, from a given state. -/
def observations (P : Persona G K V M) : GroupDb G M → List (Call G K V M × Env) →
    List (Observation G K V M)
  | _, [] => []
  | db, step :: rest =>
    observe P db step.2 step.1 :: observations P (exec P db step.2 step.1) rest

/-- Two runs make the same calls and meet the same backend statuses; the draws are free. -/
def same_calls (steps steps' : List (Call G K V M × Env)) : Prop :=
  List.Forall₂ (fun step step' => step.1 = step'.1 ∧ step.2.faults = step'.2.faults) steps steps'

/-- Two registry entries with the same name and the same metadata; the GroupIds are free. -/
def same_group (element element' : G × (GroupId × M)) : Prop :=
  element.1 = element'.1 ∧ element.2.2 = element'.2.2

/-- The records of a group without the GroupId: the key bytes after the prefix and the value,
in store order. -/
def group_records (group_id : GroupId) (store : List (Bytes × Bytes)) : List (Bytes × Bytes) :=
  (store.filter (fun entry => GetGroupId entry.1 == group_id)).map
    (fun entry => (entry.1.drop kPrefixWidth_, entry.2))

/-- Two databases that differ in the GroupIds only: the registries list the same names with
the same metadata, and corresponding groups hold the same records. -/
structure same_up_to_ids (db db' : GroupDb G M) : Prop where
  registry : List.Forall₂ same_group db.group_map_ db'.group_map_
  records : ∀ (n : G) (it it' : GroupId × M), map_find n db.group_map_ = some it →
    map_find n db'.group_map_ = some it' → ∀ key_string : Bytes,
      map_find (ToFixedWidthString kPrefixWidth_ it.1 ++ key_string) db.leveldb_ =
        map_find (ToFixedWidthString kPrefixWidth_ it'.1 ++ key_string) db'.leveldb_

end Simulation

/-- A run of five public calls on the test persona: `AddGroup(7, 100)` with the random source
returning `r`, a commit that stores `[9, 9]` under `demoKey`, and three reads. -/
def demoRun (r : Int) : List (Call Nat TestKey Bytes Nat × Env) :=
  [(.add_group 7 100, Env.working [r]), (.commit_key demoKey put_nine, Env.working []),
    (.get_value demoKey, Env.working []), (.get_contents 7, Env.working []),
    (.get_transfer_info demoMatrix, Env.working [])]

/-! ## Lemmas on ordered maps -/

section MapLemmas

variable {κ β : Type} [LinearOrder κ]

theorem map_find_cons (k k0 : κ) (v0 : β) (t : List (κ × β)) :
    map_find k ((k0, v0) :: t) = if k0 = k then some v0 else map_find k t := rfl

theorem map_place_cons (k k0 : κ) (v v0 : β) (t : List (κ × β)) :
    map_place k v ((k0, v0) :: t) =
      if k < k0 then (k, v) :: (k0, v0) :: t else (k0, v0) :: map_place k v t := rfl

theorem map_erase_cons (k k0 : κ) (v0 : β) (t : List (κ × β)) :
    map_erase k ((k0, v0) :: t) =
      if k0 = k then map_erase k t else (k0, v0) :: map_erase k t := rfl

theorem map_modify_cons (k k0 : κ) (f : β → β) (v0 : β) (t : List (κ × β)) :
    map_modify k f ((k0, v0) :: t) =
      (if k0 = k then (k0, f v0) else (k0, v0)) :: map_modify k f t := rfl

theorem map_find_place_self (k : κ) (v : β) (m : List (κ × β)) (habsent : map_find k m = none) :
    map_find k (map_place k v m) = some v := by
  induction m with
  | nil => simp [map_place, map_find]
  | cons hd t ih =>
    obtain ⟨k0, v0⟩ := hd
    rw [map_find_cons] at habsent
    rw [map_place_cons]
    split_ifs at habsent with h0
    split_ifs with h
    · simp [map_find_cons]
    · rw [map_find_cons, if_neg h0]
      exact ih habsent

theorem map_find_place_of_ne {k k' : κ} (v : β) (m : List (κ × β)) (hne : k ≠ k') :
    map_find k' (map_place k v m) = map_find k' m := by
  induction m with
  | nil => simp [map_place, map_find, hne]
  | cons hd t ih =>
    obtain ⟨k0, v0⟩ := hd
    rw [map_place_cons]
    split_ifs with h
    · rw [map_find_cons, if_neg hne]
    · rw [map_find_cons, map_find_cons, ih]

theorem map_find_erase_self (k : κ) (m : List (κ × β)) :
    map_find k (map_erase k m) = none := by
  induction m with
  | nil => simp [map_erase, map_find]
  | cons hd t ih =>
    obtain ⟨k0, v0⟩ := hd
    rw [map_erase_cons]
    split_ifs with h
    · exact ih
    · rw [map_find_cons, if_neg h]
      exact ih

theorem map_find_erase_of_ne {k k' : κ} (m : List (κ × β)) (hne : k ≠ k') :
    map_find k' (map_erase k m) = map_find k' m := by
  induction m with
  | nil => simp [map_erase, map_find]
  | cons hd t ih =>
    obtain ⟨k0, v0⟩ := hd
    rw [map_erase_cons, map_find_cons]
    split_ifs with h h1 h1
    · exact absurd (h.symm.trans h1) hne
    · exact ih
    · rw [map_find_cons, if_pos h1]
    · rw [map_find_cons, if_neg h1]
      exact ih

theorem map_find_put_self (k : κ) (v : β) (m : List (κ × β)) :
    map_find k (map_put k v m) = some v :=
  map_find_place_self k v (map_erase k m) (map_find_erase_self k m)

theorem map_find_put_of_ne {k k' : κ} (v : β) (m : List (κ × β)) (hne : k ≠ k') :
    map_find k' (map_put k v m) = map_find k' m := by
  unfold map_put
  rw [map_find_place_of_ne v _ hne, map_find_erase_of_ne m hne]

theorem map_find_modify (k k' : κ) (f : β → β) (m : List (κ × β)) :
    map_find k' (map_modify k f m) =
      if k' = k then (map_find k' m).map f else map_find k' m := by
  induction m with
  | nil => simp [map_modify, map_find]
  | cons hd t ih =>
    obtain ⟨k0, v0⟩ := hd
    rw [map_modify_cons]
    by_cases h0 : k0 = k
    · rw [if_pos h0, map_find_cons, map_find_cons, ih]
      by_cases h1 : k0 = k'
      · have h2 : k' = k := h1.symm.trans h0
        simp [h1, h2]
      · simp [h1]
    · rw [if_neg h0, map_find_cons, map_find_cons, ih]
      by_cases h1 : k0 = k'
      · have h2 : ¬ k' = k := fun h => h0 (h1.trans h)
        simp [h1, h2]
      · simp [h1]

theorem map_place_length (k : κ) (v : β) (m : List (κ × β)) :
    (map_place k v m).length = m.length + 1 := by
  induction m with
  | nil => simp [map_place]
  | cons hd t ih =>
    obtain ⟨k0, v0⟩ := hd
    rw [map_place_cons]
    split_ifs with h
    · simp
    · simp [ih]

theorem map_erase_length_le (k : κ) (m : List (κ × β)) :
    (map_erase k m).length ≤ m.length := by
  induction m with
  | nil => simp [map_erase]
  | cons hd t ih =>
    obtain ⟨k0, v0⟩ := hd
    rw [map_erase_cons]
    split_ifs with h
    · simp only [List.length_cons]
      omega
    · simp only [List.length_cons]
      omega

theorem map_modify_length (k : κ) (f : β → β) (m : List (κ × β)) :
    (map_modify k f m).length = m.length := by
  simp [map_modify]

theorem map_place_perm (k : κ) (v : β) (m : List (κ × β)) :
    List.Perm (map_place k v m) ((k, v) :: m) := by
  induction m with
  | nil => simp [map_place]
  | cons hd t ih =>
    obtain ⟨k0, v0⟩ := hd
    rw [map_place_cons]
    split_ifs with h
    · exact List.Perm.refl _
    · exact (List.Perm.cons (k0, v0) ih).trans (List.Perm.swap (k, v) (k0, v0) t)

theorem map_erase_sublist (k : κ) (m : List (κ × β)) :
    List.Sublist (map_erase k m) m := by
  induction m with
  | nil => simp [map_erase]
  | cons hd t ih =>
    obtain ⟨k0, v0⟩ := hd
    rw [map_erase_cons]
    split_ifs with h
    · exact List.Sublist.cons _ ih
    · exact List.Sublist.cons₂ _ ih

theorem map_find_eq_none_iff (k : κ) (m : List (κ × β)) :
    map_find k m = none ↔ ∀ entry ∈ m, entry.1 ≠ k := by
  induction m with
  | nil => simp [map_find]
  | cons hd t ih =>
    obtain ⟨k0, v0⟩ := hd
    rw [map_find_cons]
    by_cases h : k0 = k
    · simp [h]
    · simp [h, ih]

theorem mem_of_map_find (k : κ) (v : β) (m : List (κ × β)) (h : map_find k m = some v) :
    (k, v) ∈ m := by
  induction m with
  | nil => simp [map_find] at h
  | cons hd t ih =>
    obtain ⟨k0, v0⟩ := hd
    rw [map_find_cons] at h
    by_cases h0 : k0 = k
    · rw [if_pos h0] at h
      have hv : v0 = v := by simpa using h
      rw [h0, hv]
      exact List.mem_cons_self _ _
    · rw [if_neg h0] at h
      exact List.mem_cons_of_mem _ (ih h)

end MapLemmas

/-! ## Lemmas on the registry and on commits -/

section CommitLemmas

variable {G K V M : Type} [LinearOrder G]

theorem map_find_set_metadata (n n' : G) (m : M) (gm : GroupMap G M) :
    map_find n' (set_metadata n m gm) =
      if n' = n then (map_find n' gm).map (fun second => (second.1, m)) else map_find n' gm :=
  map_find_modify n n' _ gm

theorem FindGroup_returned_iff (db : GroupDb G M) (n : G) (it : GroupId × M) :
    FindGroup db n = .returned it ↔ map_find n db.group_map_ = some it := by
  unfold FindGroup
  cases h : map_find n db.group_map_ <;> simp

theorem FindGroup_raised_iff (db : GroupDb G M) (n : G) :
    FindGroup db n = .raised .no_such_account ↔ map_find n db.group_map_ = none := by
  unfold FindGroup
  cases h : map_find n db.group_map_ <;> simp

theorem FindGroup_cases (db : GroupDb G M) (n : G) :
    (∃ it, FindGroup db n = .returned it) ∨ FindGroup db n = .raised .no_such_account := by
  unfold FindGroup
  cases h : map_find n db.group_map_ with
  | none => exact Or.inr rfl
  | some it => exact Or.inl ⟨it, rfl⟩

/-- Replacing a group's metadata keeps the GroupId every name resolves to. -/
theorem FindGroup_set_metadata_id (db : GroupDb G M) (n n' : G) (m : M) :
    (map_find n' (set_metadata n m db.group_map_)).map Prod.fst =
      (map_find n' db.group_map_).map Prod.fst := by
  rw [map_find_set_metadata]
  split_ifs with h
  · cases map_find n' db.group_map_ <;> simp
  · rfl

/-- A read of `GetValue` depends on the registry only through the GroupId of the key's group. -/
theorem GetValue_congr (P : Persona G K V M) (db db' : GroupDb G M) (k : K) (env : Env)
    (hid : (map_find (P.group_name k) db'.group_map_).map Prod.fst =
      (map_find (P.group_name k) db.group_map_).map Prod.fst)
    (hstore : ∀ g, map_find (MakeLevelDbKey P g k) db'.leveldb_ =
      map_find (MakeLevelDbKey P g k) db.leveldb_) :
    GetValue P db' k env = GetValue P db k env := by
  unfold GetValue FindGroup Get
  cases h : map_find (P.group_name k) db.group_map_ with
  | none =>
    rw [h] at hid
    cases h' : map_find (P.group_name k) db'.group_map_ with
    | none => rfl
    | some e => rw [h'] at hid; simp at hid
  | some e =>
    rw [h] at hid
    cases h' : map_find (P.group_name k) db'.group_map_ with
    | none => rw [h'] at hid; simp at hid
    | some e' =>
      rw [h'] at hid
      have he : e'.1 = e.1 := by simpa using hid
      simp only [he, hstore]

/-- Unfolding of `Commit(const Key&, functor)` for a registered group. -/
theorem Commit_key_registered (P : Persona G K V M) (db : GroupDb G M) (k : K)
    (f : RecordFunctor M V) (env : Env) (it : GroupId × M)
    (hreg : FindGroup db (P.group_name k) = .returned it) :
    Commit_key P db k f env =
      if (next_fault env.faults).1 then
        { outcome := .raised .failed_to_handle_request, db := db,
          events := [.update_group (P.group_name k)] }
      else
        { outcome := (commit_action P db k it (loaded_value P db k it) f
            (next_fault (next_fault env.faults).2).1).1,
          db := (commit_action P db k it (loaded_value P db k it) f
            (next_fault (next_fault env.faults).2).1).2,
          events := [.functor_invoked, .update_group (P.group_name k)] } := by
  unfold Commit_key FindOrCreateGroup
  simp only [hreg]
  unfold Get loaded_value UpdateGroup
  split_ifs with hfault
  · rfl
  · cases hrec : map_find (MakeLevelDbKey P it.1 k) db.leveldb_ <;> simp

/-- Unfolding of `Commit(const Key&, functor)` for a group that is not registered. -/
theorem Commit_key_unregistered (P : Persona G K V M) (db : GroupDb G M) (k : K)
    (f : RecordFunctor M V) (env : Env)
    (hreg : FindGroup db (P.group_name k) = .raised .no_such_account) :
    Commit_key P db k f env =
      { outcome := .raised .no_such_account, db := db, events := [] } := by
  unfold Commit_key FindOrCreateGroup
  simp only [hreg]

/-- Unfolding of `Commit(const GroupName&, functor)` for a group that is not registered. -/
theorem Commit_name_unregistered (db : GroupDb G M) (n : G) (f : MetadataFunctor M)
    (hreg : FindGroup db n = .raised .no_such_account) :
    Commit_name db n f = { outcome := .raised .no_such_account, db := db, events := [] } := by
  unfold Commit_name FindOrCreateGroup
  simp only [hreg]

/-- State in which the functor leaves the database: its metadata written through the
reference, the store untouched. -/
theorem commit_action_error (P : Persona G K V M) (db : GroupDb G M) (k : K)
    (it : GroupId × M) (value : Option V) (f : RecordFunctor M V) (fault : Bool) (e : Error)
    (h2 : (f it.2 value).2 = .error e) :
    commit_action P db k it value f fault =
      (.raised e, { group_map_ := set_metadata (P.group_name k) (f it.2 value).1.1 db.group_map_,
                    leveldb_ := db.leveldb_ }) := by
  unfold commit_action
  simp [h2]

theorem commit_action_put_none (P : Persona G K V M) (db : GroupDb G M) (k : K)
    (it : GroupId × M) (value : Option V) (f : RecordFunctor M V) (fault : Bool)
    (h2 : (f it.2 value).2 = .ok .kPut) (h1 : (f it.2 value).1.2 = none) :
    commit_action P db k it value f fault =
      (.raised .null_pointer,
        { group_map_ := set_metadata (P.group_name k) (f it.2 value).1.1 db.group_map_,
          leveldb_ := db.leveldb_ }) := by
  unfold commit_action
  simp [h2, h1]

theorem commit_action_put_some (P : Persona G K V M) (db : GroupDb G M) (k : K)
    (it : GroupId × M) (value : Option V) (f : RecordFunctor M V) (fault : Bool) (v : V)
    (h2 : (f it.2 value).2 = .ok .kPut) (h1 : (f it.2 value).1.2 = some v) :
    commit_action P db k it value f fault =
      if fault then
        (.raised .failed_to_handle_request,
          { group_map_ := set_metadata (P.group_name k) (f it.2 value).1.1 db.group_map_,
            leveldb_ := db.leveldb_ })
      else
        (.returned none,
          { group_map_ := set_metadata (P.group_name k) (f it.2 value).1.1 db.group_map_,
            leveldb_ := map_put (MakeLevelDbKey P it.1 k) (P.Serialise v) db.leveldb_ }) := by
  unfold commit_action Put
  cases fault <;> simp [h2, h1]

theorem commit_action_delete_some (P : Persona G K V M) (db : GroupDb G M) (k : K)
    (it : GroupId × M) (value : Option V) (f : RecordFunctor M V) (fault : Bool) (v : V)
    (h2 : (f it.2 value).2 = .ok .kDelete) (h1 : (f it.2 value).1.2 = some v) :
    commit_action P db k it value f fault =
      if fault then
        (.raised .failed_to_handle_request,
          { group_map_ := set_metadata (P.group_name k) (f it.2 value).1.1 db.group_map_,
            leveldb_ := db.leveldb_ })
      else
        (.returned (some v),
          { group_map_ := set_metadata (P.group_name k) (f it.2 value).1.1 db.group_map_,
            leveldb_ := map_erase (MakeLevelDbKey P it.1 k) db.leveldb_ }) := by
  unfold commit_action Delete
  cases fault <;> simp [h2, h1]

theorem commit_action_delete_none (P : Persona G K V M) (db : GroupDb G M) (k : K)
    (it : GroupId × M) (value : Option V) (f : RecordFunctor M V) (fault : Bool)
    (h2 : (f it.2 value).2 = .ok .kDelete) (h1 : (f it.2 value).1.2 = none) :
    commit_action P db k it value f fault =
      (.returned none,
        { group_map_ := set_metadata (P.group_name k) (f it.2 value).1.1 db.group_map_,
          leveldb_ := db.leveldb_ }) := by
  unfold commit_action
  simp [h2, h1]

/-- What `commit_action` does to the registry: only the metadata of the key's group. -/
theorem commit_action_group_map (P : Persona G K V M) (db : GroupDb G M) (k : K)
    (it : GroupId × M) (value : Option V) (f : RecordFunctor M V) (fault : Bool) :
    (commit_action P db k it value f fault).2.group_map_ =
      set_metadata (P.group_name k) (f it.2 value).1.1 db.group_map_ := by
  cases h2 : (f it.2 value).2 with
  | error e => rw [commit_action_error P db k it value f fault e h2]
  | ok a =>
    cases a <;> cases h1 : (f it.2 value).1.2
    · rw [commit_action_put_none P db k it value f fault h2 h1]
    · rw [commit_action_put_some P db k it value f fault _ h2 h1]
      split_ifs <;> rfl
    · rw [commit_action_delete_none P db k it value f fault h2 h1]
    · rw [commit_action_delete_some P db k it value f fault _ h2 h1]
      split_ifs <;> rfl

/-- A read after a commit on a registered group: the key's group still resolves to the same
GroupId, so the read is decided by the store alone. -/
theorem GetValue_set_metadata (P : Persona G K V M) (db : GroupDb G M) (k : K)
    (it : GroupId × M) (m' : M) (store : List (Bytes × Bytes)) (env : Env)
    (hreg : FindGroup db (P.group_name k) = .returned it)
    (hget : (next_fault env.faults).1 = false) :
    GetValue P { group_map_ := set_metadata (P.group_name k) m' db.group_map_,
                 leveldb_ := store } k env =
      match map_find (MakeLevelDbKey P it.1 k) store with
      | some value_string => .returned (P.parse_value value_string)
      | none => .raised .no_such_element := by
  rw [FindGroup_returned_iff] at hreg
  unfold GetValue FindGroup Get
  simp only [map_find_set_metadata, if_true, hreg, Option.map_some', hget]
  rfl

end CommitLemmas

/-! ## Lemmas on GroupId allocation and on the registry -/

section AllocationLemmas

variable {G K V M : Type}

theorem id_in_use_eq_false_iff (gm : GroupMap G M) (g : GroupId) :
    id_in_use gm g = false ↔ g ∉ gm.map (fun element => element.2.1) := by
  unfold id_in_use
  rw [Bool.eq_false_iff]
  simp only [ne_eq, List.any_eq_true, beq_iff_eq, List.mem_map, not_exists, not_and]
  constructor
  · intro h x hx hg
    exact h x hx hg.symm
  · intro h x hx hg
    exact h x hx hg.symm

/-- The allocation loop ends as soon as one of the supplied draws gives an unused id. -/
theorem pick_group_id_some (gm : GroupMap G M) (draws : List Int)
    (h : ∃ r ∈ draws, id_in_use gm (candidate_id r) = false) :
    ∃ g, pick_group_id gm draws = some g := by
  induction draws with
  | nil =>
    obtain ⟨r, hr, _⟩ := h
    simp at hr
  | cons d rest ih =>
    unfold pick_group_id
    by_cases hd : id_in_use gm (candidate_id d) = true
    · rw [if_pos hd]
      apply ih
      obtain ⟨r, hr, hfree⟩ := h
      rcases List.mem_cons.mp hr with heq | hmem
      · rw [heq, hd] at hfree
        simp at hfree
      · exact ⟨r, hmem, hfree⟩
    · rw [if_neg hd]
      exact ⟨_, rfl⟩

/-- The id the allocation loop settles on is a reduced draw that no registered group has. -/
theorem pick_group_id_unused (gm : GroupMap G M) (draws : List Int) (g : GroupId)
    (h : pick_group_id gm draws = some g) :
    id_in_use gm g = false ∧ g < kGroupsLimit := by
  induction draws with
  | nil => simp [pick_group_id] at h
  | cons d rest ih =>
    unfold pick_group_id at h
    by_cases hd : id_in_use gm (candidate_id d) = true
    · rw [if_pos hd] at h
      exact ih h
    · rw [if_neg hd] at h
      have hg : candidate_id d = g := by simpa using h
      subst hg
      refine ⟨by simpa using hd, ?_⟩
      unfold candidate_id
      exact Nat.mod_lt _ (by decide)

/-- Fewer registered groups than ids: some id below the limit is unused. -/
theorem exists_unused_id (gm : GroupMap G M) (hlen : gm.length < kGroupsLimit) :
    ∃ g, g < kGroupsLimit ∧ id_in_use gm g = false := by
  by_contra hcon
  have hall : ∀ g, g < kGroupsLimit → g ∈ gm.map (fun element => element.2.1) := by
    intro g hg
    by_contra hnot
    exact hcon ⟨g, hg, (id_in_use_eq_false_iff gm g).mpr hnot⟩
  have hsub : Finset.range kGroupsLimit ⊆ (gm.map (fun element => element.2.1)).toFinset := by
    intro g hg
    rw [List.mem_toFinset]
    exact hall g (Finset.mem_range.mp hg)
  have hcard := Finset.card_le_card hsub
  rw [Finset.card_range] at hcard
  have hle := List.toFinset_card_le (gm.map (fun element => element.2.1))
  rw [List.length_map] at hle
  omega

theorem Put_group_map (P : Persona G K V M) (db : GroupDb G M) (kv : K × V) (g : GroupId)
    (fault : Bool) : (Put P db kv g fault).2.group_map_ = db.group_map_ := by
  unfold Put
  split_ifs <;> rfl

theorem put_all_group_map (P : Persona G K V M) (g : GroupId) (kvs : List (K × V))
    (db : GroupDb G M) (faults : List Bool) :
    (put_all P g kvs db faults).group_map_ = db.group_map_ := by
  induction kvs generalizing db faults with
  | nil => rfl
  | cons kv rest ih =>
    unfold put_all
    rw [ih, Put_group_map]

end AllocationLemmas

section RegistryLemmas

variable {G K V M : Type} [LinearOrder G]

/-- The three ways `AddGroupToMap` ends once the registry is not full. -/
theorem AddGroupToMap_cases (db : GroupDb G M) (n : G) (m : M) (draws : List Int) :
    (db.group_map_.length = kGroupsLimit - 1 ∧
      AddGroupToMap db n m draws = (.raised .failed_to_handle_request, db)) ∨
    (db.group_map_.length ≠ kGroupsLimit - 1 ∧ pick_group_id db.group_map_ draws = none ∧
      AddGroupToMap db n m draws = (.spinning, db)) ∨
    (db.group_map_.length ≠ kGroupsLimit - 1 ∧ (∃ g, pick_group_id db.group_map_ draws = some g) ∧
      (∃ it, map_find n db.group_map_ = some it) ∧
      AddGroupToMap db n m draws = (.raised .account_already_exists, db)) ∨
    (db.group_map_.length ≠ kGroupsLimit - 1 ∧ map_find n db.group_map_ = none ∧
      ∃ g, pick_group_id db.group_map_ draws = some g ∧
        AddGroupToMap db n m draws =
          (.returned (g, m),
            { group_map_ := map_place n (g, m) db.group_map_, leveldb_ := db.leveldb_ })) := by
  unfold AddGroupToMap
  by_cases hfull : db.group_map_.length = kGroupsLimit - 1
  · exact Or.inl ⟨hfull, by rw [if_pos hfull]⟩
  · rw [if_neg hfull]
    cases hpick : pick_group_id db.group_map_ draws with
    | none => exact Or.inr (Or.inl ⟨hfull, rfl, rfl⟩)
    | some g =>
      cases hfind : map_find n db.group_map_ with
      | none =>
        refine Or.inr (Or.inr (Or.inr ⟨hfull, rfl, g, rfl, ?_⟩))
        simp [map_insert, hfind]
      | some it =>
        refine Or.inr (Or.inr (Or.inl ⟨hfull, ⟨g, rfl⟩, ⟨it, rfl⟩, ?_⟩))
        simp [map_insert, hfind]

/-- The size guard of `AddGroupToMap`: a registry of `kGroupsLimit - 1` groups takes no more. -/
theorem AddGroup_full (db : GroupDb G M) (n : G) (m : M) (env : Env)
    (hfull : db.group_map_.length = kGroupsLimit - 1) :
    AddGroup db n m env = (.raised .failed_to_handle_request, db) := by
  unfold AddGroup AddGroupToMap
  rw [if_pos hfull]

theorem DeleteGroupEntries_group_map (db : GroupDb G M) (n : G) (faults : List Bool) :
    (DeleteGroupEntries db n faults).1.group_map_ = db.group_map_ ∨
      (DeleteGroupEntries db n faults).1.group_map_ = map_erase n db.group_map_ := by
  unfold DeleteGroupEntries
  cases hfind : FindGroup db n with
  | returned it =>
    simp only [DeleteGroupEntries_it]
    split_ifs
    · exact Or.inr rfl
    · exact Or.inl rfl
  | raised e => exact Or.inl rfl
  | spinning => exact Or.inl rfl

/-- A property of the registry that survives a metadata assignment, an erase, and the
placement of a new name under an unused id while the registry is not full, survives every
public call. -/
theorem exec_preserves (P : Persona G K V M) (Inv : GroupMap G M → Prop)
    (hmeta : ∀ gm n m, Inv gm → Inv (set_metadata n m gm))
    (herase : ∀ gm n, Inv gm → Inv (map_erase n gm))
    (hplace : ∀ gm n g m, Inv gm → gm.length ≠ kGroupsLimit - 1 → id_in_use gm g = false →
      map_find n gm = none → Inv (map_place n (g, m) gm))
    (db : GroupDb G M) (env : Env) (call : Call G K V M) (hinv : Inv db.group_map_) :
    Inv (exec P db env call).group_map_ := by
  have hadd : ∀ (n : G) (m : M) (draws : List Int),
      Inv (AddGroupToMap db n m draws).2.group_map_ := by
    intro n m draws
    rcases AddGroupToMap_cases db n m draws with h | h | h | h
    · rw [h.2]; exact hinv
    · rw [h.2.2]; exact hinv
    · rw [h.2.2.2]; exact hinv
    · obtain ⟨hfull, hfind, g, hpick, heq⟩ := h
      rw [heq]
      exact hplace _ n g m hinv hfull (pick_group_id_unused _ _ _ hpick).1 hfind
  have hdel : ∀ (d : GroupDb G M) (n : G) (faults : List Bool), Inv d.group_map_ →
      Inv (DeleteGroupEntries d n faults).1.group_map_ := by
    intro d n faults hd
    rcases DeleteGroupEntries_group_map d n faults with h | h
    · rw [h]; exact hd
    · rw [h]; exact herase _ n hd
  cases call with
  | add_group n m =>
    show Inv (AddGroup db n m env).2.group_map_
    have h := hadd n m env.draws
    unfold AddGroup
    cases hres : AddGroupToMap db n m env.draws with
    | mk out db' =>
      rw [hres] at h
      cases out <;> exact h
  | delete_group n => exact hdel db n env.faults hinv
  | commit_name n f =>
    show Inv (Commit_name db n f).db.group_map_
    unfold Commit_name FindOrCreateGroup
    cases hfind : FindGroup db n with
    | returned it => exact hmeta _ n _ hinv
    | raised e => exact hinv
    | spinning => exact hinv
  | commit_key k f =>
    show Inv (Commit_key P db k f env).db.group_map_
    rcases FindGroup_cases db (P.group_name k) with ⟨it, hfind⟩ | hfind
    · rw [Commit_key_registered P db k f env it hfind]
      split_ifs
      · exact hinv
      · simp only
        rw [commit_action_group_map]
        exact hmeta _ _ _ hinv
    · rw [Commit_key_unregistered P db k f env hfind]
      exact hinv
  | get_transfer_info mc =>
    show Inv (GetTransferInfo P db mc env).2.group_map_
    unfold GetTransferInfo
    simp only
    generalize (List.foldl (scan_group P db mc) ([], []) db.group_map_).2 = prune
    generalize env.faults = faults
    induction prune generalizing db faults with
    | nil => exact hinv
    | cons i rest ih =>
      unfold prune_groups
      exact ih _ (hdel db i faults hinv) (fun n m draws => by
        rcases AddGroupToMap_cases (DeleteGroupEntries db i faults).1 n m draws with h | h | h | h
        · rw [h.2]; exact hdel db i faults hinv
        · rw [h.2.2]; exact hdel db i faults hinv
        · rw [h.2.2.2]; exact hdel db i faults hinv
        · obtain ⟨hfull, hfind, g, hpick, heq⟩ := h
          rw [heq]
          exact hplace _ n g m (hdel db i faults hinv) hfull
            (pick_group_id_unused _ _ _ hpick).1 hfind) _
  | handle_transfer c =>
    show Inv (ApplyTransfer P db c env).2.group_map_
    unfold ApplyTransfer
    have h := hadd c.group_name c.metadata env.draws
    cases hfind : FindGroup db c.group_name with
    | returned it =>
      simp only
      rw [put_all_group_map]
      exact hinv
    | raised e =>
      simp only
      cases hres : AddGroupToMap db c.group_name c.metadata env.draws with
      | mk out db' =>
        rw [hres] at h
        cases out
        · simp only
          rw [put_all_group_map]
          exact h
        · exact h
        · exact h
    | spinning =>
      simp only
      cases hres : AddGroupToMap db c.group_name c.metadata env.draws with
      | mk out db' =>
        rw [hres] at h
        cases out
        · simp only
          rw [put_all_group_map]
          exact h
        · exact h
        · exact h
  | get_metadata n => exact hinv
  | get_value k => exact hinv
  | get_contents n => exact hinv

/-- Every reachable registry has a property that the three registry updates preserve and
the empty registry has. -/
theorem reachable_preserves (P : Persona G K V M) (Inv : GroupMap G M → Prop)
    (hinit : Inv [])
    (hmeta : ∀ gm n m, Inv gm → Inv (set_metadata n m gm))
    (herase : ∀ gm n, Inv gm → Inv (map_erase n gm))
    (hplace : ∀ gm n g m, Inv gm → gm.length ≠ kGroupsLimit - 1 → id_in_use gm g = false →
      map_find n gm = none → Inv (map_place n (g, m) gm))
    (db : GroupDb G M) (hreach : Reachable P db) : Inv db.group_map_ := by
  induction hreach with
  | init => exact hinit
  | step d env call _ ih => exact exec_preserves P Inv hmeta herase hplace d env call ih

theorem kGroupsLimit_eq : kGroupsLimit = 65536 := by decide

/-- Assigning a group's metadata leaves the list of GroupIds as it was. -/
theorem ids_set_metadata (n : G) (m : M) (gm : GroupMap G M) :
    (set_metadata n m gm).map (fun element => element.2.1) =
      gm.map (fun element => element.2.1) := by
  unfold set_metadata map_modify
  rw [List.map_map]
  apply List.map_congr_left
  intro entry _
  simp only [Function.comp]
  split_ifs <;> rfl

/-- GroupIds stay pairwise distinct under the three registry updates. -/
theorem reachable_ids_nodup (P : Persona G K V M) (db : GroupDb G M) (hreach : Reachable P db) :
    (db.group_map_.map (fun element => element.2.1)).Nodup := by
  refine reachable_preserves P (fun gm => (gm.map (fun element => element.2.1)).Nodup)
    List.nodup_nil ?_ ?_ ?_ db hreach
  · intro gm n m h
    show (List.map _ (set_metadata n m gm)).Nodup
    rw [ids_set_metadata]
    exact h
  · intro gm n h
    exact List.Nodup.sublist (List.Sublist.map _ (map_erase_sublist n gm)) h
  · intro gm n g m h _ hfree _
    have hperm := List.Perm.map (fun element : G × (GroupId × M) => element.2.1)
      (map_place_perm n (g, m) gm)
    refine (List.Perm.nodup_iff hperm).mpr ?_
    rw [List.map_cons, List.nodup_cons]
    exact ⟨(id_in_use_eq_false_iff gm g).mp hfree, h⟩

/-- No reachable registry holds more than `kGroupsLimit - 1` groups. -/
theorem reachable_length_le (P : Persona G K V M) (db : GroupDb G M) (hreach : Reachable P db) :
    db.group_map_.length ≤ kGroupsLimit - 1 := by
  refine reachable_preserves P (fun gm => gm.length ≤ kGroupsLimit - 1)
    (Nat.zero_le _) ?_ ?_ ?_ db hreach
  · intro gm n m h
    show (set_metadata n m gm).length ≤ _
    unfold set_metadata
    rw [map_modify_length]
    exact h
  · intro gm n h
    exact le_trans (map_erase_length_le n gm) h
  · intro gm n g m h hfull _ _
    show (map_place n (g, m) gm).length ≤ _
    rw [map_place_length]
    have h' : gm.length ≤ kGroupsLimit - 1 := h
    omega

end RegistryLemmas

/-! ## Lemmas on the key order -/

section KeyOrderLemmas

theorem bytes_cons_lt_cons (a b : Nat) (as bs : Bytes) :
    (a :: as : Bytes) < b :: bs ↔ a < b ∨ (a = b ∧ as < bs) := by
  constructor
  · intro h
    cases h with
    | cons h => exact Or.inr ⟨rfl, h⟩
    | rel h => exact Or.inl h
  · rintro (h | ⟨rfl, h⟩)
    · exact List.Lex.rel h
    · exact List.Lex.cons h

theorem bytes_not_lt_nil (as : Bytes) : ¬ as < ([] : Bytes) := by
  intro h
  cases h

theorem ToFixedWidthString_two (g : Nat) :
    ToFixedWidthString kPrefixWidth_ g = [g / 256 % 256, g % 256] := by
  simp [ToFixedWidthString, kPrefixWidth_]

/-- Decoding the prefix of an encoded key gives back the GroupId. -/
theorem GetGroupId_append (g : Nat) (rest : Bytes) (hg : g < kGroupsLimit) :
    GetGroupId (ToFixedWidthString kPrefixWidth_ g ++ rest) = g := by
  unfold GetGroupId
  rw [ToFixedWidthString_two]
  simp only [kPrefixWidth_, List.cons_append, List.nil_append, List.take_succ_cons,
    List.take_zero, FromFixedWidthString, List.foldl_cons, List.foldl_nil]
  rw [kGroupsLimit_eq] at hg
  omega

/-- Order of an encoded key against a bare prefix is the order of the GroupIds. -/
theorem encoded_lt_prefix_iff (g g' : Nat) (rest : Bytes) (hg : g < kGroupsLimit)
    (hg' : g' < kGroupsLimit) :
    (ToFixedWidthString kPrefixWidth_ g' ++ rest < ToFixedWidthString kPrefixWidth_ g) ↔
      g' < g := by
  rw [ToFixedWidthString_two, ToFixedWidthString_two]
  simp only [List.cons_append, List.nil_append, bytes_cons_lt_cons]
  rw [kGroupsLimit_eq] at hg hg'
  have hnil : ¬ rest < ([] : Bytes) := bytes_not_lt_nil rest
  constructor
  · rintro (h | ⟨h1, h | ⟨h2, h3⟩⟩)
    · omega
    · omega
    · exact absurd h3 hnil
  · intro h
    by_cases h1 : g' / 256 % 256 < g / 256 % 256
    · exact Or.inl h1
    · exact Or.inr ⟨by omega, Or.inl (by omega)⟩

/-- Order of two encoded keys gives the order of the GroupIds. -/
theorem encoded_lt_encoded (g g' : Nat) (rest rest' : Bytes) (hg : g < kGroupsLimit)
    (hg' : g' < kGroupsLimit)
    (h : ToFixedWidthString kPrefixWidth_ g ++ rest <
      ToFixedWidthString kPrefixWidth_ g' ++ rest') :
    g ≤ g' := by
  rw [ToFixedWidthString_two, ToFixedWidthString_two] at h
  simp only [List.cons_append, List.nil_append, bytes_cons_lt_cons] at h
  rw [kGroupsLimit_eq] at hg hg'
  rcases h with h | ⟨h1, h | ⟨h2, _⟩⟩ <;> omega

/-- Within one GroupId the order of encoded keys is the order of the key strings. -/
theorem encoded_lt_same_id (g : Nat) (rest rest' : Bytes) :
    (ToFixedWidthString kPrefixWidth_ g ++ rest < ToFixedWidthString kPrefixWidth_ g ++ rest') ↔
      rest < rest' := by
  rw [ToFixedWidthString_two]
  simp only [List.cons_append, List.nil_append, bytes_cons_lt_cons, lt_self_iff_false,
    true_and, false_or]

theorem dropWhile_congr_mem {α : Type} (p q : α → Bool) (l : List α)
    (h : ∀ e ∈ l, p e = q e) : l.dropWhile p = l.dropWhile q := by
  induction l with
  | nil => rfl
  | cons a t ih =>
    have ha : p a = q a := h a (List.mem_cons_self _ _)
    have ht : t.dropWhile p = t.dropWhile q :=
      ih (fun e he => h e (List.mem_cons_of_mem _ he))
    simp only [List.dropWhile_cons, ha, ht]

/-- In a list ordered by `f`, the run of elements with `f = g` at the front of a tail whose
elements are all at least `g` is every element with `f = g`. -/
theorem takeWhile_eq_filter_of_ge {α : Type} (f : α → Nat) (g : Nat) (l : List α)
    (hs : l.Pairwise (fun a b => f a ≤ f b)) (hge : ∀ e ∈ l, g ≤ f e) :
    l.takeWhile (fun e => f e == g) = l.filter (fun e => f e == g) := by
  induction l with
  | nil => rfl
  | cons a t ih =>
    rw [List.pairwise_cons] at hs
    have hga : g ≤ f a := hge a (List.mem_cons_self _ _)
    have hget : ∀ e ∈ t, g ≤ f e := fun e he => hge e (List.mem_cons_of_mem _ he)
    by_cases ha : f a = g
    · have hb : (f a == g) = true := by simpa using ha
      rw [List.takeWhile_cons, List.filter_cons, hb]
      simp only [if_true]
      rw [ih hs.2 hget]
    · have hb : (f a == g) = false := by simpa using ha
      rw [List.takeWhile_cons, List.filter_cons, hb]
      simp only [Bool.false_eq_true, if_false]
      symm
      rw [List.filter_eq_nil_iff]
      intro e he
      have h1 := hs.1 e he
      have hne : f e ≠ g := by omega
      simpa using hne

/-- In a list ordered by `f`: skip while `f < g`, then take while `f = g`, is the filter. -/
theorem dropWhile_takeWhile_eq_filter {α : Type} (f : α → Nat) (g : Nat) (l : List α)
    (hs : l.Pairwise (fun a b => f a ≤ f b)) :
    (l.dropWhile (fun e => decide (f e < g))).takeWhile (fun e => f e == g) =
      l.filter (fun e => f e == g) := by
  induction l with
  | nil => rfl
  | cons a t ih =>
    have hs' := hs
    rw [List.pairwise_cons] at hs'
    by_cases ha : f a < g
    · have hd : decide (f a < g) = true := by simpa using ha
      have hb : (f a == g) = false := by
        have hne : f a ≠ g := by omega
        simpa using hne
      rw [List.dropWhile_cons, hd, List.filter_cons, hb]
      simp only [if_true, Bool.false_eq_true, if_false]
      exact ih hs'.2
    · have hd : decide (f a < g) = false := by simpa using ha
      rw [List.dropWhile_cons, hd]
      simp only [Bool.false_eq_true, if_false]
      apply takeWhile_eq_filter_of_ge f g (a :: t) hs
      intro e he
      rcases List.mem_cons.mp he with heq | hmem
      · rw [heq]
        omega
      · have := hs'.1 e hmem
        omega

end KeyOrderLemmas

/-! ## Lemmas on ordered stores -/

section StoreLemmas

variable {G K V M : Type} {κ β : Type} [LinearOrder κ]

theorem map_erase_eq_filter (k : κ) (m : List (κ × β)) :
    map_erase k m = m.filter (fun entry => decide (entry.1 ≠ k)) := by
  induction m with
  | nil => rfl
  | cons hd t ih =>
    obtain ⟨k0, v0⟩ := hd
    rw [map_erase_cons, List.filter_cons, ih]
    by_cases h : k0 = k
    · simp [h]
    · simp [h]

theorem mem_map_place (k : κ) (v : β) (m : List (κ × β)) (entry : κ × β) :
    entry ∈ map_place k v m ↔ entry = (k, v) ∨ entry ∈ m := by
  rw [List.Perm.mem_iff (map_place_perm k v m), List.mem_cons]

theorem mem_map_erase (k : κ) (m : List (κ × β)) (entry : κ × β) :
    entry ∈ map_erase k m ↔ entry ∈ m ∧ entry.1 ≠ k := by
  rw [map_erase_eq_filter, List.mem_filter]
  simp

theorem keys_ascending_filter (p : κ × β → Bool) (m : List (κ × β)) (h : keys_ascending m) :
    keys_ascending (m.filter p) :=
  List.Pairwise.sublist (List.filter_sublist m) h

theorem keys_ascending_erase (k : κ) (m : List (κ × β)) (h : keys_ascending m) :
    keys_ascending (map_erase k m) :=
  List.Pairwise.sublist (map_erase_sublist k m) h

theorem keys_ascending_place (k : κ) (v : β) (m : List (κ × β)) (h : keys_ascending m)
    (habsent : ∀ entry ∈ m, entry.1 ≠ k) : keys_ascending (map_place k v m) := by
  induction m with
  | nil => simp [map_place, keys_ascending]
  | cons hd t ih =>
    obtain ⟨k0, v0⟩ := hd
    unfold keys_ascending at h ih ⊢
    rw [List.pairwise_cons] at h
    rw [map_place_cons]
    split_ifs with hlt
    · rw [List.pairwise_cons]
      refine ⟨?_, List.pairwise_cons.mpr h⟩
      intro e he
      rcases List.mem_cons.mp he with heq | hmem
      · rw [heq]
        exact hlt
      · exact lt_trans hlt (h.1 e hmem)
    · have hne : k0 ≠ k := habsent (k0, v0) (List.mem_cons_self _ _)
      have hk : k0 < k := lt_of_le_of_ne (not_lt.mp hlt) hne
      rw [List.pairwise_cons]
      refine ⟨?_, ih h.2 (fun e he => habsent e (List.mem_cons_of_mem _ he))⟩
      intro e he
      rcases (mem_map_place k v t e).mp he with heq | hmem
      · rw [heq]
        exact hk
      · exact h.1 e hmem

theorem keys_ascending_put (k : κ) (v : β) (m : List (κ × β)) (h : keys_ascending m) :
    keys_ascending (map_put k v m) := by
  unfold map_put
  apply keys_ascending_place k v _ (keys_ascending_erase k m h)
  intro e he
  exact ((mem_map_erase k m e).mp he).2

theorem keys_ascending_modify (k : κ) (f : β → β) (m : List (κ × β)) (h : keys_ascending m) :
    keys_ascending (map_modify k f m) := by
  unfold keys_ascending map_modify at *
  rw [List.pairwise_map]
  refine List.Pairwise.imp ?_ h
  intro a b hab
  by_cases ha : a.1 = k <;> by_cases hb : b.1 = k <;> simp [ha, hb] <;> simp_all

/-- In an ordered map a key is bound at most once. -/
theorem keys_ascending_unique (m : List (κ × β)) (h : keys_ascending m) (a b : κ × β)
    (ha : a ∈ m) (hb : b ∈ m) (hk : a.1 = b.1) : a = b := by
  induction m with
  | nil => simp at ha
  | cons hd t ih =>
    unfold keys_ascending at h ih
    rw [List.pairwise_cons] at h
    rcases List.mem_cons.mp ha with ha | ha <;> rcases List.mem_cons.mp hb with hb | hb
    · rw [ha, hb]
    · have := h.1 b hb
      rw [← ha, hk] at this
      exact absurd this (lt_irrefl _)
    · have := h.1 a ha
      rw [← hb, ← hk] at this
      exact absurd this (lt_irrefl _)
    · exact ih h.2 ha hb

/-- In an ordered map, lookup finds every member. -/
theorem map_find_of_mem (m : List (κ × β)) (h : keys_ascending m) (a : κ × β) (ha : a ∈ m) :
    map_find a.1 m = some a.2 := by
  cases hfind : map_find a.1 m with
  | none => exact absurd rfl ((map_find_eq_none_iff a.1 m).mp hfind a ha)
  | some v =>
    have hmem := mem_of_map_find a.1 v m hfind
    have := keys_ascending_unique m h (a.1, v) a hmem ha rfl
    rw [← this]

/-- Lookup in a filtered map whose filter depends on the key alone. -/
theorem map_find_filter (p : κ → Bool) (k : κ) (m : List (κ × β)) :
    map_find k (m.filter (fun entry => p entry.1)) = if p k then map_find k m else none := by
  induction m with
  | nil => simp [map_find]
  | cons hd t ih =>
    obtain ⟨k0, v0⟩ := hd
    rw [List.filter_cons]
    by_cases hp0 : p k0 = true
    · simp only [hp0, if_true, map_find_cons, ih]
      by_cases h0 : k0 = k
      · rw [if_pos h0, if_pos h0, ← h0, hp0]
        simp
      · rw [if_neg h0, if_neg h0]
    · simp only [hp0, Bool.false_eq_true, if_false, map_find_cons, ih]
      by_cases h0 : k0 = k
      · rw [← h0]
        simp [hp0]
      · rw [if_neg h0]

theorem GetGroupId_MakeLevelDbKey (P : Persona G K V M) (g : GroupId) (k : K)
    (hg : g < kGroupsLimit) : GetGroupId (MakeLevelDbKey P g k) = g :=
  GetGroupId_append g (P.key_string k) hg

theorem keys_encoded_filter (P : Persona G K V M) (p : Bytes × Bytes → Bool)
    (store : List (Bytes × Bytes)) (h : keys_encoded P store) :
    keys_encoded P (store.filter p) :=
  fun e he => h e (List.mem_of_mem_filter he)

theorem keys_encoded_erase (P : Persona G K V M) (key : Bytes) (store : List (Bytes × Bytes))
    (h : keys_encoded P store) : keys_encoded P (map_erase key store) :=
  fun e he => h e ((mem_map_erase key store e).mp he).1

theorem keys_encoded_put (P : Persona G K V M) (g : GroupId) (k : K) (value : Bytes)
    (store : List (Bytes × Bytes)) (hg : g < kGroupsLimit) (h : keys_encoded P store) :
    keys_encoded P (map_put (MakeLevelDbKey P g k) value store) := by
  intro e he
  unfold map_put at he
  rcases (mem_map_place _ _ _ e).mp he with heq | hmem
  · exact ⟨g, k, hg, by rw [heq]⟩
  · exact h e ((mem_map_erase _ store e).mp hmem).1

/-- In an ordered store of encoded keys the decoded GroupIds never decrease. -/
theorem group_ids_monotone (P : Persona G K V M) (store : List (Bytes × Bytes))
    (hs : keys_ascending store) (henc : keys_encoded P store) :
    store.Pairwise (fun a b => GetGroupId a.1 ≤ GetGroupId b.1) := by
  refine List.Pairwise.imp_of_mem ?_ hs
  intro a b ha hb hab
  obtain ⟨ga, ka, hga, hka⟩ := henc a ha
  obtain ⟨gb, kb, hgb, hkb⟩ := henc b hb
  rw [hka, hkb, GetGroupId_MakeLevelDbKey P ga ka hga, GetGroupId_MakeLevelDbKey P gb kb hgb]
  rw [hka, hkb] at hab
  exact encoded_lt_encoded ga gb _ _ hga hgb hab

/-- The range the iterator visits for a GroupId is exactly the stored entries whose key
decodes to that GroupId, in store order. -/
theorem group_entries_eq_filter (P : Persona G K V M) (store : List (Bytes × Bytes))
    (g : GroupId) (hg : g < kGroupsLimit)
    (hs : keys_ascending store) (henc : keys_encoded P store) :
    group_entries g store = store.filter (fun entry => GetGroupId entry.1 == g) := by
  unfold group_entries
  rw [dropWhile_congr_mem _ (fun entry => decide (GetGroupId entry.1 < g)) store]
  · exact dropWhile_takeWhile_eq_filter (fun entry => GetGroupId entry.1) g store
      (group_ids_monotone P store hs henc)
  · intro e he
    obtain ⟨ge, ke, hge, hke⟩ := henc e he
    rw [hke, GetGroupId_MakeLevelDbKey P ge ke hge]
    have := encoded_lt_prefix_iff g ge (P.key_string ke) hg hge
    unfold MakeLevelDbKey
    exact decide_eq_decide.mpr this

/-- Filtering the store by a predicate that keeps a GroupId leaves that group's range as it
was. -/
theorem group_entries_filter_other (P : Persona G K V M) (store : List (Bytes × Bytes))
    (g : GroupId) (p : Bytes × Bytes → Bool) (hg : g < kGroupsLimit)
    (hs : keys_ascending store) (henc : keys_encoded P store)
    (hkeep : ∀ entry ∈ store, GetGroupId entry.1 = g → p entry = true) :
    group_entries g (store.filter p) = group_entries g store := by
  rw [group_entries_eq_filter P _ g hg (keys_ascending_filter p store hs)
      (keys_encoded_filter P p store henc),
    group_entries_eq_filter P store g hg hs henc, List.filter_filter]
  apply List.filter_congr
  intro e he
  by_cases h : GetGroupId e.1 = g
  · simp [h, hkeep e he h]
  · simp [h]

end StoreLemmas

/-! ## The representation invariant holds in every reachable state -/

section WellFormedLemmas

variable {G K V M : Type} [LinearOrder G]

theorem WellFormed_empty (P : Persona G K V M) : WellFormed P (GroupDb.empty : GroupDb G M) :=
  { ids_lt := by intro e he; simp [GroupDb.empty] at he
    ids_nodup := by simp [GroupDb.empty]
    names_ascending := by simp [GroupDb.empty, keys_ascending]
    store_ascending := by simp [GroupDb.empty, keys_ascending]
    store_encoded := by intro e he; simp [GroupDb.empty] at he }

theorem WellFormed_set_metadata (P : Persona G K V M) (db : GroupDb G M) (n : G) (m : M)
    (h : WellFormed P db) :
    WellFormed P { group_map_ := set_metadata n m db.group_map_, leveldb_ := db.leveldb_ } :=
  { ids_lt := by
      intro e he
      have hmem : e.2.1 ∈ (set_metadata n m db.group_map_).map (fun element => element.2.1) :=
        List.mem_map_of_mem (fun element : G × (GroupId × M) => element.2.1) he
      rw [ids_set_metadata] at hmem
      obtain ⟨e0, he0, heq⟩ := List.mem_map.mp hmem
      rw [← heq]
      exact h.ids_lt e0 he0
    ids_nodup := by
      show (List.map _ (set_metadata n m db.group_map_)).Nodup
      rw [ids_set_metadata]
      exact h.ids_nodup
    names_ascending :=
      keys_ascending_modify n (fun second : GroupId × M => (second.1, m)) db.group_map_
        h.names_ascending
    store_ascending := h.store_ascending
    store_encoded := h.store_encoded }

theorem WellFormed_place (P : Persona G K V M) (db : GroupDb G M) (n : G) (g : GroupId) (m : M)
    (h : WellFormed P db) (hfree : id_in_use db.group_map_ g = false) (hg : g < kGroupsLimit)
    (habsent : map_find n db.group_map_ = none) :
    WellFormed P { group_map_ := map_place n (g, m) db.group_map_, leveldb_ := db.leveldb_ } :=
  { ids_lt := by
      intro e he
      rcases (mem_map_place n (g, m) _ e).mp he with heq | hmem
      · rw [heq]
        exact hg
      · exact h.ids_lt e hmem
    ids_nodup := by
      have hperm := List.Perm.map (fun element : G × (GroupId × M) => element.2.1)
        (map_place_perm n (g, m) db.group_map_)
      refine (List.Perm.nodup_iff hperm).mpr ?_
      rw [List.map_cons, List.nodup_cons]
      exact ⟨(id_in_use_eq_false_iff db.group_map_ g).mp hfree, h.ids_nodup⟩
    names_ascending :=
      keys_ascending_place n (g, m) _ h.names_ascending ((map_find_eq_none_iff n _).mp habsent)
    store_ascending := h.store_ascending
    store_encoded := h.store_encoded }

theorem WellFormed_erase_group (P : Persona G K V M) (db : GroupDb G M) (n : G)
    (h : WellFormed P db) :
    WellFormed P { group_map_ := map_erase n db.group_map_, leveldb_ := db.leveldb_ } :=
  { ids_lt := fun e he => h.ids_lt e ((mem_map_erase n _ e).mp he).1
    ids_nodup := List.Nodup.sublist (List.Sublist.map _ (map_erase_sublist n _)) h.ids_nodup
    names_ascending := keys_ascending_erase n _ h.names_ascending
    store_ascending := h.store_ascending
    store_encoded := h.store_encoded }

theorem WellFormed_store (P : Persona G K V M) (db : GroupDb G M) (store : List (Bytes × Bytes))
    (h : WellFormed P db) (hs : keys_ascending store) (henc : keys_encoded P store) :
    WellFormed P { group_map_ := db.group_map_, leveldb_ := store } :=
  { ids_lt := h.ids_lt
    ids_nodup := h.ids_nodup
    names_ascending := h.names_ascending
    store_ascending := hs
    store_encoded := henc }

theorem WellFormed_Put (P : Persona G K V M) (db : GroupDb G M) (kv : K × V) (g : GroupId)
    (fault : Bool) (h : WellFormed P db) (hg : g < kGroupsLimit) :
    WellFormed P (Put P db kv g fault).2 := by
  unfold Put
  split_ifs
  · exact h
  · exact WellFormed_store P db _ h (keys_ascending_put _ _ _ h.store_ascending)
      (keys_encoded_put P g kv.1 _ _ hg h.store_encoded)

theorem WellFormed_put_all (P : Persona G K V M) (g : GroupId) (kvs : List (K × V))
    (db : GroupDb G M) (faults : List Bool) (h : WellFormed P db) (hg : g < kGroupsLimit) :
    WellFormed P (put_all P g kvs db faults) := by
  induction kvs generalizing db faults with
  | nil => exact h
  | cons kv rest ih =>
    unfold put_all
    exact ih _ _ (WellFormed_Put P db kv g _ h hg)

/-- A registered GroupId is below the limit in a well-formed database. -/
theorem WellFormed_id_lt (P : Persona G K V M) (db : GroupDb G M) (n : G) (it : GroupId × M)
    (h : WellFormed P db) (hreg : FindGroup db n = .returned it) : it.1 < kGroupsLimit :=
  h.ids_lt (n, it) (mem_of_map_find n it _ ((FindGroup_returned_iff db n it).mp hreg))

theorem delete_keys_store (keys : List Bytes) (store : List (Bytes × Bytes))
    (faults : List Bool) :
    ∃ erased : List Bytes, (delete_keys keys store faults).2.1 =
      store.filter (fun entry => decide (entry.1 ∉ erased)) := by
  induction keys generalizing store faults with
  | nil => exact ⟨[], by simp [delete_keys]⟩
  | cons key rest ih =>
    unfold delete_keys
    split_ifs
    · exact ⟨[], by simp⟩
    · obtain ⟨erased, he⟩ := ih (map_erase key store) (next_fault faults).2
      refine ⟨key :: erased, ?_⟩
      rw [he, map_erase_eq_filter, List.filter_filter]
      apply List.filter_congr
      intro e _
      rw [Bool.eq_iff_iff]
      simp [not_or, and_comm]

theorem WellFormed_DeleteGroupEntries (P : Persona G K V M) (db : GroupDb G M) (n : G)
    (faults : List Bool) (h : WellFormed P db) :
    WellFormed P (DeleteGroupEntries db n faults).1 := by
  unfold DeleteGroupEntries
  cases hfind : FindGroup db n with
  | returned it =>
    simp only [DeleteGroupEntries_it]
    obtain ⟨erased, he⟩ := delete_keys_store
      ((group_entries it.1 db.leveldb_).map Prod.fst) db.leveldb_ faults
    have hstore := WellFormed_store P db _ h
      (keys_ascending_filter (fun entry => decide (entry.1 ∉ erased)) _ h.store_ascending)
      (keys_encoded_filter P (fun entry => decide (entry.1 ∉ erased)) _ h.store_encoded)
    rw [← he] at hstore
    split_ifs
    · exact WellFormed_erase_group P _ n hstore
    · exact hstore
  | raised e => exact h
  | spinning => exact h

theorem WellFormed_prune_groups (P : Persona G K V M) (names : List G) (db : GroupDb G M)
    (faults : List Bool) (h : WellFormed P db) :
    WellFormed P (prune_groups names db faults) := by
  induction names generalizing db faults with
  | nil => exact h
  | cons i rest ih =>
    unfold prune_groups
    exact ih _ _ (WellFormed_DeleteGroupEntries P db i faults h)

theorem WellFormed_AddGroupToMap (P : Persona G K V M) (db : GroupDb G M) (n : G) (m : M)
    (draws : List Int) (h : WellFormed P db) :
    WellFormed P (AddGroupToMap db n m draws).2 := by
  rcases AddGroupToMap_cases db n m draws with hc | hc | hc | hc
  · rw [hc.2]; exact h
  · rw [hc.2.2]; exact h
  · rw [hc.2.2.2]; exact h
  · obtain ⟨_, hfind, g, hpick, heq⟩ := hc
    rw [heq]
    exact WellFormed_place P db n g m h (pick_group_id_unused _ _ _ hpick).1
      (pick_group_id_unused _ _ _ hpick).2 hfind

theorem WellFormed_ApplyTransfer (P : Persona G K V M) (db : GroupDb G M)
    (c : Contents G K V M) (env : Env) (h : WellFormed P db) :
    WellFormed P (ApplyTransfer P db c env).2 := by
  unfold ApplyTransfer
  rcases FindGroup_cases db c.group_name with ⟨it, hfind⟩ | hfind
  · simp only [hfind]
    exact WellFormed_put_all P it.1 _ db _ h (WellFormed_id_lt P db _ it h hfind)
  · simp only [hfind]
    have hadd := WellFormed_AddGroupToMap P db c.group_name c.metadata env.draws h
    rcases AddGroupToMap_cases db c.group_name c.metadata env.draws with hc | hc | hc | hc
    · rw [hc.2]; exact h
    · rw [hc.2.2]; exact h
    · rw [hc.2.2.2]; exact h
    · obtain ⟨_, _, g, hpick, heq⟩ := hc
      rw [heq] at hadd ⊢
      exact WellFormed_put_all P g _ _ _ hadd (pick_group_id_unused _ _ _ hpick).2

theorem WellFormed_commit_action (P : Persona G K V M) (db : GroupDb G M) (k : K)
    (it : GroupId × M) (value : Option V) (f : RecordFunctor M V) (fault : Bool)
    (h : WellFormed P db) (hg : it.1 < kGroupsLimit) :
    WellFormed P (commit_action P db k it value f fault).2 := by
  have h1 := WellFormed_set_metadata P db (P.group_name k) (f it.2 value).1.1 h
  cases h2 : (f it.2 value).2 with
  | error e =>
    rw [commit_action_error P db k it value f fault e h2]
    exact h1
  | ok a =>
    cases a <;> cases hslot : (f it.2 value).1.2
    · rw [commit_action_put_none P db k it value f fault h2 hslot]
      exact h1
    · rw [commit_action_put_some P db k it value f fault _ h2 hslot]
      split_ifs
      · exact h1
      · exact WellFormed_store P _ _ h1 (keys_ascending_put _ _ _ h.store_ascending)
          (keys_encoded_put P it.1 k _ _ hg h.store_encoded)
    · rw [commit_action_delete_none P db k it value f fault h2 hslot]
      exact h1
    · rw [commit_action_delete_some P db k it value f fault _ h2 hslot]
      split_ifs
      · exact h1
      · exact WellFormed_store P _ _ h1 (keys_ascending_erase _ _ h.store_ascending)
          (keys_encoded_erase P _ _ h.store_encoded)

/-- Every public call keeps the representation invariant, whatever the random draws and the
backend failures. -/
theorem exec_well_formed (P : Persona G K V M) (db : GroupDb G M) (env : Env)
    (call : Call G K V M) (h : WellFormed P db) : WellFormed P (exec P db env call) := by
  cases call with
  | add_group n m =>
    show WellFormed P (AddGroup db n m env).2
    have hadd := WellFormed_AddGroupToMap P db n m env.draws h
    unfold AddGroup
    cases hres : AddGroupToMap db n m env.draws with
    | mk out db' =>
      rw [hres] at hadd
      cases out <;> exact hadd
  | delete_group n => exact WellFormed_DeleteGroupEntries P db n env.faults h
  | commit_name n f =>
    show WellFormed P (Commit_name db n f).db
    unfold Commit_name FindOrCreateGroup UpdateGroup
    rcases FindGroup_cases db n with ⟨it, hfind⟩ | hfind
    · simp only [hfind]
      exact WellFormed_set_metadata P db n _ h
    · simp only [hfind]
      exact h
  | commit_key k f =>
    show WellFormed P (Commit_key P db k f env).db
    rcases FindGroup_cases db (P.group_name k) with ⟨it, hfind⟩ | hfind
    · rw [Commit_key_registered P db k f env it hfind]
      split_ifs
      · exact h
      · exact WellFormed_commit_action P db k it _ f _ h (WellFormed_id_lt P db _ it h hfind)
    · rw [Commit_key_unregistered P db k f env hfind]
      exact h
  | get_transfer_info mc => exact WellFormed_prune_groups P _ db env.faults h
  | handle_transfer c => exact WellFormed_ApplyTransfer P db c env h
  | get_metadata n => exact h
  | get_value k => exact h
  | get_contents n => exact h

theorem reachable_well_formed (P : Persona G K V M) (db : GroupDb G M)
    (hreach : Reachable P db) : WellFormed P db := by
  induction hreach with
  | init => exact WellFormed_empty P
  | step d env call _ ih => exact exec_well_formed P d env call ih

end WellFormedLemmas

/-! ## Lemmas on group deletion with a working backend -/

section DeleteLemmas

variable {G K V M : Type} [LinearOrder G]

theorem demoDb_reachable : Reachable testPersona demoDb :=
  Reachable.step GroupDb.empty (Env.working [-1]) (Call.add_group 7 100) Reachable.init

theorem demoDbStored_reachable : Reachable testPersona demoDbStored :=
  Reachable.step demoDb (Env.working []) (Call.commit_key demoKey put_nine) demoDb_reachable

theorem twoGroupDb_reachable : Reachable testPersona twoGroupDb :=
  Reachable.step demoDbStored (Env.working [5]) (Call.add_group 8 50) demoDbStored_reachable

theorem collidingDb_reachable : Reachable testPersona collidingDb :=
  Reachable.step demoDb (Env.working [-1, 5]) (Call.add_group 8 50) demoDb_reachable

theorem threeRecordDb_reachable : Reachable testPersona threeRecordDb :=
  Reachable.step _ (Env.working [])
    (Call.commit_key ({ group := 7, fixed := [0, 7] } : TestKey) put_eight)
    (Reachable.step twoGroupDb (Env.working [])
      (Call.commit_key ({ group := 8, fixed := [1] } : TestKey) put_eight) twoGroupDb_reachable)

/-- With a working backend the delete loop removes every listed key. -/
theorem delete_keys_working (keys : List Bytes) (store : List (Bytes × Bytes)) :
    delete_keys keys store [] =
      (true, store.filter (fun entry => decide (entry.1 ∉ keys)), []) := by
  induction keys generalizing store with
  | nil => simp [delete_keys]
  | cons key rest ih =>
    unfold delete_keys
    simp only [next_fault, Bool.false_eq_true, if_false]
    rw [ih, map_erase_eq_filter, List.filter_filter]
    refine Prod.ext rfl (Prod.ext ?_ rfl)
    apply List.filter_congr
    intro e _
    rw [Bool.eq_iff_iff]
    simp [not_or, and_comm]

/-- With a working backend `DeleteGroupEntries` of a registered group erases the registry
entry and exactly the stored entries whose key decodes to the group's id. -/
theorem DeleteGroupEntries_working (P : Persona G K V M) (db : GroupDb G M) (n : G)
    (it : GroupId × M) (h : WellFormed P db) (hreg : FindGroup db n = .returned it) :
    DeleteGroupEntries db n [] =
      ({ group_map_ := map_erase n db.group_map_,
         leveldb_ := db.leveldb_.filter (fun entry => !(GetGroupId entry.1 == it.1)) }, []) := by
  have hg := WellFormed_id_lt P db n it h hreg
  unfold DeleteGroupEntries
  simp only [hreg, DeleteGroupEntries_it, delete_keys_working, if_true]
  refine Prod.ext ?_ rfl
  simp only
  congr 1
  apply List.filter_congr
  intro e he
  rw [group_entries_eq_filter P db.leveldb_ it.1 hg h.store_ascending h.store_encoded]
  rw [Bool.eq_iff_iff]
  simp only [List.mem_map, List.mem_filter, beq_iff_eq, decide_eq_true_eq, Bool.not_eq_true',
    beq_eq_false_iff_ne, ne_eq]
  constructor
  · intro hnot heq
    exact hnot ⟨e, ⟨he, heq⟩, rfl⟩
  · rintro hne ⟨e', ⟨_, heq'⟩, hk⟩
    rw [← hk] at hne
    exact hne heq'

theorem DeleteGroupEntries_unregistered (db : GroupDb G M) (n : G) (faults : List Bool)
    (hreg : FindGroup db n = .raised .no_such_account) :
    DeleteGroupEntries db n faults = (db, faults) := by
  unfold DeleteGroupEntries
  simp only [hreg]

/-- Two registered names with the same GroupId are the same name. -/
theorem WellFormed_id_inj (P : Persona G K V M) (db : GroupDb G M) (n n' : G)
    (it it' : GroupId × M) (h : WellFormed P db)
    (hreg : FindGroup db n = .returned it) (hreg' : FindGroup db n' = .returned it')
    (hid : it.1 = it'.1) : n = n' := by
  rw [FindGroup_returned_iff] at hreg hreg'
  have hinj := List.inj_on_of_nodup_map h.ids_nodup (mem_of_map_find n it _ hreg)
    (mem_of_map_find n' it' _ hreg') hid
  exact congrArg Prod.fst hinj

/-- A key whose first bytes are the encoding of a GroupId decodes to it. -/
theorem GetGroupId_of_take (key : Bytes) (g : GroupId) (hg : g < kGroupsLimit)
    (h : key.take kPrefixWidth_ = ToFixedWidthString kPrefixWidth_ g) : GetGroupId key = g := by
  have := GetGroupId_append g [] hg
  unfold GetGroupId at this ⊢
  rw [h]
  rw [ToFixedWidthString_two] at this ⊢
  simpa [kPrefixWidth_] using this

end DeleteLemmas

/-! ## Lemmas on `GetTransferInfo` -/

section ScanLemmas

variable {G K V M : Type}

theorem map_find_add_transfer (node x : NodeId) (c : Contents G K V M)
    (ti : TransferInfo G K V M) :
    map_find x (add_transfer node c ti) =
      if x = node then some ((map_find x ti).getD [] ++ [c]) else map_find x ti := by
  unfold add_transfer
  cases hfind : map_find node ti with
  | none =>
    simp only
    by_cases hx : x = node
    · rw [if_pos hx, hx, map_find_put_self, hfind]
      rfl
    · rw [if_neg hx, map_find_put_of_ne _ _ (Ne.symm hx)]
  | some found =>
    simp only
    rw [map_find_modify]
    by_cases hx : x = node
    · rw [if_pos hx, if_pos hx, hx, hfind]
      rfl
    · rw [if_neg hx, if_neg hx]

/-- One step of the scan, on the transfer map: a group with a target has its contents added
under that node, a group without one adds nothing. -/
theorem scan_group_transfer (P : Persona G K V M) (db : GroupDb G M) (mc : MatrixChange)
    (acc : TransferInfo G K V M × List G) (e : G × (GroupId × M)) :
    (scan_group P db mc acc e).1 =
      match transfer_target P mc e.1 with
      | some node => add_transfer node (GetContents_it P db e.1 e.2) acc.1
      | none => acc.1 := by
  unfold scan_group transfer_target in_range
  by_cases hr : (mc.CheckHolders (P.node_id e.1)).proximity_status = GroupRangeStatus.kInRange
  · cases hh : (mc.CheckHolders (P.node_id e.1)).new_holders <;> simp [hr, hh]
  · simp [hr]

/-- The transfer map after the scan: under each node, what was there before followed by the
contents of the scanned groups whose target is that node, in scan order. -/
theorem scan_transfer_info (P : Persona G K V M) (db : GroupDb G M) (mc : MatrixChange)
    (x : NodeId) (l : GroupMap G M) (acc : TransferInfo G K V M × List G) :
    map_find x (l.foldl (scan_group P db mc) acc).1 =
      if (l.filter (fun element => transfer_target P mc element.1 = some x)).isEmpty then
        map_find x acc.1
      else
        some ((map_find x acc.1).getD [] ++
          (l.filter (fun element => transfer_target P mc element.1 = some x)).map
            (fun element => GetContents_it P db element.1 element.2)) := by
  induction l generalizing acc with
  | nil => simp
  | cons e t ih =>
    rw [List.foldl_cons, ih, List.filter_cons, scan_group_transfer]
    cases ht : transfer_target P mc e.1 with
    | none => simp
    | some node =>
      simp only [map_find_add_transfer]
      by_cases hx : x = node
      · have hd : decide (some node = some x) = true := by simpa using hx.symm
        rw [hd, if_pos hx]
        simp only [if_true, List.isEmpty_cons, Bool.false_eq_true, if_false, List.map_cons,
          Option.getD_some]
        split_ifs with hempty
        · rw [List.isEmpty_iff] at hempty
          rw [hempty]
          simp
        · simp
      · have hd : decide (some node = some x) = false := by
          simpa using (fun h : node = x => hx h.symm)
        rw [hd, if_neg hx]
        simp only [Bool.false_eq_true, if_false]

end ScanLemmas

section TransferInfoLemmas

variable {G K V M : Type} [LinearOrder G]

end TransferInfoLemmas

/-! ## Lemmas on `ApplyTransfer` -/

section ApplyTransferLemmas

variable {G K V M : Type}

/-- Keys that the transfer does not write keep their binding, whatever the backend does. -/
theorem put_all_find_other (P : Persona G K V M) (g : GroupId) (key : Bytes)
    (kvs : List (K × V)) (db : GroupDb G M) (faults : List Bool)
    (hother : ∀ kv ∈ kvs, MakeLevelDbKey P g kv.1 ≠ key) :
    map_find key (put_all P g kvs db faults).leveldb_ = map_find key db.leveldb_ := by
  induction kvs generalizing db faults with
  | nil => rfl
  | cons kv rest ih =>
    unfold put_all
    rw [ih _ _ (fun kv' h => hother kv' (List.mem_cons_of_mem _ h))]
    unfold Put
    split_ifs
    · rfl
    · exact map_find_put_of_ne _ _ (hother kv (List.mem_cons_self _ _))

/-- With a working backend, a pair that no later pair of the transfer overwrites is stored. -/
theorem put_all_find_last (P : Persona G K V M) (g : GroupId) (pre post : List (K × V))
    (k : K) (v : V) (db : GroupDb G M)
    (hlast : ∀ kv ∈ post, MakeLevelDbKey P g kv.1 ≠ MakeLevelDbKey P g k) :
    map_find (MakeLevelDbKey P g k) (put_all P g (pre ++ (k, v) :: post) db []).leveldb_ =
      some (P.Serialise v) := by
  induction pre generalizing db with
  | nil =>
    rw [List.nil_append]
    unfold put_all
    rw [put_all_find_other P g _ post _ _ hlast]
    simp only [next_fault, Put, Bool.false_eq_true, if_false]
    exact map_find_put_self _ _ _
  | cons kv rest ih =>
    rw [List.cons_append]
    unfold put_all
    exact ih _

/-- Decoding an encoded key gives the key rebuilt from its own key string. -/
theorem MakeKey_MakeLevelDbKey (P : Persona G K V M) (n : G) (g : GroupId) (k : K) :
    MakeKey P n (MakeLevelDbKey P g k) = P.make_key n (P.key_string k) := by
  unfold MakeKey MakeLevelDbKey
  have hlen : (ToFixedWidthString kPrefixWidth_ g).length = kPrefixWidth_ := by
    rw [ToFixedWidthString_two]
    rfl
  rw [List.drop_left' hlen]

end ApplyTransferLemmas

section EmptyTransferLemmas

variable {G K V M : Type} [LinearOrder G]

end EmptyTransferLemmas

/-! ## Lemmas on the ownership of the stored records -/

section FilterLemmas

variable {κ β : Type} [LinearOrder κ]

theorem filter_map_place (p : κ × β → Bool) (k : κ) (v : β) (m : List (κ × β))
    (hp : p (k, v) = false) : (map_place k v m).filter p = m.filter p := by
  induction m with
  | nil => simp [map_place, hp]
  | cons hd t ih =>
    obtain ⟨k', v'⟩ := hd
    rw [map_place_cons]
    split_ifs
    · rw [List.filter_cons_of_neg (by simp [hp])]
    · rw [List.filter_cons, List.filter_cons, ih]

theorem filter_map_erase (p : κ × β → Bool) (k : κ) (m : List (κ × β))
    (hp : ∀ entry ∈ m, entry.1 = k → p entry = false) :
    (map_erase k m).filter p = m.filter p := by
  rw [map_erase_eq_filter, List.filter_filter]
  apply List.filter_congr
  intro e he
  by_cases hk : e.1 = k
  · simp [hp e he hk]
  · simp [hk]

theorem filter_map_put (p : κ × β → Bool) (k : κ) (v : β) (m : List (κ × β))
    (hp : ∀ entry : κ × β, entry.1 = k → p entry = false) :
    (map_put k v m).filter p = m.filter p := by
  unfold map_put
  rw [filter_map_place p k v _ (hp (k, v) rfl), filter_map_erase p k m (fun e _ => hp e)]

end FilterLemmas

section DeleteRunLemmas

theorem delete_keys_run (keys : List Bytes) (store : List (Bytes × Bytes)) (faults : List Bool) :
    delete_keys keys store faults =
      ((delete_run keys.length faults).1,
        store.filter (fun entry =>
          decide (entry.1 ∉ keys.take (delete_run keys.length faults).2.1)),
        (delete_run keys.length faults).2.2) := by
  induction keys generalizing store faults with
  | nil => simp [delete_keys, delete_run]
  | cons key rest ih =>
    unfold delete_keys
    rw [List.length_cons, delete_run]
    split_ifs with hfault
    · simp
    · rw [ih]
      simp only [List.take_succ_cons, Prod.mk.injEq, true_and, and_true]
      rw [map_erase_eq_filter, List.filter_filter]
      apply List.filter_congr
      intro e _
      rw [Bool.eq_iff_iff]
      simp [not_or, and_comm]

theorem delete_run_le (count : Nat) (faults : List Bool) :
    (delete_run count faults).2.1 ≤ count := by
  induction count generalizing faults with
  | zero => simp [delete_run]
  | succ count ih =>
    rw [delete_run]
    split_ifs
    · simp
    · have := ih (next_fault faults).2
      simp only
      omega

theorem delete_run_all (count : Nat) (faults : List Bool)
    (h : (delete_run count faults).1 = true) : (delete_run count faults).2.1 = count := by
  induction count generalizing faults with
  | zero => simp [delete_run]
  | succ count ih =>
    rw [delete_run] at h ⊢
    split_ifs at h ⊢ with hfault
    show (delete_run count (next_fault faults).2).2.1 + 1 = count + 1
    rw [ih _ h]

end DeleteRunLemmas

section OwnershipBasics

variable {G K V M : Type}

theorem store_owned_empty : store_owned (GroupDb.empty : GroupDb G M) := by
  intro e he
  simp [GroupDb.empty] at he

theorem store_owned_sub (db : GroupDb G M) (store : List (Bytes × Bytes))
    (h : store_owned db) (hsub : ∀ entry ∈ store, entry ∈ db.leveldb_) :
    store_owned { group_map_ := db.group_map_, leveldb_ := store } :=
  fun e he => h e (hsub e he)

theorem store_owned_put (P : Persona G K V M) (db : GroupDb G M) (element : G × (GroupId × M))
    (k : K) (value : Bytes) (h : store_owned db) (hmem : element ∈ db.group_map_)
    (hlt : element.2.1 < kGroupsLimit) :
    store_owned
      { group_map_ := db.group_map_,
        leveldb_ := map_put (MakeLevelDbKey P element.2.1 k) value db.leveldb_ } := by
  intro e he
  rcases (mem_map_place _ _ _ e).mp he with heq | hold
  · refine ⟨element, hmem, ?_⟩
    rw [heq]
    exact GetGroupId_MakeLevelDbKey P element.2.1 k hlt
  · exact h e ((mem_map_erase _ _ e).mp hold).1

theorem store_owned_Put (P : Persona G K V M) (db : GroupDb G M) (kv : K × V)
    (element : G × (GroupId × M)) (fault : Bool) (h : store_owned db)
    (hmem : element ∈ db.group_map_) (hlt : element.2.1 < kGroupsLimit) :
    store_owned (Put P db kv element.2.1 fault).2 := by
  unfold Put
  split_ifs
  · exact h
  · exact store_owned_put P db element kv.1 _ h hmem hlt

theorem store_owned_put_all (P : Persona G K V M) (element : G × (GroupId × M))
    (kvs : List (K × V)) (db : GroupDb G M) (faults : List Bool) (h : store_owned db)
    (hmem : element ∈ db.group_map_) (hlt : element.2.1 < kGroupsLimit) :
    store_owned (put_all P element.2.1 kvs db faults) := by
  induction kvs generalizing db faults with
  | nil => exact h
  | cons kv rest ih =>
    unfold put_all
    refine ih _ _ (store_owned_Put P db kv element _ h hmem hlt) ?_
    rw [Put_group_map]
    exact hmem

end OwnershipBasics

section OwnershipLemmas

variable {G K V M : Type} [LinearOrder G]

theorem store_owned_set_metadata (db : GroupDb G M) (n : G) (m : M) (h : store_owned db) :
    store_owned { group_map_ := set_metadata n m db.group_map_, leveldb_ := db.leveldb_ } := by
  intro e he
  obtain ⟨element, hmem, hid⟩ := h e he
  have hids : element.2.1 ∈ (set_metadata n m db.group_map_).map (fun x => x.2.1) := by
    rw [ids_set_metadata]
    exact List.mem_map.mpr ⟨element, hmem, rfl⟩
  obtain ⟨element', hmem', hid'⟩ := List.mem_map.mp hids
  exact ⟨element', hmem', by rw [hid, hid']⟩

theorem store_owned_place (db : GroupDb G M) (n : G) (entry : GroupId × M)
    (h : store_owned db) :
    store_owned { group_map_ := map_place n entry db.group_map_, leveldb_ := db.leveldb_ } := by
  intro e he
  obtain ⟨element, hmem, hid⟩ := h e he
  exact ⟨element, (mem_map_place n entry _ element).mpr (Or.inr hmem), hid⟩

/-- The store that a complete run of the delete loop leaves: no key decodes to the GroupId of
the group any more. -/
theorem delete_keys_complete (P : Persona G K V M) (db : GroupDb G M) (g : GroupId)
    (faults : List Bool) (h : WellFormed P db) (hg : g < kGroupsLimit)
    (hall : (delete_keys ((group_entries g db.leveldb_).map Prod.fst) db.leveldb_ faults).1
      = true) :
    (delete_keys ((group_entries g db.leveldb_).map Prod.fst) db.leveldb_ faults).2.1 =
      db.leveldb_.filter (fun entry => !(GetGroupId entry.1 == g)) := by
  rw [delete_keys_run] at hall ⊢
  simp only at hall ⊢
  rw [delete_run_all _ _ hall, List.take_length,
    group_entries_eq_filter P _ g hg h.store_ascending h.store_encoded]
  apply List.filter_congr
  intro e he
  rw [Bool.eq_iff_iff]
  simp only [List.mem_map, List.mem_filter, beq_iff_eq, not_exists, not_and, and_imp,
    decide_eq_true_eq, Bool.not_eq_true', beq_eq_false_iff_ne, ne_eq]
  constructor
  · intro hno hid
    exact hno e he hid rfl
  · intro hid x hx hxid hkey
    have hxe : x = e := keys_ascending_unique _ h.store_ascending x e hx he hkey
    rw [hxe] at hxid
    exact hid hxid

theorem store_owned_DeleteGroupEntries (P : Persona G K V M) (db : GroupDb G M) (n : G)
    (faults : List Bool) (h : WellFormed P db) (ho : store_owned db) :
    store_owned (DeleteGroupEntries db n faults).1 := by
  unfold DeleteGroupEntries
  cases hfind : FindGroup db n with
  | returned it =>
    simp only [DeleteGroupEntries_it]
    split_ifs with hall
    · have hstore := delete_keys_complete P db it.1 faults h (WellFormed_id_lt P db n it h hfind)
        hall
      rw [hstore]
      intro e he
      have he' := List.mem_filter.mp he
      obtain ⟨element, hmem, hid⟩ := ho e he'.1
      refine ⟨element, (mem_map_erase n _ element).mpr ⟨hmem, fun hname => ?_⟩, hid⟩
      have hit := mem_of_map_find n it _ ((FindGroup_returned_iff db n it).mp hfind)
      have heq : element = (n, it) :=
        keys_ascending_unique _ h.names_ascending element (n, it) hmem hit hname
      rw [heq] at hid
      simp [hid] at he'
    · obtain ⟨erased, he⟩ := delete_keys_store
        ((group_entries it.1 db.leveldb_).map Prod.fst) db.leveldb_ faults
      rw [he]
      exact store_owned_sub db _ ho (fun e hmem => (List.mem_filter.mp hmem).1)
  | raised e => exact ho
  | spinning => exact ho

theorem store_owned_prune_groups (P : Persona G K V M) (names : List G) (db : GroupDb G M)
    (faults : List Bool) (h : WellFormed P db) (ho : store_owned db) :
    store_owned (prune_groups names db faults) := by
  induction names generalizing db faults with
  | nil => exact ho
  | cons i rest ih =>
    unfold prune_groups
    exact ih _ _ (WellFormed_DeleteGroupEntries P db i faults h)
      (store_owned_DeleteGroupEntries P db i faults h ho)

theorem store_owned_AddGroupToMap (db : GroupDb G M) (n : G) (m : M) (draws : List Int)
    (ho : store_owned db) : store_owned (AddGroupToMap db n m draws).2 := by
  rcases AddGroupToMap_cases db n m draws with hc | hc | hc | hc
  · rw [hc.2]; exact ho
  · rw [hc.2.2]; exact ho
  · rw [hc.2.2.2]; exact ho
  · obtain ⟨_, _, g, _, heq⟩ := hc
    rw [heq]
    exact store_owned_place db n (g, m) ho

theorem store_owned_ApplyTransfer (P : Persona G K V M) (db : GroupDb G M)
    (c : Contents G K V M) (env : Env) (h : WellFormed P db) (ho : store_owned db) :
    store_owned (ApplyTransfer P db c env).2 := by
  unfold ApplyTransfer
  rcases FindGroup_cases db c.group_name with ⟨it, hfind⟩ | hfind
  · simp only [hfind]
    have hmem := mem_of_map_find _ it _ ((FindGroup_returned_iff db _ it).mp hfind)
    exact store_owned_put_all P (c.group_name, it) _ db _ ho hmem
      (WellFormed_id_lt P db _ it h hfind)
  · simp only [hfind]
    have hadd := store_owned_AddGroupToMap db c.group_name c.metadata env.draws ho
    rcases AddGroupToMap_cases db c.group_name c.metadata env.draws with hc | hc | hc | hc
    · rw [hc.2]; exact ho
    · rw [hc.2.2]; exact ho
    · rw [hc.2.2.2]; exact ho
    · obtain ⟨_, _, g, hpick, heq⟩ := hc
      rw [heq] at hadd ⊢
      exact store_owned_put_all P (c.group_name, (g, c.metadata)) _ _ _ hadd
        ((mem_map_place _ _ _ _).mpr (Or.inl rfl)) (pick_group_id_unused _ _ _ hpick).2

theorem store_owned_commit_action (P : Persona G K V M) (db : GroupDb G M) (k : K)
    (it : GroupId × M) (value : Option V) (f : RecordFunctor M V) (fault : Bool)
    (h : WellFormed P db) (ho : store_owned db)
    (hreg : FindGroup db (P.group_name k) = .returned it) :
    store_owned (commit_action P db k it value f fault).2 := by
  have h1 := store_owned_set_metadata db (P.group_name k) (f it.2 value).1.1 ho
  have hfind : FindGroup
      ({ group_map_ := set_metadata (P.group_name k) (f it.2 value).1.1 db.group_map_,
         leveldb_ := db.leveldb_ } : GroupDb G M) (P.group_name k) =
      .returned (it.1, (f it.2 value).1.1) := by
    rw [FindGroup_returned_iff, map_find_set_metadata, if_pos rfl,
      (FindGroup_returned_iff db _ it).mp hreg]
    rfl
  have hmem := mem_of_map_find _ _ _ ((FindGroup_returned_iff _ _ _).mp hfind)
  have hlt : it.1 < kGroupsLimit := WellFormed_id_lt P db _ it h hreg
  cases h2 : (f it.2 value).2 with
  | error e =>
    rw [commit_action_error P db k it value f fault e h2]
    exact h1
  | ok a =>
    cases a <;> cases hslot : (f it.2 value).1.2
    · rw [commit_action_put_none P db k it value f fault h2 hslot]
      exact h1
    · rw [commit_action_put_some P db k it value f fault _ h2 hslot]
      split_ifs
      · exact h1
      · exact store_owned_put P _ (P.group_name k, (it.1, (f it.2 value).1.1)) k _ h1 hmem hlt
    · rw [commit_action_delete_none P db k it value f fault h2 hslot]
      exact h1
    · rw [commit_action_delete_some P db k it value f fault _ h2 hslot]
      split_ifs
      · exact h1
      · exact store_owned_sub _ _ h1 (fun e he => ((mem_map_erase _ _ e).mp he).1)

/-- Every public call keeps every stored key under a registered GroupId, whatever the random
draws and the backend failures. -/
theorem exec_store_owned (P : Persona G K V M) (db : GroupDb G M) (env : Env)
    (call : Call G K V M) (h : WellFormed P db) (ho : store_owned db) :
    store_owned (exec P db env call) := by
  cases call with
  | add_group n m =>
    show store_owned (AddGroup db n m env).2
    have hadd := store_owned_AddGroupToMap db n m env.draws ho
    unfold AddGroup
    cases hres : AddGroupToMap db n m env.draws with
    | mk out db' =>
      rw [hres] at hadd
      cases out <;> exact hadd
  | delete_group n => exact store_owned_DeleteGroupEntries P db n env.faults h ho
  | commit_name n f =>
    show store_owned (Commit_name db n f).db
    unfold Commit_name FindOrCreateGroup UpdateGroup
    rcases FindGroup_cases db n with ⟨it, hfind⟩ | hfind
    · simp only [hfind]
      exact store_owned_set_metadata db n _ ho
    · simp only [hfind]
      exact ho
  | commit_key k f =>
    show store_owned (Commit_key P db k f env).db
    rcases FindGroup_cases db (P.group_name k) with ⟨it, hfind⟩ | hfind
    · rw [Commit_key_registered P db k f env it hfind]
      split_ifs
      · exact ho
      · exact store_owned_commit_action P db k it _ f _ h ho hfind
    · rw [Commit_key_unregistered P db k f env hfind]
      exact ho
  | get_transfer_info mc => exact store_owned_prune_groups P _ db env.faults h ho
  | handle_transfer c => exact store_owned_ApplyTransfer P db c env h ho
  | get_metadata n => exact ho
  | get_value k => exact ho
  | get_contents n => exact ho

theorem reachable_store_owned (P : Persona G K V M) (db : GroupDb G M)
    (hreach : Reachable P db) : store_owned db := by
  induction hreach with
  | init => exact store_owned_empty
  | step d env call hd ih =>
    exact exec_store_owned P d env call (reachable_well_formed P d hd) ih

end OwnershipLemmas

/-! ## Lemmas on the frame of a transfer -/

section TransferFrameLemmas

variable {G K V M : Type}

theorem MakeLevelDbKey_ne_of_id_ne (P : Persona G K V M) (g g' : GroupId) (k k' : K)
    (hg : g < kGroupsLimit) (hg' : g' < kGroupsLimit) (hne : g ≠ g') :
    MakeLevelDbKey P g k ≠ MakeLevelDbKey P g' k' := by
  intro h
  have h1 := GetGroupId_MakeLevelDbKey P g k hg
  rw [h, GetGroupId_MakeLevelDbKey P g' k' hg'] at h1
  exact hne h1.symm

theorem MakeLevelDbKey_ne_of_string_ne (P : Persona G K V M) (g g' : GroupId) (k k' : K)
    (hne : P.key_string k ≠ P.key_string k') :
    MakeLevelDbKey P g k ≠ MakeLevelDbKey P g' k' := by
  intro h
  unfold MakeLevelDbKey at h
  rw [ToFixedWidthString_two, ToFixedWidthString_two] at h
  simp only [List.cons_append, List.nil_append, List.cons.injEq] at h
  exact hne h.2.2

theorem put_all_filter_other (P : Persona G K V M) (g : GroupId) (kvs : List (K × V))
    (db : GroupDb G M) (faults : List Bool) (p : Bytes × Bytes → Bool)
    (hg : g < kGroupsLimit) (hp : ∀ entry : Bytes × Bytes, GetGroupId entry.1 = g → p entry = false) :
    (put_all P g kvs db faults).leveldb_.filter p = db.leveldb_.filter p := by
  induction kvs generalizing db faults with
  | nil => rfl
  | cons kv rest ih =>
    unfold put_all
    rw [ih]
    unfold Put
    split_ifs
    · rfl
    · exact filter_map_put p _ _ _ (fun entry hkey => hp entry (by
        rw [hkey]
        exact GetGroupId_MakeLevelDbKey P g kv.1 hg))

end TransferFrameLemmas

/-! ## Lemmas on runs that differ in the random draws -/

section MapExtLemmas

variable {κ β : Type} [LinearOrder κ]

theorem map_find_none_of_lt (k : κ) (m : List (κ × β)) (h : ∀ entry ∈ m, k < entry.1) :
    map_find k m = none :=
  (map_find_eq_none_iff k m).mpr (fun entry he heq => by
    have := h entry he
    rw [heq] at this
    exact lt_irrefl _ this)

/-- Two ordered maps with the same bindings are the same list. -/
theorem keys_ascending_ext (l l' : List (κ × β)) (h : keys_ascending l)
    (h' : keys_ascending l') (hfind : ∀ k, map_find k l = map_find k l') : l = l' := by
  induction l generalizing l' with
  | nil =>
    cases l' with
    | nil => rfl
    | cons hd t =>
      have := hfind hd.1
      rw [map_find_of_mem _ h' hd (List.mem_cons_self _ _)] at this
      simp [map_find] at this
  | cons hd t ih =>
    cases l' with
    | nil =>
      have := hfind hd.1
      rw [map_find_of_mem _ h hd (List.mem_cons_self _ _)] at this
      simp [map_find] at this
    | cons hd' t' =>
      obtain ⟨k, v⟩ := hd
      obtain ⟨k', v'⟩ := hd'
      have hp := List.pairwise_cons.mp h
      have hp' := List.pairwise_cons.mp h'
      have h1 : map_find k ((k', v') :: t') = some v := by
        rw [← hfind k, map_find_cons, if_pos rfl]
      have h2 : map_find k' ((k, v) :: t) = some v' := by
        rw [hfind k', map_find_cons, if_pos rfl]
      have hle : k' ≤ k := by
        rcases List.mem_cons.mp (mem_of_map_find k v _ h1) with heq | hmem
        · exact le_of_eq (congrArg Prod.fst heq).symm
        · exact le_of_lt (hp'.1 (k, v) hmem)
      have hle' : k ≤ k' := by
        rcases List.mem_cons.mp (mem_of_map_find k' v' _ h2) with heq | hmem
        · exact le_of_eq (congrArg Prod.fst heq).symm
        · exact le_of_lt (hp.1 (k', v') hmem)
      have hk : k = k' := le_antisymm hle' hle
      subst hk
      have hv : v = v' := by
        rw [map_find_cons, if_pos rfl] at h1
        exact (Option.some.inj h1).symm
      subst hv
      have htail : t = t' := by
        apply ih t' hp.2 hp'.2
        intro x
        by_cases hx : k = x
        · subst hx
          rw [map_find_none_of_lt k t (fun e he => hp.1 e he),
            map_find_none_of_lt k t' (fun e he => hp'.1 e he)]
        · have := hfind x
          rw [map_find_cons, map_find_cons, if_neg hx, if_neg hx] at this
          exact this
      rw [htail]

end MapExtLemmas

section RegistrySimLemmas

variable {G M : Type} [LinearOrder G]

theorem same_group_find (gm gm' : GroupMap G M) (h : List.Forall₂ same_group gm gm') (n : G) :
    (map_find n gm = none ∧ map_find n gm' = none) ∨
      ∃ it it', map_find n gm = some it ∧ map_find n gm' = some it' ∧ it.2 = it'.2 := by
  induction h with
  | nil => exact Or.inl ⟨rfl, rfl⟩
  | @cons a b l l' hhead _ ih =>
    obtain ⟨n1, it1⟩ := a
    obtain ⟨n2, it2⟩ := b
    have hname : n1 = n2 := hhead.1
    have hmeta : it1.2 = it2.2 := hhead.2
    subst hname
    rw [map_find_cons, map_find_cons]
    by_cases hn : n1 = n
    · rw [if_pos hn, if_pos hn]
      exact Or.inr ⟨it1, it2, rfl, rfl, hmeta⟩
    · rw [if_neg hn, if_neg hn]
      exact ih

theorem same_group_set_metadata (gm gm' : GroupMap G M) (h : List.Forall₂ same_group gm gm')
    (n : G) (m : M) : List.Forall₂ same_group (set_metadata n m gm) (set_metadata n m gm') := by
  induction h with
  | nil => exact List.Forall₂.nil
  | @cons a b l l' hhead _ ih =>
    obtain ⟨n1, it1⟩ := a
    obtain ⟨n2, it2⟩ := b
    have hname : n1 = n2 := hhead.1
    have hmeta : it1.2 = it2.2 := hhead.2
    subst hname
    unfold set_metadata at ih ⊢
    rw [map_modify_cons, map_modify_cons]
    refine List.Forall₂.cons ?_ ih
    by_cases hn : n1 = n
    · rw [if_pos hn, if_pos hn]
      exact ⟨rfl, rfl⟩
    · rw [if_neg hn, if_neg hn]
      exact ⟨rfl, hmeta⟩

theorem same_group_place (gm gm' : GroupMap G M) (h : List.Forall₂ same_group gm gm')
    (n : G) (g g' : GroupId) (m : M) :
    List.Forall₂ same_group (map_place n (g, m) gm) (map_place n (g', m) gm') := by
  induction h with
  | nil => exact List.Forall₂.cons ⟨rfl, rfl⟩ List.Forall₂.nil
  | @cons a b l l' hhead htail ih =>
    obtain ⟨n1, it1⟩ := a
    obtain ⟨n2, it2⟩ := b
    have hname : n1 = n2 := hhead.1
    subst hname
    rw [map_place_cons, map_place_cons]
    by_cases hn : n < n1
    · rw [if_pos hn, if_pos hn]
      exact List.Forall₂.cons ⟨rfl, rfl⟩ (List.Forall₂.cons hhead htail)
    · rw [if_neg hn, if_neg hn]
      exact List.Forall₂.cons hhead ih

theorem same_group_erase (gm gm' : GroupMap G M) (h : List.Forall₂ same_group gm gm') (n : G) :
    List.Forall₂ same_group (map_erase n gm) (map_erase n gm') := by
  induction h with
  | nil => exact List.Forall₂.nil
  | @cons a b l l' hhead _ ih =>
    obtain ⟨n1, it1⟩ := a
    obtain ⟨n2, it2⟩ := b
    have hname : n1 = n2 := hhead.1
    subst hname
    rw [map_erase_cons, map_erase_cons]
    by_cases hn : n1 = n
    · rw [if_pos hn, if_pos hn]
      exact ih
    · rw [if_neg hn, if_neg hn]
      exact List.Forall₂.cons hhead ih

end RegistrySimLemmas

section StoreViewLemmas

variable {G K V M : Type}

theorem drop_encoded_id (g : Nat) (rest : Bytes) :
    (ToFixedWidthString kPrefixWidth_ g ++ rest).drop kPrefixWidth_ = rest := by
  rw [ToFixedWidthString_two]
  rfl

/-- A stored key is the prefix of the GroupId it decodes to, followed by its other bytes. -/
theorem encoded_entry (P : Persona G K V M) (store : List (Bytes × Bytes))
    (henc : keys_encoded P store) (entry : Bytes × Bytes) (hmem : entry ∈ store) :
    entry.1 = ToFixedWidthString kPrefixWidth_ (GetGroupId entry.1) ++
      entry.1.drop kPrefixWidth_ ∧ GetGroupId entry.1 < kGroupsLimit := by
  obtain ⟨g, k, hg, heq⟩ := henc entry hmem
  have hid : GetGroupId entry.1 = g := by
    rw [heq]
    exact GetGroupId_MakeLevelDbKey P g k hg
  rw [hid]
  refine ⟨?_, hg⟩
  rw [heq]
  unfold MakeLevelDbKey
  rw [drop_encoded_id]

theorem encoded_append_inj (g : Nat) (rest rest' : Bytes)
    (h : ToFixedWidthString kPrefixWidth_ g ++ rest =
      ToFixedWidthString kPrefixWidth_ g ++ rest') : rest = rest' :=
  List.append_cancel_left h

theorem map_find_group_records (P : Persona G K V M) (store : List (Bytes × Bytes))
    (henc : keys_encoded P store) (g : Nat) (hg : g < kGroupsLimit) (key_string : Bytes) :
    map_find key_string (group_records g store) =
      map_find (ToFixedWidthString kPrefixWidth_ g ++ key_string) store := by
  induction store with
  | nil => rfl
  | cons e t ih =>
    have henc' : keys_encoded P t := fun x hx => henc x (List.mem_cons_of_mem _ hx)
    have he := encoded_entry P _ henc e (List.mem_cons_self _ _)
    obtain ⟨k, v⟩ := e
    rw [map_find_cons]
    unfold group_records at ih ⊢
    by_cases hid : GetGroupId k = g
    · rw [List.filter_cons_of_pos (by simpa using hid), List.map_cons, map_find_cons, ih henc']
      have hk : k = ToFixedWidthString kPrefixWidth_ g ++ k.drop kPrefixWidth_ := by
        have := he.1
        rw [hid] at this
        exact this
      by_cases hks : k.drop kPrefixWidth_ = key_string
      · have hkey : k = ToFixedWidthString kPrefixWidth_ g ++ key_string := by
          rw [← hks]
          exact hk
        rw [if_pos hks, if_pos hkey]
      · have hkey : ¬ k = ToFixedWidthString kPrefixWidth_ g ++ key_string := by
          intro h
          apply hks
          rw [h, drop_encoded_id]
        rw [if_neg hks, if_neg hkey]
    · rw [List.filter_cons_of_neg (by simpa using hid), ih henc']
      have hkey : ¬ k = ToFixedWidthString kPrefixWidth_ g ++ key_string := by
        intro h
        apply hid
        rw [h]
        exact GetGroupId_append g key_string hg
      rw [if_neg hkey]

theorem group_records_ascending (P : Persona G K V M) (store : List (Bytes × Bytes))
    (hasc : keys_ascending store) (henc : keys_encoded P store) (g : Nat) :
    keys_ascending (group_records g store) := by
  unfold group_records keys_ascending
  rw [List.pairwise_map]
  unfold keys_ascending at hasc
  refine (hasc.filter _).imp_of_mem ?_
  intro a b ha hb hlt
  have ha' := List.mem_filter.mp ha
  have hb' := List.mem_filter.mp hb
  have hida : GetGroupId a.1 = g := by simpa using ha'.2
  have hidb : GetGroupId b.1 = g := by simpa using hb'.2
  have hka := (encoded_entry P _ henc a ha'.1).1
  have hkb := (encoded_entry P _ henc b hb'.1).1
  rw [hida] at hka
  rw [hidb] at hkb
  rw [hka, hkb] at hlt
  exact (encoded_lt_same_id g _ _).mp hlt

/-- The keys that `DeleteGroupEntries` collects for a group: the prefix of its GroupId followed
by the key bytes of its records. -/
theorem group_keys_view (P : Persona G K V M) (store : List (Bytes × Bytes))
    (hasc : keys_ascending store) (henc : keys_encoded P store) (g : Nat)
    (hg : g < kGroupsLimit) :
    (group_entries g store).map Prod.fst =
      (group_records g store).map (fun r => ToFixedWidthString kPrefixWidth_ g ++ r.1) := by
  rw [group_entries_eq_filter P store g hg hasc henc]
  unfold group_records
  rw [List.map_map]
  apply List.map_congr_left
  intro e he
  have he' := List.mem_filter.mp he
  have hid : GetGroupId e.1 = g := by simpa using he'.2
  have hk := (encoded_entry P _ henc e he'.1).1
  rw [hid] at hk
  exact hk

/-- The contents of a group, read off its records without the GroupId. -/
theorem GetContents_it_view (P : Persona G K V M) (db : GroupDb G M) (n : G)
    (it : GroupId × M) (hasc : keys_ascending db.leveldb_) (henc : keys_encoded P db.leveldb_)
    (hg : it.1 < kGroupsLimit) :
    GetContents_it P db n it =
      { group_name := n, metadata := it.2,
        kv_pairs := (group_records it.1 db.leveldb_).map
          (fun r => (P.make_key n r.1, P.parse_value r.2)) } := by
  unfold GetContents_it
  rw [group_entries_eq_filter P _ it.1 hg hasc henc]
  unfold group_records MakeKey
  rw [List.map_map]
  rfl

theorem unowned_find_none (db : GroupDb G M) (ho : store_owned db) (g : Nat)
    (hfree : id_in_use db.group_map_ g = false) (hg : g < kGroupsLimit) (key_string : Bytes) :
    map_find (ToFixedWidthString kPrefixWidth_ g ++ key_string) db.leveldb_ = none := by
  cases hfind : map_find (ToFixedWidthString kPrefixWidth_ g ++ key_string) db.leveldb_ with
  | none => rfl
  | some v =>
    exfalso
    obtain ⟨element, hmem, hid⟩ := ho _ (mem_of_map_find _ v _ hfind)
    rw [GetGroupId_append g key_string hg] at hid
    apply (id_in_use_eq_false_iff db.group_map_ g).mp hfree
    exact List.mem_map.mpr ⟨element, hmem, hid.symm⟩

end StoreViewLemmas

section SimulationLemmas

variable {G K V M : Type} [LinearOrder G]

theorem prefixed_ne_of_id_ne (g g' : Nat) (rest rest' : Bytes) (hg : g < kGroupsLimit)
    (hg' : g' < kGroupsLimit) (hne : g ≠ g') :
    ToFixedWidthString kPrefixWidth_ g ++ rest ≠ ToFixedWidthString kPrefixWidth_ g' ++ rest' := by
  intro h
  have h1 := GetGroupId_append g rest hg
  rw [h, GetGroupId_append g' rest' hg'] at h1
  exact hne h1.symm

theorem same_up_to_ids_find (db db' : GroupDb G M) (hsim : same_up_to_ids db db') (n : G) :
    (FindGroup db n = .raised .no_such_account ∧ FindGroup db' n = .raised .no_such_account) ∨
      ∃ it it', FindGroup db n = .returned it ∧ FindGroup db' n = .returned it' ∧
        it.2 = it'.2 := by
  rcases same_group_find _ _ hsim.registry n with ⟨h, h'⟩ | ⟨it, it', h, h', hm⟩
  · exact Or.inl ⟨(FindGroup_raised_iff db n).mpr h, (FindGroup_raised_iff db' n).mpr h'⟩
  · exact Or.inr ⟨it, it', (FindGroup_returned_iff db n it).mpr h,
      (FindGroup_returned_iff db' n it').mpr h', hm⟩

theorem same_up_to_ids_records (P : Persona G K V M) (db db' : GroupDb G M)
    (hwf : WellFormed P db) (hwf' : WellFormed P db') (hsim : same_up_to_ids db db') (n : G)
    (it it' : GroupId × M) (hfind : FindGroup db n = .returned it)
    (hfind' : FindGroup db' n = .returned it') :
    group_records it.1 db.leveldb_ = group_records it'.1 db'.leveldb_ := by
  apply keys_ascending_ext _ _
    (group_records_ascending P _ hwf.store_ascending hwf.store_encoded it.1)
    (group_records_ascending P _ hwf'.store_ascending hwf'.store_encoded it'.1)
  intro ks
  rw [map_find_group_records P _ hwf.store_encoded it.1 (WellFormed_id_lt P db n it hwf hfind),
    map_find_group_records P _ hwf'.store_encoded it'.1
      (WellFormed_id_lt P db' n it' hwf' hfind')]
  exact hsim.records n it it' ((FindGroup_returned_iff db n it).mp hfind)
    ((FindGroup_returned_iff db' n it').mp hfind') ks

theorem same_up_to_ids_contents (P : Persona G K V M) (db db' : GroupDb G M)
    (hwf : WellFormed P db) (hwf' : WellFormed P db') (hsim : same_up_to_ids db db') (n : G)
    (it it' : GroupId × M) (hfind : FindGroup db n = .returned it)
    (hfind' : FindGroup db' n = .returned it') (hmeta : it.2 = it'.2) :
    GetContents_it P db n it = GetContents_it P db' n it' := by
  rw [GetContents_it_view P db n it hwf.store_ascending hwf.store_encoded
      (WellFormed_id_lt P db n it hwf hfind),
    GetContents_it_view P db' n it' hwf'.store_ascending hwf'.store_encoded
      (WellFormed_id_lt P db' n it' hwf' hfind'),
    same_up_to_ids_records P db db' hwf hwf' hsim n it it' hfind hfind', hmeta]

theorem same_up_to_ids_GetMetadata (db db' : GroupDb G M) (hsim : same_up_to_ids db db')
    (n : G) : GetMetadata db n = GetMetadata db' n := by
  unfold GetMetadata
  rcases same_up_to_ids_find db db' hsim n with ⟨h, h'⟩ | ⟨it, it', h, h', hm⟩
  · rw [h, h']
  · rw [h, h']
    simp only [hm]

theorem same_up_to_ids_GetValue (P : Persona G K V M) (db db' : GroupDb G M)
    (hsim : same_up_to_ids db db') (k : K) (env env' : Env) (hf : env.faults = env'.faults) :
    GetValue P db k env = GetValue P db' k env' := by
  unfold GetValue
  rcases same_up_to_ids_find db db' hsim (P.group_name k) with ⟨h, h'⟩ | ⟨it, it', h, h', _⟩
  · rw [h, h']
  · rw [h, h']
    unfold Get MakeLevelDbKey
    simp only [hf]
    rw [hsim.records _ it it' ((FindGroup_returned_iff db _ it).mp h)
      ((FindGroup_returned_iff db' _ it').mp h') (P.key_string k)]

theorem same_up_to_ids_GetContents (P : Persona G K V M) (db db' : GroupDb G M)
    (hwf : WellFormed P db) (hwf' : WellFormed P db') (hsim : same_up_to_ids db db') (n : G) :
    GetContents P db n = GetContents P db' n := by
  unfold GetContents
  rcases same_up_to_ids_find db db' hsim n with ⟨h, h'⟩ | ⟨it, it', h, h', hm⟩
  · rw [h, h']
  · rw [h, h']
    simp only [same_up_to_ids_contents P db db' hwf hwf' hsim n it it' h h' hm]

theorem find_set_metadata_inv (gm : GroupMap G M) (n n1 : G) (m : M) (it1 : GroupId × M)
    (h : map_find n1 (set_metadata n m gm) = some it1) :
    ∃ it0, map_find n1 gm = some it0 ∧ it0.1 = it1.1 := by
  rw [map_find_set_metadata] at h
  split_ifs at h with hn
  · cases h0 : map_find n1 gm with
    | none => rw [h0] at h; simp at h
    | some it0 =>
      rw [h0] at h
      refine ⟨it0, rfl, ?_⟩
      have := Option.some.inj h
      rw [← this]
  · exact ⟨it1, h, rfl⟩

theorem same_up_to_ids_set_metadata (db db' : GroupDb G M) (hsim : same_up_to_ids db db')
    (n : G) (m : M) :
    same_up_to_ids
      ({ group_map_ := set_metadata n m db.group_map_, leveldb_ := db.leveldb_ } : GroupDb G M)
      { group_map_ := set_metadata n m db'.group_map_, leveldb_ := db'.leveldb_ } :=
  { registry := same_group_set_metadata _ _ hsim.registry n m
    records := by
      intro n1 it1 it1' h h' ks
      obtain ⟨it0, h0, hid⟩ := find_set_metadata_inv _ n n1 m it1 h
      obtain ⟨it0', h0', hid'⟩ := find_set_metadata_inv _ n n1 m it1' h'
      show map_find (ToFixedWidthString kPrefixWidth_ it1.1 ++ ks) db.leveldb_ =
        map_find (ToFixedWidthString kPrefixWidth_ it1'.1 ++ ks) db'.leveldb_
      rw [← hid, ← hid']
      exact hsim.records n1 it0 it0' h0 h0' ks }

/-- The same write or erase under corresponding GroupIds keeps the correspondence. -/
theorem same_up_to_ids_store (P : Persona G K V M) (db db' : GroupDb G M)
    (hwf : WellFormed P db) (hwf' : WellFormed P db') (hsim : same_up_to_ids db db') (n0 : G)
    (it it' : GroupId × M) (hfind : FindGroup db n0 = .returned it)
    (hfind' : FindGroup db' n0 = .returned it') (key_string : Bytes)
    (store store' : List (Bytes × Bytes)) (bound : Option Bytes)
    (hself : map_find (ToFixedWidthString kPrefixWidth_ it.1 ++ key_string) store = bound)
    (hself' : map_find (ToFixedWidthString kPrefixWidth_ it'.1 ++ key_string) store' = bound)
    (hother : ∀ key, key ≠ ToFixedWidthString kPrefixWidth_ it.1 ++ key_string →
      map_find key store = map_find key db.leveldb_)
    (hother' : ∀ key, key ≠ ToFixedWidthString kPrefixWidth_ it'.1 ++ key_string →
      map_find key store' = map_find key db'.leveldb_) :
    same_up_to_ids ({ group_map_ := db.group_map_, leveldb_ := store } : GroupDb G M)
      { group_map_ := db'.group_map_, leveldb_ := store' } :=
  { registry := hsim.registry
    records := by
      intro n1 it1 it1' h h' ks
      show map_find (ToFixedWidthString kPrefixWidth_ it1.1 ++ ks) store =
        map_find (ToFixedWidthString kPrefixWidth_ it1'.1 ++ ks) store'
      have hf1 := (FindGroup_returned_iff db n1 it1).mpr h
      have hf1' := (FindGroup_returned_iff db' n1 it1').mpr h'
      by_cases hn : n1 = n0
      · subst hn
        rw [hfind] at hf1
        rw [hfind'] at hf1'
        cases hf1
        cases hf1'
        by_cases hks : ks = key_string
        · rw [hks, hself, hself']
        · rw [hother _ (fun heq => hks (encoded_append_inj _ _ _ heq)),
            hother' _ (fun heq => hks (encoded_append_inj _ _ _ heq))]
          exact hsim.records n1 it it' h h' ks
      · have hid : it1.1 ≠ it.1 := fun heq =>
          hn (WellFormed_id_inj P db n1 n0 it1 it hwf hf1 hfind heq)
        have hid' : it1'.1 ≠ it'.1 := fun heq =>
          hn (WellFormed_id_inj P db' n1 n0 it1' it' hwf' hf1' hfind' heq)
        rw [hother _ (prefixed_ne_of_id_ne _ _ _ _ (WellFormed_id_lt P db n1 it1 hwf hf1)
            (WellFormed_id_lt P db n0 it hwf hfind) hid),
          hother' _ (prefixed_ne_of_id_ne _ _ _ _ (WellFormed_id_lt P db' n1 it1' hwf' hf1')
            (WellFormed_id_lt P db' n0 it' hwf' hfind') hid')]
        exact hsim.records n1 it1 it1' h h' ks }

theorem same_up_to_ids_put (P : Persona G K V M) (db db' : GroupDb G M)
    (hwf : WellFormed P db) (hwf' : WellFormed P db') (hsim : same_up_to_ids db db') (n0 : G)
    (it it' : GroupId × M) (hfind : FindGroup db n0 = .returned it)
    (hfind' : FindGroup db' n0 = .returned it') (k : K) (value : Bytes) :
    same_up_to_ids
      ({ group_map_ := db.group_map_,
         leveldb_ := map_put (MakeLevelDbKey P it.1 k) value db.leveldb_ } : GroupDb G M)
      { group_map_ := db'.group_map_,
        leveldb_ := map_put (MakeLevelDbKey P it'.1 k) value db'.leveldb_ } :=
  same_up_to_ids_store P db db' hwf hwf' hsim n0 it it' hfind hfind' (P.key_string k) _ _
    (some value) (map_find_put_self _ _ _) (map_find_put_self _ _ _)
    (fun _ hne => map_find_put_of_ne _ _ (Ne.symm hne))
    (fun _ hne => map_find_put_of_ne _ _ (Ne.symm hne))

theorem same_up_to_ids_erase_key (P : Persona G K V M) (db db' : GroupDb G M)
    (hwf : WellFormed P db) (hwf' : WellFormed P db') (hsim : same_up_to_ids db db') (n0 : G)
    (it it' : GroupId × M) (hfind : FindGroup db n0 = .returned it)
    (hfind' : FindGroup db' n0 = .returned it') (k : K) :
    same_up_to_ids
      ({ group_map_ := db.group_map_,
         leveldb_ := map_erase (MakeLevelDbKey P it.1 k) db.leveldb_ } : GroupDb G M)
      { group_map_ := db'.group_map_,
        leveldb_ := map_erase (MakeLevelDbKey P it'.1 k) db'.leveldb_ } :=
  same_up_to_ids_store P db db' hwf hwf' hsim n0 it it' hfind hfind' (P.key_string k) _ _
    none (map_find_erase_self _ _) (map_find_erase_self _ _)
    (fun _ hne => map_find_erase_of_ne _ (Ne.symm hne))
    (fun _ hne => map_find_erase_of_ne _ (Ne.symm hne))

theorem same_up_to_ids_Put (P : Persona G K V M) (db db' : GroupDb G M)
    (hwf : WellFormed P db) (hwf' : WellFormed P db') (hsim : same_up_to_ids db db') (n0 : G)
    (it it' : GroupId × M) (hfind : FindGroup db n0 = .returned it)
    (hfind' : FindGroup db' n0 = .returned it') (kv : K × V) (fault : Bool) :
    (Put P db kv it.1 fault).1 = (Put P db' kv it'.1 fault).1 ∧
      same_up_to_ids (Put P db kv it.1 fault).2 (Put P db' kv it'.1 fault).2 := by
  unfold Put
  cases fault
  · exact ⟨rfl, same_up_to_ids_put P db db' hwf hwf' hsim n0 it it' hfind hfind' kv.1 _⟩
  · exact ⟨rfl, hsim⟩

theorem same_up_to_ids_put_all (P : Persona G K V M) (kvs : List (K × V))
    (db db' : GroupDb G M) (faults : List Bool)
    (hwf : WellFormed P db) (hwf' : WellFormed P db') (hsim : same_up_to_ids db db') (n0 : G)
    (it it' : GroupId × M) (hfind : FindGroup db n0 = .returned it)
    (hfind' : FindGroup db' n0 = .returned it') :
    same_up_to_ids (put_all P it.1 kvs db faults) (put_all P it'.1 kvs db' faults) := by
  induction kvs generalizing db db' faults with
  | nil => exact hsim
  | cons kv rest ih =>
    unfold put_all
    have hlt := WellFormed_id_lt P db n0 it hwf hfind
    have hlt' := WellFormed_id_lt P db' n0 it' hwf' hfind'
    refine ih _ _ _ (WellFormed_Put P db kv it.1 _ hwf hlt)
      (WellFormed_Put P db' kv it'.1 _ hwf' hlt')
      (same_up_to_ids_Put P db db' hwf hwf' hsim n0 it it' hfind hfind' kv _).2 ?_ ?_
    · unfold FindGroup
      rw [Put_group_map]
      exact hfind
    · unfold FindGroup
      rw [Put_group_map]
      exact hfind'

theorem same_up_to_ids_place (db db' : GroupDb G M) (ho : store_owned db)
    (ho' : store_owned db') (hsim : same_up_to_ids db db') (n : G) (g g' : GroupId) (m : M)
    (habsent : map_find n db.group_map_ = none) (habsent' : map_find n db'.group_map_ = none)
    (hfree : id_in_use db.group_map_ g = false) (hfree' : id_in_use db'.group_map_ g' = false)
    (hg : g < kGroupsLimit) (hg' : g' < kGroupsLimit) :
    same_up_to_ids
      ({ group_map_ := map_place n (g, m) db.group_map_, leveldb_ := db.leveldb_ } : GroupDb G M)
      { group_map_ := map_place n (g', m) db'.group_map_, leveldb_ := db'.leveldb_ } :=
  { registry := same_group_place _ _ hsim.registry n g g' m
    records := by
      intro n1 it1 it1' h h' ks
      show map_find (ToFixedWidthString kPrefixWidth_ it1.1 ++ ks) db.leveldb_ =
        map_find (ToFixedWidthString kPrefixWidth_ it1'.1 ++ ks) db'.leveldb_
      by_cases hn : n1 = n
      · subst hn
        have h1 : map_find n1 (map_place n1 (g, m) db.group_map_) = some (g, m) :=
          map_find_place_self _ _ _ habsent
        have h1' : map_find n1 (map_place n1 (g', m) db'.group_map_) = some (g', m) :=
          map_find_place_self _ _ _ habsent'
        rw [show map_find n1 (map_place n1 (g, m) db.group_map_) = some it1 from h] at h1
        rw [show map_find n1 (map_place n1 (g', m) db'.group_map_) = some it1' from h'] at h1'
        cases h1
        cases h1'
        rw [unowned_find_none db ho g hfree hg ks, unowned_find_none db' ho' g' hfree' hg' ks]
      · have h0 : map_find n1 db.group_map_ = some it1 := by
          rw [← map_find_place_of_ne (g, m) db.group_map_ (Ne.symm hn)]
          exact h
        have h0' : map_find n1 db'.group_map_ = some it1' := by
          rw [← map_find_place_of_ne (g', m) db'.group_map_ (Ne.symm hn)]
          exact h'
        exact hsim.records n1 it1 it1' h0 h0' ks }

end SimulationLemmas

section DeleteSimulationLemmas

variable {G K V M : Type} [LinearOrder G]

/-- Erasing the records with the same key bytes under corresponding GroupIds keeps the
correspondence. -/
theorem same_up_to_ids_filter (P : Persona G K V M) (db db' : GroupDb G M)
    (hwf : WellFormed P db) (hwf' : WellFormed P db') (hsim : same_up_to_ids db db') (n0 : G)
    (it it' : GroupId × M) (hfind : FindGroup db n0 = .returned it)
    (hfind' : FindGroup db' n0 = .returned it') (erased : List Bytes) :
    same_up_to_ids
      ({ group_map_ := db.group_map_,
         leveldb_ := db.leveldb_.filter (fun entry => decide (entry.1 ∉
           erased.map (fun s => ToFixedWidthString kPrefixWidth_ it.1 ++ s))) } : GroupDb G M)
      { group_map_ := db'.group_map_,
        leveldb_ := db'.leveldb_.filter (fun entry => decide (entry.1 ∉
          erased.map (fun s => ToFixedWidthString kPrefixWidth_ it'.1 ++ s))) } :=
  { registry := hsim.registry
    records := by
      intro n1 it1 it1' h h' ks
      show map_find (ToFixedWidthString kPrefixWidth_ it1.1 ++ ks)
          (db.leveldb_.filter (fun entry => decide (entry.1 ∉
            erased.map (fun s => ToFixedWidthString kPrefixWidth_ it.1 ++ s)))) =
        map_find (ToFixedWidthString kPrefixWidth_ it1'.1 ++ ks)
          (db'.leveldb_.filter (fun entry => decide (entry.1 ∉
            erased.map (fun s => ToFixedWidthString kPrefixWidth_ it'.1 ++ s))))
      rw [map_find_filter (fun key => decide (key ∉
          erased.map (fun s => ToFixedWidthString kPrefixWidth_ it.1 ++ s))),
        map_find_filter (fun key => decide (key ∉
          erased.map (fun s => ToFixedWidthString kPrefixWidth_ it'.1 ++ s)))]
      have hf1 := (FindGroup_returned_iff db n1 it1).mpr h
      have hf1' := (FindGroup_returned_iff db' n1 it1').mpr h'
      have hrec := hsim.records n1 it1 it1' h h' ks
      by_cases hn : n1 = n0
      · subst hn
        rw [hfind] at hf1
        rw [hfind'] at hf1'
        cases hf1
        cases hf1'
        have hmem : ∀ g : Nat, (ToFixedWidthString kPrefixWidth_ g ++ ks ∈
            erased.map (fun s => ToFixedWidthString kPrefixWidth_ g ++ s)) ↔ ks ∈ erased := by
          intro g
          rw [List.mem_map]
          constructor
          · rintro ⟨s, hs, heq⟩
            rw [← encoded_append_inj g _ _ heq]
            exact hs
          · intro hks
            exact ⟨ks, hks, rfl⟩
        by_cases hks : ks ∈ erased
        · have hd : decide (ToFixedWidthString kPrefixWidth_ it.1 ++ ks ∉
              erased.map (fun s => ToFixedWidthString kPrefixWidth_ it.1 ++ s)) = false :=
            decide_eq_false (fun hc => hc ((hmem it.1).mpr hks))
          have hd' : decide (ToFixedWidthString kPrefixWidth_ it'.1 ++ ks ∉
              erased.map (fun s => ToFixedWidthString kPrefixWidth_ it'.1 ++ s)) = false :=
            decide_eq_false (fun hc => hc ((hmem it'.1).mpr hks))
          simp only [hd, hd', Bool.false_eq_true, if_false]
        · have hd : decide (ToFixedWidthString kPrefixWidth_ it.1 ++ ks ∉
              erased.map (fun s => ToFixedWidthString kPrefixWidth_ it.1 ++ s)) = true :=
            decide_eq_true (fun hc => hks ((hmem it.1).mp hc))
          have hd' : decide (ToFixedWidthString kPrefixWidth_ it'.1 ++ ks ∉
              erased.map (fun s => ToFixedWidthString kPrefixWidth_ it'.1 ++ s)) = true :=
            decide_eq_true (fun hc => hks ((hmem it'.1).mp hc))
          simp only [hd, hd', if_true]
          exact hrec
      · have hid : it1.1 ≠ it.1 := fun heq =>
          hn (WellFormed_id_inj P db n1 n0 it1 it hwf hf1 hfind heq)
        have hid' : it1'.1 ≠ it'.1 := fun heq =>
          hn (WellFormed_id_inj P db' n1 n0 it1' it' hwf' hf1' hfind' heq)
        have hout : ∀ (g1 g : Nat), g1 < kGroupsLimit → g < kGroupsLimit → g1 ≠ g →
            ToFixedWidthString kPrefixWidth_ g1 ++ ks ∉
              erased.map (fun s => ToFixedWidthString kPrefixWidth_ g ++ s) := by
          intro g1 g hg1 hg hne hc
          obtain ⟨s, _, heq⟩ := List.mem_map.mp hc
          exact prefixed_ne_of_id_ne g g1 s ks hg hg1 (Ne.symm hne) heq
        have hno := hout it1.1 it.1 (WellFormed_id_lt P db n1 it1 hwf hf1)
          (WellFormed_id_lt P db n0 it hwf hfind) hid
        have hno' := hout it1'.1 it'.1 (WellFormed_id_lt P db' n1 it1' hwf' hf1')
          (WellFormed_id_lt P db' n0 it' hwf' hfind') hid'
        have hd : decide (ToFixedWidthString kPrefixWidth_ it1.1 ++ ks ∉
            erased.map (fun s => ToFixedWidthString kPrefixWidth_ it.1 ++ s)) = true :=
          decide_eq_true hno
        have hd' : decide (ToFixedWidthString kPrefixWidth_ it1'.1 ++ ks ∉
            erased.map (fun s => ToFixedWidthString kPrefixWidth_ it'.1 ++ s)) = true :=
          decide_eq_true hno'
        simp only [hd, hd', if_true]
        exact hrec }

theorem same_up_to_ids_erase_group (db db' : GroupDb G M) (hsim : same_up_to_ids db db')
    (n : G) :
    same_up_to_ids
      ({ group_map_ := map_erase n db.group_map_, leveldb_ := db.leveldb_ } : GroupDb G M)
      { group_map_ := map_erase n db'.group_map_, leveldb_ := db'.leveldb_ } :=
  { registry := same_group_erase _ _ hsim.registry n
    records := by
      intro n1 it1 it1' h h' ks
      have hne : n ≠ n1 := by
        intro heq
        subst heq
        rw [show map_find n (map_erase n db.group_map_) = none from
          map_find_erase_self n db.group_map_] at h
        cases h
      have h0 : map_find n1 db.group_map_ = some it1 := by
        rw [← map_find_erase_of_ne db.group_map_ hne]
        exact h
      have h0' : map_find n1 db'.group_map_ = some it1' := by
        rw [← map_find_erase_of_ne db'.group_map_ hne]
        exact h'
      exact hsim.records n1 it1 it1' h0 h0' ks }

theorem same_up_to_ids_DeleteGroupEntries (P : Persona G K V M) (db db' : GroupDb G M)
    (hwf : WellFormed P db) (hwf' : WellFormed P db') (hsim : same_up_to_ids db db') (n : G)
    (faults : List Bool) :
    same_up_to_ids (DeleteGroupEntries db n faults).1 (DeleteGroupEntries db' n faults).1 ∧
      (DeleteGroupEntries db n faults).2 = (DeleteGroupEntries db' n faults).2 := by
  rcases same_up_to_ids_find db db' hsim n with ⟨h, h'⟩ | ⟨it, it', h, h', _⟩
  · rw [DeleteGroupEntries_unregistered db n faults h,
      DeleteGroupEntries_unregistered db' n faults h']
    exact ⟨hsim, rfl⟩
  · have hlt := WellFormed_id_lt P db n it hwf h
    have hlt' := WellFormed_id_lt P db' n it' hwf' h'
    have hrec := same_up_to_ids_records P db db' hwf hwf' hsim n it it' h h'
    have hkeys := group_keys_view P _ hwf.store_ascending hwf.store_encoded it.1 hlt
    have hkeys' := group_keys_view P _ hwf'.store_ascending hwf'.store_encoded it'.1 hlt'
    unfold DeleteGroupEntries
    simp only [h, h', DeleteGroupEntries_it]
    rw [delete_keys_run, delete_keys_run, hkeys, hkeys', ← hrec]
    simp only [List.length_map, ← List.map_take]
    have hfiltered := same_up_to_ids_filter P db db' hwf hwf' hsim n it it' h h'
      (((group_records it.1 db.leveldb_).take
        (delete_run (group_records it.1 db.leveldb_).length faults).2.1).map Prod.fst)
    simp only [List.map_map] at hfiltered
    split_ifs
    · exact ⟨same_up_to_ids_erase_group _ _ hfiltered n, rfl⟩
    · exact ⟨hfiltered, rfl⟩

theorem same_up_to_ids_prune_groups (P : Persona G K V M) (names : List G)
    (db db' : GroupDb G M) (faults : List Bool) (hwf : WellFormed P db)
    (hwf' : WellFormed P db') (hsim : same_up_to_ids db db') :
    same_up_to_ids (prune_groups names db faults) (prune_groups names db' faults) := by
  induction names generalizing db db' faults with
  | nil => exact hsim
  | cons i rest ih =>
    unfold prune_groups
    have hstep := same_up_to_ids_DeleteGroupEntries P db db' hwf hwf' hsim i faults
    rw [← hstep.2]
    exact ih _ _ _ (WellFormed_DeleteGroupEntries P db i faults hwf)
      (WellFormed_DeleteGroupEntries P db' i faults hwf') hstep.1

end DeleteSimulationLemmas

section CallSimulationLemmas

variable {G K V M : Type} [LinearOrder G]

/-- When neither run is left in the allocation loop, `AddGroupToMap` ends the same way in
both, up to the GroupId chosen, and keeps the correspondence. -/
theorem same_up_to_ids_AddGroupToMap (db db' : GroupDb G M) (ho : store_owned db)
    (ho' : store_owned db') (hsim : same_up_to_ids db db') (n : G) (m : M)
    (draws draws' : List Int) (hns : (AddGroupToMap db n m draws).1 ≠ .spinning)
    (hns' : (AddGroupToMap db' n m draws').1 ≠ .spinning) :
    same_up_to_ids (AddGroupToMap db n m draws).2 (AddGroupToMap db' n m draws').2 ∧
      ((∃ e, (AddGroupToMap db n m draws).1 = .raised e ∧
          (AddGroupToMap db' n m draws').1 = .raised e) ∨
        (∃ g g', (AddGroupToMap db n m draws).1 = .returned (g, m) ∧
          (AddGroupToMap db' n m draws').1 = .returned (g', m) ∧
          FindGroup (AddGroupToMap db n m draws).2 n = .returned (g, m) ∧
          FindGroup (AddGroupToMap db' n m draws').2 n = .returned (g', m))) := by
  have hlen : db.group_map_.length = db'.group_map_.length := hsim.registry.length_eq
  have hfind := same_group_find _ _ hsim.registry n
  rcases AddGroupToMap_cases db n m draws with hc | hc | hc | hc
  · rcases AddGroupToMap_cases db' n m draws' with hc' | hc' | hc' | hc'
    · rw [hc.2, hc'.2]
      exact ⟨hsim, Or.inl ⟨_, rfl, rfl⟩⟩
    · exact absurd (hlen ▸ hc.1) hc'.1
    · exact absurd (hlen ▸ hc.1) hc'.1
    · exact absurd (hlen ▸ hc.1) hc'.1
  · exact absurd (by rw [hc.2.2]) hns
  · obtain ⟨hfull, _, ⟨it, hit⟩, heq⟩ := hc
    rcases AddGroupToMap_cases db' n m draws' with hc' | hc' | hc' | hc'
    · exact absurd (hlen ▸ hc'.1) hfull
    · exact absurd (by rw [hc'.2.2]) hns'
    · rw [heq, hc'.2.2.2]
      exact ⟨hsim, Or.inl ⟨_, rfl, rfl⟩⟩
    · exfalso
      rcases hfind with ⟨h0, _⟩ | ⟨_, _, _, h0', _⟩
      · rw [hit] at h0
        cases h0
      · rw [hc'.2.1] at h0'
        cases h0'
  · obtain ⟨hfull, habsent, g, hpick, heq⟩ := hc
    rcases AddGroupToMap_cases db' n m draws' with hc' | hc' | hc' | hc'
    · exact absurd (hlen ▸ hc'.1) hfull
    · exact absurd (by rw [hc'.2.2]) hns'
    · exfalso
      obtain ⟨_, _, ⟨it', hit'⟩, _⟩ := hc'
      rcases hfind with ⟨_, h0'⟩ | ⟨_, _, h0, _, _⟩
      · rw [hit'] at h0'
        cases h0'
      · rw [habsent] at h0
        cases h0
    · obtain ⟨_, habsent', g', hpick', heq'⟩ := hc'
      rw [heq, heq']
      refine ⟨same_up_to_ids_place db db' ho ho' hsim n g g' m habsent habsent'
        (pick_group_id_unused _ _ _ hpick).1 (pick_group_id_unused _ _ _ hpick').1
        (pick_group_id_unused _ _ _ hpick).2 (pick_group_id_unused _ _ _ hpick').2,
        Or.inr ⟨g, g', rfl, rfl, ?_, ?_⟩⟩
      · rw [FindGroup_returned_iff]
        exact map_find_place_self _ _ _ habsent
      · rw [FindGroup_returned_iff]
        exact map_find_place_self _ _ _ habsent'

theorem same_up_to_ids_commit_action (P : Persona G K V M) (db db' : GroupDb G M)
    (hwf : WellFormed P db) (hwf' : WellFormed P db') (hsim : same_up_to_ids db db') (k : K)
    (it it' : GroupId × M) (hfind : FindGroup db (P.group_name k) = .returned it)
    (hfind' : FindGroup db' (P.group_name k) = .returned it') (hmeta : it.2 = it'.2)
    (value : Option V) (f : RecordFunctor M V) (fault : Bool) :
    (commit_action P db k it value f fault).1 = (commit_action P db' k it' value f fault).1 ∧
      same_up_to_ids (commit_action P db k it value f fault).2
        (commit_action P db' k it' value f fault).2 := by
  have h1 := same_up_to_ids_set_metadata db db' hsim (P.group_name k) (f it.2 value).1.1
  have hw1 := WellFormed_set_metadata P db (P.group_name k) (f it.2 value).1.1 hwf
  have hw1' := WellFormed_set_metadata P db' (P.group_name k) (f it.2 value).1.1 hwf'
  have hf1 : FindGroup
      ({ group_map_ := set_metadata (P.group_name k) (f it.2 value).1.1 db.group_map_,
         leveldb_ := db.leveldb_ } : GroupDb G M) (P.group_name k) =
      .returned (it.1, (f it.2 value).1.1) := by
    rw [FindGroup_returned_iff, map_find_set_metadata, if_pos rfl,
      (FindGroup_returned_iff db _ it).mp hfind]
    rfl
  have hf1' : FindGroup
      ({ group_map_ := set_metadata (P.group_name k) (f it.2 value).1.1 db'.group_map_,
         leveldb_ := db'.leveldb_ } : GroupDb G M) (P.group_name k) =
      .returned (it'.1, (f it.2 value).1.1) := by
    rw [FindGroup_returned_iff, map_find_set_metadata, if_pos rfl,
      (FindGroup_returned_iff db' _ it').mp hfind']
    rfl
  cases h2 : (f it.2 value).2 with
  | error e =>
    rw [commit_action_error P db k it value f fault e h2,
      commit_action_error P db' k it' value f fault e (hmeta ▸ h2), ← hmeta]
    exact ⟨rfl, h1⟩
  | ok a =>
    cases a <;> cases hslot : (f it.2 value).1.2
    · rw [commit_action_put_none P db k it value f fault h2 hslot,
        commit_action_put_none P db' k it' value f fault (hmeta ▸ h2) (hmeta ▸ hslot), ← hmeta]
      exact ⟨rfl, h1⟩
    · rw [commit_action_put_some P db k it value f fault _ h2 hslot,
        commit_action_put_some P db' k it' value f fault _ (hmeta ▸ h2) (hmeta ▸ hslot),
        ← hmeta]
      cases fault
      · exact ⟨rfl, same_up_to_ids_put P _ _ hw1 hw1' h1 (P.group_name k) _ _ hf1 hf1' k _⟩
      · exact ⟨rfl, h1⟩
    · rw [commit_action_delete_none P db k it value f fault h2 hslot,
        commit_action_delete_none P db' k it' value f fault (hmeta ▸ h2) (hmeta ▸ hslot),
        ← hmeta]
      exact ⟨rfl, h1⟩
    · rw [commit_action_delete_some P db k it value f fault _ h2 hslot,
        commit_action_delete_some P db' k it' value f fault _ (hmeta ▸ h2) (hmeta ▸ hslot),
        ← hmeta]
      cases fault
      · exact ⟨rfl, same_up_to_ids_erase_key P _ _ hw1 hw1' h1 (P.group_name k) _ _ hf1 hf1'
          k⟩
      · exact ⟨rfl, h1⟩

theorem same_up_to_ids_Commit_key (P : Persona G K V M) (db db' : GroupDb G M)
    (hwf : WellFormed P db) (hwf' : WellFormed P db') (hsim : same_up_to_ids db db') (k : K)
    (f : RecordFunctor M V) (env env' : Env) (hf : env.faults = env'.faults) :
    (Commit_key P db k f env).outcome = (Commit_key P db' k f env').outcome ∧
      same_up_to_ids (Commit_key P db k f env).db (Commit_key P db' k f env').db := by
  rcases same_up_to_ids_find db db' hsim (P.group_name k) with ⟨h, h'⟩ | ⟨it, it', h, h', hm⟩
  · rw [Commit_key_unregistered P db k f env h, Commit_key_unregistered P db' k f env' h']
    exact ⟨rfl, hsim⟩
  · rw [Commit_key_registered P db k f env it h, Commit_key_registered P db' k f env' it' h',
      ← hf]
    have hload : loaded_value P db k it = loaded_value P db' k it' := by
      unfold loaded_value MakeLevelDbKey
      rw [hsim.records _ it it' ((FindGroup_returned_iff db _ it).mp h)
        ((FindGroup_returned_iff db' _ it').mp h') (P.key_string k)]
    rw [← hload]
    split_ifs
    · exact ⟨rfl, hsim⟩
    · exact same_up_to_ids_commit_action P db db' hwf hwf' hsim k it it' h h' hm _ f _

theorem same_up_to_ids_Commit_name (db db' : GroupDb G M) (hsim : same_up_to_ids db db')
    (n : G) (f : MetadataFunctor M) :
    (Commit_name db n f).outcome = (Commit_name db' n f).outcome ∧
      same_up_to_ids (Commit_name db n f).db (Commit_name db' n f).db := by
  rcases same_up_to_ids_find db db' hsim n with ⟨h, h'⟩ | ⟨it, it', h, h', hm⟩
  · rw [Commit_name_unregistered db n f h, Commit_name_unregistered db' n f h']
    exact ⟨rfl, hsim⟩
  · unfold Commit_name FindOrCreateGroup UpdateGroup
    simp only [h, h', ← hm]
    exact ⟨trivial, same_up_to_ids_set_metadata db db' hsim n _⟩

theorem same_up_to_ids_scan (P : Persona G K V M) (db db' : GroupDb G M)
    (hwf : WellFormed P db) (hwf' : WellFormed P db') (hsim : same_up_to_ids db db')
    (mc : MatrixChange) (l l' : GroupMap G M) (h : List.Forall₂ same_group l l')
    (hsub : ∀ e ∈ l, e ∈ db.group_map_) (hsub' : ∀ e ∈ l', e ∈ db'.group_map_)
    (acc : TransferInfo G K V M × List G) :
    l.foldl (scan_group P db mc) acc = l'.foldl (scan_group P db' mc) acc := by
  induction h generalizing acc with
  | nil => rfl
  | @cons a b t t' hhead _ ih =>
    rw [List.foldl_cons, List.foldl_cons]
    have hfa : FindGroup db a.1 = .returned a.2 := by
      rw [FindGroup_returned_iff]
      exact map_find_of_mem _ hwf.names_ascending a (hsub a (List.mem_cons_self _ _))
    have hfb : FindGroup db' a.1 = .returned b.2 := by
      rw [FindGroup_returned_iff, hhead.1]
      exact map_find_of_mem _ hwf'.names_ascending b (hsub' b (List.mem_cons_self _ _))
    have hcontents := same_up_to_ids_contents P db db' hwf hwf' hsim a.1 a.2 b.2 hfa hfb hhead.2
    have hstep : scan_group P db mc acc a = scan_group P db' mc acc b := by
      unfold scan_group
      rw [← hhead.1, hcontents]
    rw [hstep]
    exact ih (fun e he => hsub e (List.mem_cons_of_mem _ he))
      (fun e he => hsub' e (List.mem_cons_of_mem _ he)) _

theorem same_up_to_ids_GetTransferInfo (P : Persona G K V M) (db db' : GroupDb G M)
    (hwf : WellFormed P db) (hwf' : WellFormed P db') (hsim : same_up_to_ids db db')
    (mc : MatrixChange) (env env' : Env) (hf : env.faults = env'.faults) :
    (GetTransferInfo P db mc env).1 = (GetTransferInfo P db' mc env').1 ∧
      same_up_to_ids (GetTransferInfo P db mc env).2 (GetTransferInfo P db' mc env').2 := by
  unfold GetTransferInfo
  have hscan := same_up_to_ids_scan P db db' hwf hwf' hsim mc _ _ hsim.registry
    (fun _ he => he) (fun _ he => he) ([], [])
  simp only [hscan, hf]
  exact ⟨trivial, same_up_to_ids_prune_groups P _ db db' _ hwf hwf' hsim⟩

theorem same_up_to_ids_ApplyTransfer (P : Persona G K V M) (db db' : GroupDb G M)
    (hwf : WellFormed P db) (hwf' : WellFormed P db') (ho : store_owned db)
    (ho' : store_owned db') (hsim : same_up_to_ids db db') (c : Contents G K V M)
    (env env' : Env) (hf : env.faults = env'.faults)
    (hns : (ApplyTransfer P db c env).1 ≠ .spinning)
    (hns' : (ApplyTransfer P db' c env').1 ≠ .spinning) :
    (ApplyTransfer P db c env).1 = (ApplyTransfer P db' c env').1 ∧
      same_up_to_ids (ApplyTransfer P db c env).2 (ApplyTransfer P db' c env').2 := by
  unfold ApplyTransfer at hns hns' ⊢
  rcases same_up_to_ids_find db db' hsim c.group_name with ⟨h, h'⟩ | ⟨it, it', h, h', _⟩
  · simp only [h, h'] at hns hns' ⊢
    have hns1 : (AddGroupToMap db c.group_name c.metadata env.draws).1 ≠ .spinning := by
      intro hc
      cases hres : AddGroupToMap db c.group_name c.metadata env.draws with
      | mk out d =>
        rw [hres] at hc hns
        simp only at hc
        subst hc
        exact hns rfl
    have hns1' : (AddGroupToMap db' c.group_name c.metadata env'.draws).1 ≠ .spinning := by
      intro hc
      cases hres : AddGroupToMap db' c.group_name c.metadata env'.draws with
      | mk out d =>
        rw [hres] at hc hns'
        simp only at hc
        subst hc
        exact hns' rfl
    have hadd := same_up_to_ids_AddGroupToMap db db' ho ho' hsim c.group_name c.metadata
      env.draws env'.draws hns1 hns1'
    have hw := WellFormed_AddGroupToMap P db c.group_name c.metadata env.draws hwf
    have hw' := WellFormed_AddGroupToMap P db' c.group_name c.metadata env'.draws hwf'
    cases hres : AddGroupToMap db c.group_name c.metadata env.draws with
    | mk out d =>
      cases hres' : AddGroupToMap db' c.group_name c.metadata env'.draws with
      | mk out' d' =>
        rw [hres, hres'] at hadd
        rw [hres] at hw
        rw [hres'] at hw'
        simp only at hadd
        obtain ⟨hsim1, hcase⟩ := hadd
        rcases hcase with ⟨e, he, he'⟩ | ⟨g, g', hg, hg', hfg, hfg'⟩
        · subst he
          subst he'
          exact ⟨rfl, hsim1⟩
        · subst hg
          subst hg'
          simp only [hf]
          exact ⟨trivial, same_up_to_ids_put_all P c.kv_pairs d d' _ hw hw' hsim1
            c.group_name (g, c.metadata) (g', c.metadata) hfg hfg'⟩
  · simp only [h, h', hf]
    exact ⟨trivial, same_up_to_ids_put_all P c.kv_pairs db db' _ hwf hwf' hsim c.group_name
      it it' h h'⟩

/-- One public call made in two corresponding states, with the same backend statuses and any
draws that let it return, gives the same observation and leaves corresponding states. -/
theorem same_up_to_ids_step (P : Persona G K V M) (db db' : GroupDb G M)
    (hwf : WellFormed P db) (hwf' : WellFormed P db') (ho : store_owned db)
    (ho' : store_owned db') (hsim : same_up_to_ids db db') (call : Call G K V M)
    (env env' : Env) (hf : env.faults = env'.faults)
    (hns : (observe P db env call).still_drawing = false)
    (hns' : (observe P db' env' call).still_drawing = false) :
    observe P db env call = observe P db' env' call ∧
      same_up_to_ids (exec P db env call) (exec P db' env' call) := by
  cases call with
  | add_group n m =>
    have hns1 : (AddGroupToMap db n m env.draws).1 ≠ .spinning := by
      intro hc
      cases hres : AddGroupToMap db n m env.draws with
      | mk out d =>
        rw [hres] at hc
        simp only at hc
        subst hc
        simp [observe, AddGroup, hres, Observation.still_drawing] at hns
    have hns1' : (AddGroupToMap db' n m env'.draws).1 ≠ .spinning := by
      intro hc
      cases hres : AddGroupToMap db' n m env'.draws with
      | mk out d =>
        rw [hres] at hc
        simp only at hc
        subst hc
        simp [observe, AddGroup, hres, Observation.still_drawing] at hns'
    have hadd := same_up_to_ids_AddGroupToMap db db' ho ho' hsim n m env.draws env'.draws
      hns1 hns1'
    show Observation.unit (AddGroup db n m env).1 = Observation.unit (AddGroup db' n m env').1 ∧
      same_up_to_ids (AddGroup db n m env).2 (AddGroup db' n m env').2
    unfold AddGroup
    cases hres : AddGroupToMap db n m env.draws with
    | mk out d =>
      cases hres' : AddGroupToMap db' n m env'.draws with
      | mk out' d' =>
        rw [hres, hres'] at hadd
        simp only at hadd
        obtain ⟨hsim1, hcase⟩ := hadd
        rcases hcase with ⟨e, he, he'⟩ | ⟨g, g', hg, hg', _, _⟩
        · subst he
          subst he'
          exact ⟨rfl, hsim1⟩
        · subst hg
          subst hg'
          exact ⟨rfl, hsim1⟩
  | delete_group n =>
    have h := same_up_to_ids_DeleteGroupEntries P db db' hwf hwf' hsim n env.faults
    refine ⟨rfl, ?_⟩
    show same_up_to_ids (DeleteGroup db n env).2 (DeleteGroup db' n env').2
    unfold DeleteGroup
    rw [← hf]
    exact h.1
  | commit_name n f =>
    have h := same_up_to_ids_Commit_name db db' hsim n f
    exact ⟨congrArg Observation.unit h.1, h.2⟩
  | commit_key k f =>
    have h := same_up_to_ids_Commit_key P db db' hwf hwf' hsim k f env env' hf
    exact ⟨congrArg Observation.slot h.1, h.2⟩
  | get_transfer_info mc =>
    have h := same_up_to_ids_GetTransferInfo P db db' hwf hwf' hsim mc env env' hf
    exact ⟨congrArg Observation.transfer h.1, h.2⟩
  | handle_transfer c =>
    have hns1 : (ApplyTransfer P db c env).1 ≠ .spinning := by
      intro hc
      simp [observe, HandleTransfer, hc, Observation.still_drawing] at hns
    have hns1' : (ApplyTransfer P db' c env').1 ≠ .spinning := by
      intro hc
      simp [observe, HandleTransfer, hc, Observation.still_drawing] at hns'
    have h := same_up_to_ids_ApplyTransfer P db db' hwf hwf' ho ho' hsim c env env' hf
      hns1 hns1'
    exact ⟨congrArg Observation.unit h.1, h.2⟩
  | get_metadata n =>
    exact ⟨congrArg Observation.metadata (same_up_to_ids_GetMetadata db db' hsim n), hsim⟩
  | get_value k =>
    exact ⟨congrArg Observation.value (same_up_to_ids_GetValue P db db' hsim k env env' hf),
      hsim⟩
  | get_contents n =>
    exact ⟨congrArg Observation.contents
      (same_up_to_ids_GetContents P db db' hwf hwf' hsim n), hsim⟩

/-- Two runs of the same calls from corresponding states give the same observations. -/
theorem same_up_to_ids_observations (P : Persona G K V M)
    (steps steps' : List (Call G K V M × Env)) (hsame : same_calls steps steps')
    (db db' : GroupDb G M) (hwf : WellFormed P db) (hwf' : WellFormed P db')
    (ho : store_owned db) (ho' : store_owned db') (hsim : same_up_to_ids db db')
    (hns : ∀ o ∈ observations P db steps, o.still_drawing = false)
    (hns' : ∀ o ∈ observations P db' steps', o.still_drawing = false) :
    observations P db steps = observations P db' steps' := by
  unfold same_calls at hsame
  induction hsame generalizing db db' with
  | nil => rfl
  | @cons step step' rest rest' hhead _ ih =>
    unfold observations at hns hns' ⊢
    obtain ⟨hcall, hfaults⟩ := hhead
    have hstep := same_up_to_ids_step P db db' hwf hwf' ho ho' hsim step.1 step.2 step'.2
      hfaults (hns _ (List.mem_cons_self _ _))
      (hcall ▸ hns' _ (List.mem_cons_self _ _))
    rw [← hcall] at hns' ⊢
    rw [hstep.1]
    congr 1
    exact ih _ _ (exec_well_formed P db step.2 step.1 hwf)
      (exec_well_formed P db' step'.2 step.1 hwf')
      (exec_store_owned P db step.2 step.1 hwf ho)
      (exec_store_owned P db' step'.2 step.1 hwf' ho') hstep.2
      (fun o hmem => hns o (List.mem_cons_of_mem _ hmem))
      (fun o hmem => hns' o (List.mem_cons_of_mem _ hmem))

end CallSimulationLemmas

/-! ## Claims -/

section Claims

variable {G K V M : Type} [LinearOrder G]

/-- C1 (counterexample): a record `[9, 9]` is stored under the key; the functor resets the
value slot and returns `kDelete`. The commit returns normally, the functor chose Delete, and
yet the following `GetValue` returns `[9, 9]` instead of raising `no_such_element`. -/
theorem commit_record_reset_delete_keeps_record :
    (Commit_key testPersona demoDbStored demoKey reset_then_delete (Env.working [])).outcome
        = .returned none ∧
      (reset_then_delete 100 (loaded_value testPersona demoDbStored demoKey (65535, 100))).2
        = .ok .kDelete ∧
      GetValue testPersona
        (Commit_key testPersona demoDbStored demoKey reset_then_delete (Env.working [])).db
        demoKey (Env.working []) = .returned [9, 9] :=
  ⟨by decide, rfl, by decide⟩

/-- C1 (amended): when `Commit(key, functor)` on a registered group returns normally, then
either the functor returned Put and a following `GetValue(key)` returns the value the functor
left in the slot, or it returned Delete leaving a value in the slot and `GetValue(key)` raises
`no_such_element`, or it returned Delete leaving the slot empty and `GetValue(key)` gives what
it gave before the call. The following read is one on which the backend does not fail, and
`Value(v.Serialise()) == v`. -/
theorem commit_record_then_get_value (P : Persona G K V M) (db : GroupDb G M) (k : K)
    (f : RecordFunctor M V) (env env2 : Env) (it : GroupId × M) (x : Option V)
    (hround : ∀ v, P.parse_value (P.Serialise v) = v)
    (hreg : FindGroup db (P.group_name k) = .returned it)
    (hget : (next_fault env2.faults).1 = false)
    (hret : (Commit_key P db k f env).outcome = .returned x) :
    ((f it.2 (loaded_value P db k it)).2 = .ok .kPut ∧
      ∃ v, (f it.2 (loaded_value P db k it)).1.2 = some v ∧
        GetValue P (Commit_key P db k f env).db k env2 = .returned v) ∨
    ((f it.2 (loaded_value P db k it)).2 = .ok .kDelete ∧
      (f it.2 (loaded_value P db k it)).1.2 ≠ none ∧
        GetValue P (Commit_key P db k f env).db k env2 = .raised .no_such_element) ∨
    ((f it.2 (loaded_value P db k it)).2 = .ok .kDelete ∧
      (f it.2 (loaded_value P db k it)).1.2 = none ∧
        GetValue P (Commit_key P db k f env).db k env2 = GetValue P db k env2) := by
  rw [Commit_key_registered P db k f env it hreg] at hret ⊢
  by_cases hfault : (next_fault env.faults).1 = true
  · rw [if_pos hfault] at hret
    simp at hret
  · rw [if_neg hfault] at hret ⊢
    simp only at hret ⊢
    cases h2 : (f it.2 (loaded_value P db k it)).2 with
    | error e =>
      rw [commit_action_error P db k it _ f _ e h2] at hret
      simp at hret
    | ok a =>
      cases a <;> cases h1 : (f it.2 (loaded_value P db k it)).1.2
      · rw [commit_action_put_none P db k it _ f _ h2 h1] at hret
        simp at hret
      · rename_i v
        rw [commit_action_put_some P db k it _ f _ v h2 h1] at hret ⊢
        by_cases hf2 : (next_fault (next_fault env.faults).2).1 = true
        · rw [if_pos hf2] at hret
          simp at hret
        · rw [if_neg hf2]
          refine Or.inl ⟨rfl, v, rfl, ?_⟩
          rw [GetValue_set_metadata P db k it _ _ env2 hreg hget, map_find_put_self]
          simp [hround]
      · rw [commit_action_delete_none P db k it _ f _ h2 h1]
        refine Or.inr (Or.inr ⟨rfl, rfl, ?_⟩)
        apply GetValue_congr
        · exact FindGroup_set_metadata_id db _ _ _
        · intro g
          rfl
      · rename_i v
        rw [commit_action_delete_some P db k it _ f _ v h2 h1] at hret ⊢
        by_cases hf2 : (next_fault (next_fault env.faults).2).1 = true
        · rw [if_pos hf2] at hret
          simp at hret
        · rw [if_neg hf2]
          refine Or.inr (Or.inl ⟨rfl, by simp, ?_⟩)
          rw [GetValue_set_metadata P db k it _ _ env2 hreg hget, map_find_erase_self]

/-- C1 (witness): the amended statement applied to `put_nine` committed on `demoDb`. -/
theorem commit_record_then_get_value_witness :
    ((put_nine 100 (loaded_value testPersona demoDb demoKey (65535, 100))).2 = .ok .kPut ∧
      ∃ v, (put_nine 100 (loaded_value testPersona demoDb demoKey (65535, 100))).1.2 = some v ∧
        GetValue testPersona (Commit_key testPersona demoDb demoKey put_nine (Env.working [])).db
          demoKey (Env.working []) = .returned v) ∨
    ((put_nine 100 (loaded_value testPersona demoDb demoKey (65535, 100))).2 = .ok .kDelete ∧
      (put_nine 100 (loaded_value testPersona demoDb demoKey (65535, 100))).1.2 ≠ none ∧
        GetValue testPersona (Commit_key testPersona demoDb demoKey put_nine (Env.working [])).db
          demoKey (Env.working []) = .raised .no_such_element) ∨
    ((put_nine 100 (loaded_value testPersona demoDb demoKey (65535, 100))).2 = .ok .kDelete ∧
      (put_nine 100 (loaded_value testPersona demoDb demoKey (65535, 100))).1.2 = none ∧
        GetValue testPersona (Commit_key testPersona demoDb demoKey put_nine (Env.working [])).db
          demoKey (Env.working []) = GetValue testPersona demoDb demoKey (Env.working [])) :=
  commit_record_then_get_value testPersona demoDb demoKey put_nine (Env.working [])
    (Env.working []) (65535, 100) none (fun _ => rfl) (by decide) (by decide) (by decide)

/-- C2: when the functor throws inside `Commit(key, functor)` on a registered group, the
commit throws, the store is exactly as before (no record of any group added, changed or
removed), and `GetValue` of every key gives what it gave before the call. -/
theorem commit_record_functor_raises (P : Persona G K V M) (db : GroupDb G M) (k : K)
    (f : RecordFunctor M V) (env : Env) (it : GroupId × M)
    (hreg : FindGroup db (P.group_name k) = .returned it)
    (hf : ∃ e, (f it.2 (loaded_value P db k it)).2 = .error e) :
    (∃ e, (Commit_key P db k f env).outcome = .raised e) ∧
      (Commit_key P db k f env).db.leveldb_ = db.leveldb_ ∧
      ∀ (k' : K) (env2 : Env),
        GetValue P (Commit_key P db k f env).db k' env2 = GetValue P db k' env2 := by
  obtain ⟨e, he⟩ := hf
  rw [Commit_key_registered P db k f env it hreg]
  by_cases hfault : (next_fault env.faults).1 = true
  · rw [if_pos hfault]
    exact ⟨⟨_, rfl⟩, rfl, fun _ _ => rfl⟩
  · rw [if_neg hfault, commit_action_error P db k it _ f _ e he]
    refine ⟨⟨e, rfl⟩, rfl, ?_⟩
    intro k' env2
    apply GetValue_congr
    · exact FindGroup_set_metadata_id db _ _ _
    · intro g
      rfl

/-- C2 (witness): `set_then_throw_record` committed on the database holding a record. -/
theorem commit_record_functor_raises_witness :
    (∃ e, (Commit_key testPersona demoDbStored demoKey set_then_throw_record
        (Env.working [])).outcome = .raised e) ∧
      (Commit_key testPersona demoDbStored demoKey set_then_throw_record
        (Env.working [])).db.leveldb_ = demoDbStored.leveldb_ ∧
      ∀ (k' : TestKey) (env2 : Env),
        GetValue testPersona (Commit_key testPersona demoDbStored demoKey set_then_throw_record
          (Env.working [])).db k' env2 = GetValue testPersona demoDbStored k' env2 :=
  commit_record_functor_raises testPersona demoDbStored demoKey set_then_throw_record
    (Env.working []) (65535, 100) (by decide) ⟨.other 0, rfl⟩

/-- C3 (failing run): group 7 has metadata 100. A functor that sets the metadata to 1 and then
throws is committed through either overload: the commit throws, and `GetMetadata(7)` afterwards
returns 1, not the 100 it returned before the call. -/
theorem commit_functor_throw_leaves_metadata_changed :
    GetMetadata demoDb 7 = .returned 100 ∧
      (Commit_name demoDb 7 set_then_throw).outcome = .raised (.other 0) ∧
      GetMetadata (Commit_name demoDb 7 set_then_throw).db 7 = .returned 1 ∧
      (Commit_key testPersona demoDb demoKey set_then_throw_record (Env.working [])).outcome
        = .raised (.other 0) ∧
      GetMetadata
        (Commit_key testPersona demoDb demoKey set_then_throw_record (Env.working [])).db 7
        = .returned 1 := by
  decide

/-- C4 (counterexample): the record `[9, 9]` is stored under the key; the functor replaces the
loaded value by `[1]` and returns `kDelete`. The commit returns `[1]`, not the value that was
stored. -/
theorem commit_record_delete_returns_slot_not_stored :
    GetValue testPersona demoDbStored demoKey (Env.working []) = .returned [9, 9] ∧
      (replace_then_delete 100 (loaded_value testPersona demoDbStored demoKey (65535, 100))).2
        = .ok .kDelete ∧
      (Commit_key testPersona demoDbStored demoKey replace_then_delete (Env.working [])).outcome
        = .returned (some [1]) :=
  ⟨by decide, rfl, by decide⟩

/-- C4 (amended): on a registered group and with a working backend, when the functor returns
Delete leaving a value `v` in the slot (the stored value when it does not touch the slot),
`Commit(key, functor)` removes the record under the key and returns `v`; when it returns Delete
leaving the slot empty, the store is unchanged and the call returns nothing; when it returns Put
leaving a value in the slot, the call returns nothing. -/
theorem commit_record_return_value (P : Persona G K V M) (db : GroupDb G M) (k : K)
    (f : RecordFunctor M V) (env env2 : Env) (it : GroupId × M)
    (hreg : FindGroup db (P.group_name k) = .returned it)
    (hback : env.faults = [])
    (hget : (next_fault env2.faults).1 = false) :
    (∀ v, (f it.2 (loaded_value P db k it)).2 = .ok .kDelete →
        (f it.2 (loaded_value P db k it)).1.2 = some v →
        (Commit_key P db k f env).outcome = .returned (some v) ∧
        (Commit_key P db k f env).db.leveldb_ =
          map_erase (MakeLevelDbKey P it.1 k) db.leveldb_ ∧
        GetValue P (Commit_key P db k f env).db k env2 = .raised .no_such_element) ∧
    ((f it.2 (loaded_value P db k it)).2 = .ok .kDelete →
        (f it.2 (loaded_value P db k it)).1.2 = none →
        (Commit_key P db k f env).outcome = .returned none ∧
        (Commit_key P db k f env).db.leveldb_ = db.leveldb_) ∧
    (∀ v, (f it.2 (loaded_value P db k it)).2 = .ok .kPut →
        (f it.2 (loaded_value P db k it)).1.2 = some v →
        (Commit_key P db k f env).outcome = .returned none) := by
  rw [Commit_key_registered P db k f env it hreg, hback]
  simp only [next_fault, Bool.false_eq_true, if_false]
  refine ⟨?_, ?_, ?_⟩
  · intro v h2 h1
    rw [commit_action_delete_some P db k it _ f _ v h2 h1]
    simp only [Bool.false_eq_true, if_false, true_and]
    rw [GetValue_set_metadata P db k it _ _ env2 hreg hget, map_find_erase_self]
  · intro h2 h1
    rw [commit_action_delete_none P db k it _ f _ h2 h1]
    exact ⟨rfl, rfl⟩
  · intro v h2 h1
    rw [commit_action_put_some P db k it _ f _ v h2 h1]
    simp

/-- C4 (witness): `plain_delete` committed on the database holding `[9, 9]` under the key
returns `[9, 9]` and removes the record. -/
theorem commit_record_return_value_witness :
    FindGroup demoDbStored (testPersona.group_name demoKey) = .returned (65535, 100) ∧
      (Commit_key testPersona demoDbStored demoKey plain_delete (Env.working [])).outcome
        = .returned (some [9, 9]) ∧
      (Commit_key testPersona demoDbStored demoKey plain_delete (Env.working [])).db.leveldb_
        = map_erase (MakeLevelDbKey testPersona 65535 demoKey) demoDbStored.leveldb_ ∧
      GetValue testPersona
        (Commit_key testPersona demoDbStored demoKey plain_delete (Env.working [])).db
        demoKey (Env.working []) = .raised .no_such_element :=
  ⟨by decide,
    (commit_record_return_value testPersona demoDbStored demoKey plain_delete (Env.working [])
      (Env.working []) (65535, 100) (by decide) rfl (by decide)).1 [9, 9] rfl rfl⟩

/-- C5: on a registry of fewer than 65535 groups none of which is named `n`, `AddGroup(n, m)`
returns normally and a following `GetMetadata(n)` returns `m`, as soon as one of the random
draws gives a GroupId that no registered group has. -/
theorem add_group_then_get_metadata (db : GroupDb G M) (n : G) (m : M) (env : Env)
    (hsize : db.group_map_.length < 65535)
    (hnew : ∀ element ∈ db.group_map_, element.1 ≠ n)
    (hdraw : ∃ r ∈ env.draws, id_in_use db.group_map_ (candidate_id r) = false) :
    (AddGroup db n m env).1 = .returned () ∧
      GetMetadata (AddGroup db n m env).2 n = .returned m := by
  have hfind : map_find n db.group_map_ = none := (map_find_eq_none_iff n _).mpr hnew
  unfold AddGroup
  rcases AddGroupToMap_cases db n m env.draws with h | h | h | h
  · have h1 := h.1
    rw [kGroupsLimit_eq] at h1
    omega
  · obtain ⟨g, hg⟩ := pick_group_id_some db.group_map_ env.draws hdraw
    rw [h.2.1] at hg
    simp at hg
  · obtain ⟨it, hit⟩ := h.2.2.1
    rw [hfind] at hit
    simp at hit
  · obtain ⟨_, _, g, _, heq⟩ := h
    rw [heq]
    refine ⟨rfl, ?_⟩
    unfold GetMetadata FindGroup
    simp only
    rw [map_find_place_self n (g, m) db.group_map_ hfind]

/-- C5 (witness): `AddGroup(8, 3)` on `demoDb` (one group, GroupId 65535) with the draws
`[-1, 5]`: the first draw collides, the second is unused. -/
theorem add_group_then_get_metadata_witness :
    demoDb.group_map_.length < 65535 ∧
      (AddGroup demoDb 8 3 (Env.working [-1, 5])).1 = .returned () ∧
      GetMetadata (AddGroup demoDb 8 3 (Env.working [-1, 5])).2 8 = .returned 3 :=
  ⟨by decide,
    add_group_then_get_metadata demoDb 8 3 (Env.working [-1, 5]) (by decide) (by decide)
      ⟨5, by decide, by decide⟩⟩

/-- C6 (counterexample): in `fullDb` (65535 groups) the name 0 is registered, and
`AddGroup(0, 5)` fails with `failed_to_handle_request`, not `account_already_exists`, even
though the draw -1 would give the unused GroupId 65535. -/
theorem add_group_existing_name_full_registry :
    FindGroup fullDb 0 = .returned (0, 0) ∧
      (AddGroup fullDb 0 5 (Env.working [-1])).1 = .raised .failed_to_handle_request := by
  constructor
  · have hhead : ∀ c : Nat,
        map_find 0 ((List.range (c + 1)).map (fun i => (i, (i, 0)))) = some (0, 0) := by
      intro c
      rw [List.range_succ_eq_map, List.map_cons, map_find_cons, if_pos rfl]
    have hfind : map_find 0 fullDb.group_map_ = some (0, 0) := by
      have h := hhead 65534
      norm_num at h
      simp only [fullDb]
      exact h
    exact (FindGroup_returned_iff fullDb 0 (0, 0)).mpr hfind
  · have hlen : fullDb.group_map_.length = kGroupsLimit - 1 := by
      rw [kGroupsLimit_eq]
      simp [fullDb]
    rw [AddGroup_full fullDb 0 5 _ hlen]

/-- C6 (amended): on a registry of fewer than 65535 groups in which `n` is registered,
`AddGroup(n, m)` fails with `account_already_exists` once the allocation loop has drawn an
unused GroupId, and leaves the registry (with the metadata and GroupId of `n`) and the store
as they were. -/
theorem add_group_existing_name (db : GroupDb G M) (n : G) (m : M) (env : Env)
    (it : GroupId × M)
    (hsize : db.group_map_.length < 65535)
    (hreg : FindGroup db n = .returned it)
    (hdraw : ∃ r ∈ env.draws, id_in_use db.group_map_ (candidate_id r) = false) :
    AddGroup db n m env = (.raised .account_already_exists, db) := by
  rw [FindGroup_returned_iff] at hreg
  unfold AddGroup
  rcases AddGroupToMap_cases db n m env.draws with h | h | h | h
  · have h1 := h.1
    rw [kGroupsLimit_eq] at h1
    omega
  · obtain ⟨g, hg⟩ := pick_group_id_some db.group_map_ env.draws hdraw
    rw [h.2.1] at hg
    simp at hg
  · rw [h.2.2.2]
  · rw [h.2.1] at hreg
    simp at hreg

/-- C6 (witness): `AddGroup(7, 5)` on `demoDb`, where group 7 is registered with metadata 100
and GroupId 65535. -/
theorem add_group_existing_name_witness :
    FindGroup demoDb 7 = .returned (65535, 100) ∧
      AddGroup demoDb 7 5 (Env.working [0]) = (.raised .account_already_exists, demoDb) :=
  ⟨by decide,
    add_group_existing_name demoDb 7 5 (Env.working [0]) (65535, 100) (by decide) (by decide)
      ⟨0, by decide, by decide⟩⟩

/-- C7: when the registry holds exactly 65535 groups, `AddGroup(n, m)` fails with
`failed_to_handle_request` for every `n` and `m` and leaves the state as it was; no state
reachable by public calls holds more than 65535 groups; and in a reachable state in which the
allocation loop runs (the registry does not hold 65535 groups) some GroupId below 65536 is
unused. -/
theorem add_group_registry_full (P : Persona G K V M) (db : GroupDb G M) (n : G) (m : M)
    (env : Env) :
    (db.group_map_.length = 65535 →
      AddGroup db n m env = (.raised .failed_to_handle_request, db)) ∧
    (Reachable P db →
      db.group_map_.length ≤ 65535 ∧
      (db.group_map_.length ≠ 65535 →
        ∃ g, g < 65536 ∧ id_in_use db.group_map_ g = false)) := by
  refine ⟨?_, ?_⟩
  · intro hlen
    have hfull : db.group_map_.length = kGroupsLimit - 1 := by
      rw [kGroupsLimit_eq]
      exact hlen
    exact AddGroup_full db n m env hfull
  · intro hreach
    have hle := reachable_length_le P db hreach
    rw [kGroupsLimit_eq] at hle
    refine ⟨hle, ?_⟩
    intro hne
    have hlt : db.group_map_.length < kGroupsLimit := by
      rw [kGroupsLimit_eq]
      omega
    obtain ⟨g, hg, hfree⟩ := exists_unused_id db.group_map_ hlt
    rw [kGroupsLimit_eq] at hg
    exact ⟨g, hg, hfree⟩

/-- C7 (witness): the full registry `fullDb` rejects `AddGroup(70000, 1)`, and the reachable
`demoDb` holds at most 65535 groups and has an unused GroupId. -/
theorem add_group_registry_full_witness :
    fullDb.group_map_.length = 65535 ∧
      AddGroup fullDb 70000 1 (Env.working [-1]) = (.raised .failed_to_handle_request, fullDb) ∧
      Reachable testPersona demoDb ∧
      demoDb.group_map_.length ≤ 65535 ∧
      (demoDb.group_map_.length ≠ 65535 →
        ∃ g, g < 65536 ∧ id_in_use demoDb.group_map_ g = false) :=
  ⟨by simp [fullDb],
    (add_group_registry_full testPersona fullDb 70000 1 (Env.working [-1])).1
      (by simp [fullDb]),
    Reachable.step GroupDb.empty (Env.working [-1]) (Call.add_group 7 100) Reachable.init,
    (add_group_registry_full testPersona demoDb 0 0 (Env.working [])).2
      (Reachable.step GroupDb.empty (Env.working [-1]) (Call.add_group 7 100) Reachable.init)⟩

/-- C8: in every state reachable from a new database by public calls, under any random draws
and any backend failures, the GroupIds of the registry are pairwise distinct: the list of
GroupIds has no duplicate, and two different registered names never resolve to the same
GroupId. -/
theorem group_id_unique (P : Persona G K V M) (db : GroupDb G M) (hreach : Reachable P db) :
    (db.group_map_.map (fun element => element.2.1)).Nodup ∧
      ∀ (n1 n2 : G) (it1 it2 : GroupId × M), n1 ≠ n2 →
        FindGroup db n1 = .returned it1 → FindGroup db n2 = .returned it2 → it1.1 ≠ it2.1 := by
  have hnodup := reachable_ids_nodup P db hreach
  refine ⟨hnodup, ?_⟩
  intro n1 n2 it1 it2 hne h1 h2 hid
  rw [FindGroup_returned_iff] at h1 h2
  have hm1 := mem_of_map_find n1 it1 _ h1
  have hm2 := mem_of_map_find n2 it2 _ h2
  have hinj := List.inj_on_of_nodup_map hnodup hm1 hm2 hid
  exact hne (congrArg Prod.fst hinj)

/-- C8 (witness): the reachable state `collidingDb`. Group 7 has the GroupId 65535; for group 8
the random source first returns -1, whose candidate is 65535 again, and then 5. The registry
holds both groups, the list of their GroupIds `[65535, 5]` has no duplicate, and the two names
resolve to different GroupIds. -/
theorem group_id_unique_witness :
    candidate_id (-1) = 65535 ∧
      collidingDb.group_map_ = [(7, (65535, 100)), (8, (5, 50))] ∧
      (collidingDb.group_map_.map (fun element => element.2.1)).Nodup ∧
      ((65535, 100) : GroupId × Nat).1 ≠ ((5, 50) : GroupId × Nat).1 :=
  ⟨by decide, by decide,
    (group_id_unique testPersona collidingDb collidingDb_reachable).1,
    (group_id_unique testPersona collidingDb collidingDb_reachable).2 7 8 (65535, 100) (5, 50)
      (by decide) (by decide) (by decide)⟩

/-- C9: when no registered group is named `n`, `GetMetadata(n)`, `GetContents(n)` and
`GetValue(k)` for a key of group `n` raise `no_such_account`; when the key's group is
registered, no record is stored under the key and the backend read does not fail,
`GetValue(k)` raises `no_such_element`; and the three reads leave the state as it was. -/
theorem read_missing (P : Persona G K V M) (db : GroupDb G M) (n : G) (k : K) (env : Env) :
    ((∀ element ∈ db.group_map_, element.1 ≠ n) →
      GetMetadata db n = .raised .no_such_account ∧
      GetContents P db n = .raised .no_such_account ∧
      (P.group_name k = n → GetValue P db k env = .raised .no_such_account)) ∧
    (∀ it, FindGroup db (P.group_name k) = .returned it →
      (∀ entry ∈ db.leveldb_, entry.1 ≠ MakeLevelDbKey P it.1 k) →
      (next_fault env.faults).1 = false →
      GetValue P db k env = .raised .no_such_element) ∧
    exec P db env (.get_metadata n) = db ∧
    exec P db env (.get_value k) = db ∧
    exec P db env (.get_contents n) = db := by
  refine ⟨?_, ?_, rfl, rfl, rfl⟩
  · intro hnew
    have hfind : FindGroup db n = .raised .no_such_account :=
      (FindGroup_raised_iff db n).mpr ((map_find_eq_none_iff n _).mpr hnew)
    refine ⟨?_, ?_, ?_⟩
    · unfold GetMetadata
      rw [hfind]
    · unfold GetContents
      rw [hfind]
    · intro hk
      unfold GetValue
      rw [hk, hfind]
  · intro it hreg hnone hget
    unfold GetValue Get
    rw [hreg]
    simp only [hget, Bool.false_eq_true, if_false]
    rw [(map_find_eq_none_iff _ _).mpr hnone]

/-- C9 (witness): in `demoDb` group 8 is not registered, and group 7 is registered with no
record under `demoKey`. -/
theorem read_missing_witness :
    (GetMetadata demoDb 8 = .raised .no_such_account ∧
      GetContents testPersona demoDb 8 = .raised .no_such_account ∧
      (testPersona.group_name { group := 8, fixed := [] } = 8 →
        GetValue testPersona demoDb { group := 8, fixed := [] } (Env.working [])
          = .raised .no_such_account)) ∧
      GetValue testPersona demoDb demoKey (Env.working []) = .raised .no_such_element :=
  ⟨(read_missing testPersona demoDb 8 { group := 8, fixed := [] } (Env.working [])).1
      (by decide),
    (read_missing testPersona demoDb 7 demoKey (Env.working [])).2.1 (65535, 100)
      (by decide) (by decide) (by decide)⟩

/-- C10: for the generic persona, both `Commit` overloads called for a group name that is
not registered raise `no_such_account`, leave the registry and the store as they were (the
group is not created), and invoke neither the functor nor `UpdateGroup`. -/
theorem commit_unregistered (P : Persona G K V M) (db : GroupDb G M) (n : G) (k : K)
    (f : MetadataFunctor M) (g : RecordFunctor M V) (env : Env)
    (hnew : ∀ element ∈ db.group_map_, element.1 ≠ n)
    (hk : P.group_name k = n) :
    ((Commit_name db n f).outcome = .raised .no_such_account ∧
      (Commit_name db n f).db = db ∧
      (Commit_name db n f).events = []) ∧
    ((Commit_key P db k g env).outcome = .raised .no_such_account ∧
      (Commit_key P db k g env).db = db ∧
      (Commit_key P db k g env).events = []) ∧
    GetMetadata (Commit_name db n f).db n = .raised .no_such_account ∧
    GetMetadata (Commit_key P db k g env).db n = .raised .no_such_account := by
  have hfind : FindGroup db n = .raised .no_such_account :=
    (FindGroup_raised_iff db n).mpr ((map_find_eq_none_iff n _).mpr hnew)
  have hfindk : FindGroup db (P.group_name k) = .raised .no_such_account := by
    rw [hk]
    exact hfind
  have hmeta : GetMetadata db n = .raised .no_such_account := by
    unfold GetMetadata
    rw [hfind]
  rw [Commit_name_unregistered db n f hfind, Commit_key_unregistered P db k g env hfindk]
  exact ⟨⟨rfl, rfl, rfl⟩, ⟨rfl, rfl, rfl⟩, hmeta, hmeta⟩

/-- C10 (witness): both overloads called on `demoDb` for the unregistered group 8. -/
theorem commit_unregistered_witness :
    ((Commit_name demoDb 8 set_then_throw).outcome = .raised .no_such_account ∧
      (Commit_name demoDb 8 set_then_throw).db = demoDb ∧
      (Commit_name demoDb 8 set_then_throw).events = []) ∧
    ((Commit_key testPersona demoDb { group := 8, fixed := [] } put_nine
        (Env.working [])).outcome = .raised .no_such_account ∧
      (Commit_key testPersona demoDb { group := 8, fixed := [] } put_nine
        (Env.working [])).db = demoDb ∧
      (Commit_key testPersona demoDb { group := 8, fixed := [] } put_nine
        (Env.working [])).events = []) ∧
    GetMetadata (Commit_name demoDb 8 set_then_throw).db 8 = .raised .no_such_account ∧
    GetMetadata (Commit_key testPersona demoDb { group := 8, fixed := [] } put_nine
      (Env.working [])).db 8 = .raised .no_such_account :=
  commit_unregistered testPersona demoDb 8 { group := 8, fixed := [] } set_then_throw put_nine
    (Env.working []) (by decide) rfl

/-- C11: on a registered group with metadata `m` and GroupId `g`, when the functor does not
throw, `Commit(group_name, functor)` returns, the group then resolves to the same GroupId with
the metadata the functor left, the store is unchanged and every other group resolves as before.
This holds with the generic hooks of the header and, for metadata of the PmidManager, with the
PmidManager hooks, which in addition persist the new metadata; the functor `SetPmidHealth(s)`
does not throw and leaves `available = s` and the other three fields of `m`. -/
theorem commit_metadata_frame (db : GroupDb G M) (n : G) (it : GroupId × M)
    (f : MetadataFunctor M)
    (hreg : FindGroup db n = .returned it)
    (hf : (f it.2).2 = none) :
    (Commit_name db n f).outcome = .returned () ∧
    GetMetadata (Commit_name db n f).db n = .returned (f it.2).1 ∧
    FindGroup (Commit_name db n f).db n = .returned (it.1, (f it.2).1) ∧
    (Commit_name db n f).db.leveldb_ = db.leveldb_ ∧
    (∀ n', n' ≠ n → FindGroup (Commit_name db n f).db n' = FindGroup db n') ∧
    (∀ (initial : G → PmidManagerMetadata) (state : PmidManagerDb G)
      (itp : GroupId × PmidManagerMetadata) (fp : MetadataFunctor PmidManagerMetadata)
      (envp : Env),
      FindGroup state.db n = .returned itp → (fp itp.2).2 = none →
      (PmidManager_Commit_name initial state n fp envp).outcome = .returned () ∧
      GetMetadata (PmidManager_Commit_name initial state n fp envp).state.db n
        = .returned (fp itp.2).1 ∧
      FindGroup (PmidManager_Commit_name initial state n fp envp).state.db n
        = .returned (itp.1, (fp itp.2).1) ∧
      (PmidManager_Commit_name initial state n fp envp).state.db.leveldb_
        = state.db.leveldb_ ∧
      (∀ n', n' ≠ n →
        FindGroup (PmidManager_Commit_name initial state n fp envp).state.db n'
          = FindGroup state.db n') ∧
      map_find n (PmidManager_Commit_name initial state n fp envp).state.persisted
        = some (fp itp.2).1) ∧
    (∀ (m : PmidManagerMetadata) (s : Int),
      ActionPmidManagerSetPmidHealth s m =
        ({ claimed := m.claimed, available := s, stored_total_size := m.stored_total_size,
           lost_total_size := m.lost_total_size }, none)) := by
  have hcommit : ∀ {M' : Type} (d : GroupDb G M') (i : GroupId × M') (h : MetadataFunctor M'),
      FindGroup d n = .returned i →
      (Commit_name d n h).db =
        { group_map_ := set_metadata n (h i.2).1 d.group_map_, leveldb_ := d.leveldb_ } ∧
      FindGroup (Commit_name d n h).db n = .returned (i.1, (h i.2).1) := by
    intro M' d i h hd
    have hdb : (Commit_name d n h).db =
        { group_map_ := set_metadata n (h i.2).1 d.group_map_, leveldb_ := d.leveldb_ } := by
      unfold Commit_name FindOrCreateGroup UpdateGroup
      simp only [hd]
    refine ⟨hdb, ?_⟩
    rw [hdb, FindGroup_returned_iff, map_find_set_metadata, if_pos rfl,
      (FindGroup_returned_iff d n i).mp hd]
    rfl
  obtain ⟨hdb, hfind⟩ := hcommit db it f hreg
  refine ⟨?_, ?_, hfind, ?_, ?_, ?_, fun _ _ => rfl⟩
  · unfold Commit_name FindOrCreateGroup
    simp only [hreg, hf]
  · unfold GetMetadata
    rw [hfind]
  · rw [hdb]
  · intro n' hne
    rw [hdb]
    unfold FindGroup
    simp only [map_find_set_metadata, if_neg hne]
  · intro initial state itp fp envp hp hfp
    have hfound : FindGroup
        ({ group_map_ := set_metadata n (fp itp.2).1 state.db.group_map_,
           leveldb_ := state.db.leveldb_ } : GroupDb G PmidManagerMetadata) n =
        .returned (itp.1, (fp itp.2).1) := by
      rw [FindGroup_returned_iff, map_find_set_metadata, if_pos rfl,
        (FindGroup_returned_iff state.db n itp).mp hp]
      rfl
    have hstate : (PmidManager_Commit_name initial state n fp envp).state =
        { db := { group_map_ := set_metadata n (fp itp.2).1 state.db.group_map_,
                  leveldb_ := state.db.leveldb_ },
          persisted := map_put n (fp itp.2).1 state.persisted } := by
      unfold PmidManager_Commit_name PmidManager_FindOrCreateGroup PmidManager_UpdateGroup
      simp only [hp, hfound]
    refine ⟨?_, ?_, ?_, ?_, ?_, ?_⟩
    · unfold PmidManager_Commit_name PmidManager_FindOrCreateGroup
      simp only [hp, hfp]
    · unfold GetMetadata
      rw [hstate, hfound]
    · rw [hstate, hfound]
    · rw [hstate]
    · intro n' hne
      rw [hstate]
      unfold FindGroup
      simp only [map_find_set_metadata, if_neg hne]
    · rw [hstate]
      exact map_find_put_self _ _ _

/-- C11 (witness): `SetPmidHealth(500)` committed on group 7 of `pmidDb` (GroupId 3, metadata
`{10, 20, 30, 40}`), with the generic hooks and with the PmidManager hooks: in both the call
returns and group 7 then has the metadata `{10, 500, 30, 40}` under the GroupId 3; the
PmidManager hook has persisted this metadata. -/
theorem commit_metadata_frame_witness :
    FindGroup pmidDb 7 = .returned
        (3, { claimed := 10, available := 20, stored_total_size := 30, lost_total_size := 40 }) ∧
      (Commit_name pmidDb 7 (ActionPmidManagerSetPmidHealth 500)).outcome = .returned () ∧
      GetMetadata (Commit_name pmidDb 7 (ActionPmidManagerSetPmidHealth 500)).db 7 = .returned
        { claimed := 10, available := 500, stored_total_size := 30, lost_total_size := 40 } ∧
      (PmidManager_Commit_name newPmidMetadata pmidState 7 (ActionPmidManagerSetPmidHealth 500)
        (Env.working [])).outcome = .returned () ∧
      GetMetadata (PmidManager_Commit_name newPmidMetadata pmidState 7
        (ActionPmidManagerSetPmidHealth 500) (Env.working [])).state.db 7 = .returned
        { claimed := 10, available := 500, stored_total_size := 30, lost_total_size := 40 } ∧
      FindGroup (PmidManager_Commit_name newPmidMetadata pmidState 7
        (ActionPmidManagerSetPmidHealth 500) (Env.working [])).state.db 7 = .returned
        (3, { claimed := 10, available := 500, stored_total_size := 30,
              lost_total_size := 40 }) ∧
      map_find 7 (PmidManager_Commit_name newPmidMetadata pmidState 7
        (ActionPmidManagerSetPmidHealth 500) (Env.working [])).state.persisted = some
        { claimed := 10, available := 500, stored_total_size := 30, lost_total_size := 40 } :=
  ⟨by decide,
    (commit_metadata_frame pmidDb 7
      (3, { claimed := 10, available := 20, stored_total_size := 30, lost_total_size := 40 })
      (ActionPmidManagerSetPmidHealth 500) (by decide) rfl).1,
    (commit_metadata_frame pmidDb 7
      (3, { claimed := 10, available := 20, stored_total_size := 30, lost_total_size := 40 })
      (ActionPmidManagerSetPmidHealth 500) (by decide) rfl).2.1,
    ((commit_metadata_frame pmidDb 7
      (3, { claimed := 10, available := 20, stored_total_size := 30, lost_total_size := 40 })
      (ActionPmidManagerSetPmidHealth 500) (by decide) rfl).2.2.2.2.2.1 newPmidMetadata pmidState
      (3, { claimed := 10, available := 20, stored_total_size := 30, lost_total_size := 40 })
      (ActionPmidManagerSetPmidHealth 500) (Env.working []) (by decide) rfl).1,
    ((commit_metadata_frame pmidDb 7
      (3, { claimed := 10, available := 20, stored_total_size := 30, lost_total_size := 40 })
      (ActionPmidManagerSetPmidHealth 500) (by decide) rfl).2.2.2.2.2.1 newPmidMetadata pmidState
      (3, { claimed := 10, available := 20, stored_total_size := 30, lost_total_size := 40 })
      (ActionPmidManagerSetPmidHealth 500) (Env.working []) (by decide) rfl).2.1,
    ((commit_metadata_frame pmidDb 7
      (3, { claimed := 10, available := 20, stored_total_size := 30, lost_total_size := 40 })
      (ActionPmidManagerSetPmidHealth 500) (by decide) rfl).2.2.2.2.2.1 newPmidMetadata pmidState
      (3, { claimed := 10, available := 20, stored_total_size := 30, lost_total_size := 40 })
      (ActionPmidManagerSetPmidHealth 500) (Env.working []) (by decide) rfl).2.2.1,
    ((commit_metadata_frame pmidDb 7
      (3, { claimed := 10, available := 20, stored_total_size := 30, lost_total_size := 40 })
      (ActionPmidManagerSetPmidHealth 500) (by decide) rfl).2.2.2.2.2.1 newPmidMetadata pmidState
      (3, { claimed := 10, available := 20, stored_total_size := 30, lost_total_size := 40 })
      (ActionPmidManagerSetPmidHealth 500) (Env.working []) (by decide) rfl).2.2.2.2.2⟩

/-- C12: on a registered group, when the backend read does not fail and the functor returns
Put leaving the value slot empty, `Commit(key, functor)` raises `null_pointer` and the store is
exactly as before the call. -/
theorem commit_record_put_empty_slot (P : Persona G K V M) (db : GroupDb G M) (k : K)
    (f : RecordFunctor M V) (env : Env) (it : GroupId × M)
    (hreg : FindGroup db (P.group_name k) = .returned it)
    (hget : (next_fault env.faults).1 = false)
    (h2 : (f it.2 (loaded_value P db k it)).2 = .ok .kPut)
    (h1 : (f it.2 (loaded_value P db k it)).1.2 = none) :
    (Commit_key P db k f env).outcome = .raised .null_pointer ∧
      (Commit_key P db k f env).db.leveldb_ = db.leveldb_ := by
  rw [Commit_key_registered P db k f env it hreg, hget]
  simp only [Bool.false_eq_true, if_false]
  rw [commit_action_put_none P db k it _ f _ h2 h1]
  exact ⟨rfl, rfl⟩

/-- C12 (witness): `put_nothing` committed under `demoKey`, with no record stored (`demoDb`)
and with the record `[9, 9]` stored (`demoDbStored`). -/
theorem commit_record_put_empty_slot_witness :
    ((Commit_key testPersona demoDb demoKey put_nothing (Env.working [])).outcome
        = .raised .null_pointer ∧
      (Commit_key testPersona demoDb demoKey put_nothing (Env.working [])).db.leveldb_
        = demoDb.leveldb_) ∧
    ((Commit_key testPersona demoDbStored demoKey put_nothing (Env.working [])).outcome
        = .raised .null_pointer ∧
      (Commit_key testPersona demoDbStored demoKey put_nothing (Env.working [])).db.leveldb_
        = demoDbStored.leveldb_) :=
  ⟨commit_record_put_empty_slot testPersona demoDb demoKey put_nothing (Env.working [])
      (65535, 100) (by decide) rfl rfl rfl,
    commit_record_put_empty_slot testPersona demoDbStored demoKey put_nothing (Env.working [])
      (65535, 100) (by decide) rfl rfl rfl⟩

/-- C13 (counterexample): both `Commit` overloads called on `demoDb` for the unregistered
group 8 raise, and `UpdateGroup` has been invoked zero times when they exit. -/
theorem commit_unregistered_no_update_group :
    (Commit_name demoDb 8 bump).outcome = .raised .no_such_account ∧
      (Commit_name demoDb 8 bump).events.count (.update_group 8) = 0 ∧
      (Commit_key testPersona demoDb { group := 8, fixed := [] } put_nine
        (Env.working [])).outcome = .raised .no_such_account ∧
      (Commit_key testPersona demoDb { group := 8, fixed := [] } put_nine
        (Env.working [])).events.count (.update_group 8) = 0 := by
  decide

/-- C13 (amended): for every call of either `Commit` overload on a registered group, whether
it returns normally or raises (functor exception, `null_pointer`, backend failure),
`UpdateGroup` has been invoked exactly once, for the committed group, when the call exits. -/
theorem commit_update_group_once (P : Persona G K V M) (db : GroupDb G M) (n : G) (k : K)
    (f : MetadataFunctor M) (g : RecordFunctor M V) (env : Env) (it : GroupId × M)
    (hreg : FindGroup db n = .returned it)
    (hk : P.group_name k = n) :
    ((Commit_name db n f).events.count (.update_group n) = 1 ∧
      ∀ n', Event.update_group n' ∈ (Commit_name db n f).events → n' = n) ∧
    ((Commit_key P db k g env).events.count (.update_group n) = 1 ∧
      ∀ n', Event.update_group n' ∈ (Commit_key P db k g env).events → n' = n) := by
  have hregk : FindGroup db (P.group_name k) = .returned it := by
    rw [hk]
    exact hreg
  constructor
  · have hev : (Commit_name db n f).events = [.functor_invoked, .update_group n] := by
      unfold Commit_name FindOrCreateGroup
      simp only [hreg]
    rw [hev]
    refine ⟨by simp [List.count_cons], ?_⟩
    intro n' hmem
    simpa using hmem
  · rw [Commit_key_registered P db k g env it hregk, hk]
    split_ifs
    · refine ⟨by simp [List.count_cons], ?_⟩
      intro n' hmem
      simpa using hmem
    · refine ⟨by simp [List.count_cons], ?_⟩
      intro n' hmem
      simpa using hmem

/-- C13 (witness): a throwing functor committed through both overloads on the registered
group 7 of `demoDb`. -/
theorem commit_update_group_once_witness :
    ((Commit_name demoDb 7 set_then_throw).events.count (.update_group 7) = 1 ∧
      ∀ n', Event.update_group n' ∈ (Commit_name demoDb 7 set_then_throw).events → n' = 7) ∧
    ((Commit_key testPersona demoDb demoKey set_then_throw_record
        (Env.working [])).events.count (.update_group 7) = 1 ∧
      ∀ n', Event.update_group n' ∈ (Commit_key testPersona demoDb demoKey
        set_then_throw_record (Env.working [])).events → n' = 7) :=
  commit_update_group_once testPersona demoDb 7 demoKey set_then_throw set_then_throw_record
    (Env.working []) (65535, 100) (by decide) rfl

/-- C14: in a reachable state and with a working backend, `DeleteGroup(n)` of a registered
group returns, after which `GetMetadata(n)` raises `no_such_account`, no stored key starts with
the encoding of the group's former GroupId, the store is the old one without the entries
decoding to that GroupId, and every other name resolves as before and has the contents it had;
for a name that is not registered `DeleteGroup(n)` returns and changes nothing. -/
theorem delete_group_effect (P : Persona G K V M) (db : GroupDb G M) (n : G) (env : Env)
    (hreach : Reachable P db) (hback : env.faults = []) :
    (∀ it, FindGroup db n = .returned it →
      (DeleteGroup db n env).1 = .returned () ∧
      GetMetadata (DeleteGroup db n env).2 n = .raised .no_such_account ∧
      (∀ entry ∈ (DeleteGroup db n env).2.leveldb_,
        entry.1.take kPrefixWidth_ ≠ ToFixedWidthString kPrefixWidth_ it.1) ∧
      (DeleteGroup db n env).2.leveldb_ =
        db.leveldb_.filter (fun entry => !(GetGroupId entry.1 == it.1)) ∧
      (∀ n', n' ≠ n →
        FindGroup (DeleteGroup db n env).2 n' = FindGroup db n' ∧
        GetContents P (DeleteGroup db n env).2 n' = GetContents P db n')) ∧
    ((∀ element ∈ db.group_map_, element.1 ≠ n) →
      DeleteGroup db n env = (.returned (), db)) := by
  have hwf := reachable_well_formed P db hreach
  constructor
  · intro it hreg
    have hg := WellFormed_id_lt P db n it hwf hreg
    have hdel : (DeleteGroup db n env).2 =
        { group_map_ := map_erase n db.group_map_,
          leveldb_ := db.leveldb_.filter (fun entry => !(GetGroupId entry.1 == it.1)) } := by
      unfold DeleteGroup
      rw [hback, DeleteGroupEntries_working P db n it hwf hreg]
    have hfind : ∀ n', n' ≠ n → FindGroup (DeleteGroup db n env).2 n' = FindGroup db n' := by
      intro n' hne
      rw [hdel]
      unfold FindGroup
      simp only [map_find_erase_of_ne _ (Ne.symm hne)]
    refine ⟨rfl, ?_, ?_, ?_, ?_⟩
    · rw [hdel]
      unfold GetMetadata FindGroup
      simp only [map_find_erase_self]
    · intro e he htake
      rw [hdel] at he
      have hne := (List.mem_filter.mp he).2
      have := GetGroupId_of_take e.1 it.1 hg htake
      simp [this] at hne
    · rw [hdel]
    · intro n' hne
      refine ⟨hfind n' hne, ?_⟩
      unfold GetContents
      rw [hfind n' hne]
      rcases FindGroup_cases db n' with ⟨it', hreg'⟩ | hreg'
      · rw [hreg']
        simp only
        have hg' := WellFormed_id_lt P db n' it' hwf hreg'
        have hid : it'.1 ≠ it.1 := fun hid =>
          hne (WellFormed_id_inj P db n' n it' it hwf hreg' hreg hid)
        unfold GetContents_it
        rw [hdel]
        simp only
        rw [group_entries_filter_other P db.leveldb_ it'.1 _ hg' hwf.store_ascending
          hwf.store_encoded]
        intro e _ he
        simp [he, hid]
      · rw [hreg']
  · intro hnew
    have hfind : FindGroup db n = .raised .no_such_account :=
      (FindGroup_raised_iff db n).mpr ((map_find_eq_none_iff n _).mpr hnew)
    unfold DeleteGroup
    rw [DeleteGroupEntries_unregistered db n _ hfind]

/-- C14 (witness): `DeleteGroup(7)` on `demoDbStored`, which holds one record of group 7. -/
theorem delete_group_effect_witness :
    Reachable testPersona demoDbStored ∧
      (DeleteGroup demoDbStored 7 (Env.working [])).1 = .returned () ∧
      GetMetadata (DeleteGroup demoDbStored 7 (Env.working [])).2 7
        = .raised .no_such_account ∧
      (∀ entry ∈ (DeleteGroup demoDbStored 7 (Env.working [])).2.leveldb_,
        entry.1.take kPrefixWidth_ ≠ ToFixedWidthString kPrefixWidth_ 65535) :=
  ⟨demoDbStored_reachable,
    ((delete_group_effect testPersona demoDbStored 7 (Env.working []) demoDbStored_reachable
      rfl).1 (65535, 100) (by decide)).1,
    ((delete_group_effect testPersona demoDbStored 7 (Env.working []) demoDbStored_reachable
      rfl).1 (65535, 100) (by decide)).2.1,
    ((delete_group_effect testPersona demoDbStored 7 (Env.working []) demoDbStored_reachable
      rfl).1 (65535, 100) (by decide)).2.2.1⟩

/-- C20: in a reachable state, `GetContents(n)` of a registered group returns the group's name
and current metadata with exactly the stored entries whose key is an encoded key of the
group's GroupId, in store order: the key strings of the returned records are strictly
ascending (so each record occurs once), and no returned record carries the GroupId of another
registered group. In terms of what was stored: the returned pairs are, in this order, the
keys rebuilt from `n` and the key bytes, with the parsed values, of the list `group_records`;
this list is strictly ascending in the key bytes, it holds `(k.key_string, bytes)` exactly when
`bytes` is stored under `MakeLevelDbKey(g, k)`, and it holds nothing else; so every record
stored under a key `k` of the group is returned as the key built from `n` and the fixed-width
string of `k`. -/
theorem get_contents_exact (P : Persona G K V M) (db : GroupDb G M) (n : G)
    (it : GroupId × M) (hreach : Reachable P db) (hreg : FindGroup db n = .returned it) :
    GetContents P db n = .returned
      { group_name := n, metadata := it.2,
        kv_pairs := (db.leveldb_.filter (fun entry => GetGroupId entry.1 == it.1)).map
          (fun entry => (MakeKey P n entry.1, P.parse_value entry.2)) } ∧
    (∀ entry ∈ db.leveldb_,
      (∃ k, entry.1 = MakeLevelDbKey P it.1 k) ↔ GetGroupId entry.1 = it.1) ∧
    ((db.leveldb_.filter (fun entry => GetGroupId entry.1 == it.1)).map
      (fun entry => entry.1.drop kPrefixWidth_)).Pairwise (fun a b => a < b) ∧
    (∀ n' it', n' ≠ n → FindGroup db n' = .returned it' →
      ∀ entry ∈ db.leveldb_.filter (fun entry => GetGroupId entry.1 == it.1),
        GetGroupId entry.1 ≠ it'.1) ∧
    (GetContents_it P db n it).kv_pairs =
      (group_records it.1 db.leveldb_).map (fun r => (P.make_key n r.1, P.parse_value r.2)) ∧
    (group_records it.1 db.leveldb_).Pairwise (fun a b => a.1 < b.1) ∧
    (∀ k bytes, map_find (MakeLevelDbKey P it.1 k) db.leveldb_ = some bytes ↔
      (P.key_string k, bytes) ∈ group_records it.1 db.leveldb_) ∧
    (∀ r ∈ group_records it.1 db.leveldb_, ∃ k, r.1 = P.key_string k) ∧
    (∀ k bytes, map_find (MakeLevelDbKey P it.1 k) db.leveldb_ = some bytes →
      (P.make_key n (P.key_string k), P.parse_value bytes) ∈
        (GetContents_it P db n it).kv_pairs) := by
  have hwf := reachable_well_formed P db hreach
  have hg := WellFormed_id_lt P db n it hwf hreg
  have hview := GetContents_it_view P db n it hwf.store_ascending hwf.store_encoded hg
  have hasc := group_records_ascending P db.leveldb_ hwf.store_ascending hwf.store_encoded it.1
  have hstored : ∀ k bytes, map_find (MakeLevelDbKey P it.1 k) db.leveldb_ = some bytes ↔
      (P.key_string k, bytes) ∈ group_records it.1 db.leveldb_ := by
    intro k bytes
    have hfind := map_find_group_records P db.leveldb_ hwf.store_encoded it.1 hg
      (P.key_string k)
    constructor
    · intro h
      apply mem_of_map_find
      rw [hfind]
      exact h
    · intro h
      have := map_find_of_mem _ hasc (P.key_string k, bytes) h
      rw [hfind] at this
      exact this
  refine ⟨?_, ?_, ?_, ?_, ?_, hasc, hstored, ?_, ?_⟩
  · unfold GetContents GetContents_it
    rw [hreg]
    simp only
    rw [group_entries_eq_filter P db.leveldb_ it.1 hg hwf.store_ascending hwf.store_encoded]
  · intro e he
    constructor
    · rintro ⟨k, hk⟩
      rw [hk]
      exact GetGroupId_MakeLevelDbKey P it.1 k hg
    · intro hid
      obtain ⟨g, k, hgl, hk⟩ := hwf.store_encoded e he
      rw [hk, GetGroupId_MakeLevelDbKey P g k hgl] at hid
      exact ⟨k, by rw [hk, hid]⟩
  · rw [List.pairwise_map]
    have hsub := keys_ascending_filter (fun entry => GetGroupId entry.1 == it.1) db.leveldb_
      hwf.store_ascending
    refine List.Pairwise.imp_of_mem ?_ hsub
    intro a b ha hb hab
    have hfa := List.mem_filter.mp ha
    have hfb := List.mem_filter.mp hb
    obtain ⟨ga, ka, hga, hka⟩ := hwf.store_encoded a hfa.1
    obtain ⟨gb, kb, hgb, hkb⟩ := hwf.store_encoded b hfb.1
    have hida : ga = it.1 := by
      have := hfa.2
      rw [hka, GetGroupId_MakeLevelDbKey P ga ka hga] at this
      simpa using this
    have hidb : gb = it.1 := by
      have := hfb.2
      rw [hkb, GetGroupId_MakeLevelDbKey P gb kb hgb] at this
      simpa using this
    rw [hka, hkb, hida, hidb] at hab
    rw [hka, hkb]
    unfold MakeLevelDbKey at hab ⊢
    have hlen : ∀ g : Nat, (ToFixedWidthString kPrefixWidth_ g).length = kPrefixWidth_ := by
      intro g
      rw [ToFixedWidthString_two]
      rfl
    rw [List.drop_left' (hlen ga), List.drop_left' (hlen gb)]
    exact (encoded_lt_same_id it.1 _ _).mp hab
  · intro n' it' hne hreg' e he hid
    have hfe := (List.mem_filter.mp he).2
    have heq : GetGroupId e.1 = it.1 := by simpa using hfe
    rw [heq] at hid
    exact hne (WellFormed_id_inj P db n' n it' it hwf hreg' hreg hid.symm)
  · rw [hview]
  · intro r hr
    unfold group_records at hr
    obtain ⟨e, he, hre⟩ := List.mem_map.mp hr
    obtain ⟨g, k, _, hk⟩ := hwf.store_encoded e (List.mem_filter.mp he).1
    refine ⟨k, ?_⟩
    rw [← hre, hk]
    unfold MakeLevelDbKey
    exact drop_encoded_id g _
  · intro k bytes h
    rw [hview]
    exact List.mem_map.mpr ⟨(P.key_string k, bytes), (hstored k bytes).mp h, rfl⟩

/-- C20 (witness): `GetContents(7)` on `threeRecordDb`. The store holds, in key order, the
record of group 8 (GroupId 5), then the two records of group 7 (GroupId 65535), of which the
one under the key bytes `[0, 7]` was stored last. The call returns group 7 with its metadata
100 and its two records, the key `[0, 7]` first, and not the record of group 8. -/
theorem get_contents_exact_witness :
    threeRecordDb.leveldb_ =
        [([0, 5, 1], [8]), ([255, 255, 0, 7], [8]), ([255, 255, 1, 2, 3], [9, 9])] ∧
      GetContents testPersona threeRecordDb 7 = .returned
        { group_name := 7, metadata := 100,
          kv_pairs := [({ group := 7, fixed := [0, 7] }, [8]), (demoKey, [9, 9])] } ∧
      GetContents testPersona threeRecordDb 7 = .returned
        { group_name := 7, metadata := 100,
          kv_pairs :=
            (threeRecordDb.leveldb_.filter (fun entry => GetGroupId entry.1 == 65535)).map
              (fun entry => (MakeKey testPersona 7 entry.1, testPersona.parse_value entry.2)) } ∧
      (demoKey, [9, 9]) ∈ (GetContents_it testPersona threeRecordDb 7 (65535, 100)).kv_pairs :=
  ⟨by decide, rfl,
    (get_contents_exact testPersona threeRecordDb 7 (65535, 100) threeRecordDb_reachable
      (by decide)).1,
    (get_contents_exact testPersona threeRecordDb 7 (65535, 100) threeRecordDb_reachable
      (by decide)).2.2.2.2.2.2.2.2 demoKey [9, 9] (by decide)⟩

/-- C16: in a reachable state the map returned by `GetTransferInfo` holds under a node `x`
exactly the list of contents of the registered groups whose target is `x` (in range, with `x`
the first new holder), and nothing when there is no such group, so no node maps to an empty
list; each element is what `GetContents` returns for its group before the call, every such
group is in the list, and the list is in strictly ascending group-name order. -/
theorem get_transfer_info_map (P : Persona G K V M) (db : GroupDb G M) (mc : MatrixChange)
    (env : Env) (x : NodeId) (hreach : Reachable P db) :
    map_find x (GetTransferInfo P db mc env).1 =
      (if (transfers_to P db mc x).isEmpty then none else some (transfers_to P db mc x)) ∧
    (∀ l, map_find x (GetTransferInfo P db mc env).1 = some l → l ≠ []) ∧
    (∀ n, transfer_target P mc n = some x ↔
      ((mc.CheckHolders (P.node_id n)).proximity_status = GroupRangeStatus.kInRange ∧
        ∃ others, (mc.CheckHolders (P.node_id n)).new_holders = x :: others)) ∧
    (∀ c ∈ transfers_to P db mc x,
      GetContents P db c.group_name = .returned c ∧
      transfer_target P mc c.group_name = some x) ∧
    (∀ n it, FindGroup db n = .returned it → transfer_target P mc n = some x →
      GetContents_it P db n it ∈ transfers_to P db mc x) ∧
    ((transfers_to P db mc x).map (fun c => c.group_name)).Pairwise (fun a b => a < b) := by
  have hwf := reachable_well_formed P db hreach
  have hmap : map_find x (GetTransferInfo P db mc env).1 =
      (if (transfers_to P db mc x).isEmpty then none else some (transfers_to P db mc x)) := by
    have hempty : ∀ l : GroupMap G M,
        (l.map (fun element => GetContents_it P db element.1 element.2)).isEmpty = l.isEmpty := by
      intro l
      cases l <;> rfl
    unfold GetTransferInfo transfers_to
    simp only
    rw [scan_transfer_info, hempty]
    simp [map_find]
  refine ⟨hmap, ?_, ?_, ?_, ?_, ?_⟩
  · intro l hl
    rw [hmap] at hl
    split_ifs at hl with hempty
    have heq : transfers_to P db mc x = l := by simpa using hl
    rw [← heq]
    intro hnil
    rw [hnil] at hempty
    simp at hempty
  · intro n
    unfold transfer_target in_range
    by_cases hr : (mc.CheckHolders (P.node_id n)).proximity_status = GroupRangeStatus.kInRange
    · cases hh : (mc.CheckHolders (P.node_id n)).new_holders <;> simp [hr, hh]
    · simp [hr]
  · intro c hc
    unfold transfers_to at hc
    obtain ⟨e, he, hce⟩ := List.mem_map.mp hc
    have hfe := List.mem_filter.mp he
    have hfind := map_find_of_mem _ hwf.names_ascending e hfe.1
    have htarget : transfer_target P mc e.1 = some x := by simpa using hfe.2
    rw [← hce]
    refine ⟨?_, htarget⟩
    show GetContents P db e.1 = _
    unfold GetContents
    rw [(FindGroup_returned_iff db e.1 e.2).mpr hfind]
  · intro n it hreg htarget
    unfold transfers_to
    have hmem : (n, it) ∈ db.group_map_ :=
      mem_of_map_find n it _ ((FindGroup_returned_iff db n it).mp hreg)
    exact List.mem_map.mpr ⟨(n, it), List.mem_filter.mpr ⟨hmem, by simpa using htarget⟩, rfl⟩
  · unfold transfers_to
    rw [List.map_map, List.pairwise_map]
    exact keys_ascending_filter _ _ hwf.names_ascending

/-- C16 (witness): under `demoMatrix` the contents of group 7 of `twoGroupDb` are listed under
node 42, the first new holder, and nothing is listed under node 43. -/
theorem get_transfer_info_map_witness :
    Reachable testPersona twoGroupDb ∧
      map_find 42 (GetTransferInfo testPersona twoGroupDb demoMatrix (Env.working [])).1 =
        (if (transfers_to testPersona twoGroupDb demoMatrix 42).isEmpty then none
          else some (transfers_to testPersona twoGroupDb demoMatrix 42)) ∧
      (transfers_to testPersona twoGroupDb demoMatrix 42).length = 1 ∧
      (transfers_to testPersona twoGroupDb demoMatrix 43).length = 0 :=
  ⟨twoGroupDb_reachable,
    (get_transfer_info_map testPersona twoGroupDb demoMatrix (Env.working []) 42
      twoGroupDb_reachable).1,
    by decide, by decide⟩

/-- C18 (failing input): `HandleTransfer` of a two-record transfer for the new group 8, the
backend accepting the first `Put` and rejecting the second. The call returns normally, group 8
is registered and its first record is stored, and the second record is missing: the transfer
is applied in part. -/
theorem handle_transfer_partial_on_put_failure :
    (HandleTransfer testPersona demoDb twoPairTransfer
        { draws := [5], faults := [false, true] }).1 = .returned () ∧
      GetMetadata demoDb 8 = .raised .no_such_account ∧
      GetMetadata (HandleTransfer testPersona demoDb twoPairTransfer
        { draws := [5], faults := [false, true] }).2 8 = .returned 5 ∧
      GetValue testPersona (HandleTransfer testPersona demoDb twoPairTransfer
        { draws := [5], faults := [false, true] }).2 { group := 8, fixed := [1] }
        (Env.working []) = .returned [1] ∧
      GetValue testPersona (HandleTransfer testPersona demoDb twoPairTransfer
        { draws := [5], faults := [false, true] }).2 { group := 8, fixed := [2] }
        (Env.working []) = .raised .no_such_element := by
  decide

/-- When the backend accepts every `Put`, `HandleTransfer(contents)` is
all-or-none: either it returns, the group is registered and every pair of the contents that no
later pair with the same key string overwrites is stored under the group's GroupId, or it does
not return normally (a new group cannot be registered) and registry and store are exactly as
before. -/
theorem handle_transfer_working_backend (P : Persona G K V M) (db : GroupDb G M)
    (c : Contents G K V M) (env : Env) (hback : env.faults = []) :
    ((HandleTransfer P db c env).1 = .returned () ∧
      ∃ it, FindGroup (HandleTransfer P db c env).2 c.group_name = .returned it ∧
        ∀ pre k v post, c.kv_pairs = pre ++ (k, v) :: post →
          (∀ kv ∈ post, P.key_string kv.1 ≠ P.key_string k) →
          map_find (MakeLevelDbKey P it.1 k) (HandleTransfer P db c env).2.leveldb_ =
            some (P.Serialise v)) ∨
    ((HandleTransfer P db c env).1 ≠ .returned () ∧ (HandleTransfer P db c env).2 = db) := by
  have hkeys : ∀ (g : GroupId) (k k' : K), P.key_string k' ≠ P.key_string k →
      MakeLevelDbKey P g k' ≠ MakeLevelDbKey P g k := by
    intro g k k' hne heq
    unfold MakeLevelDbKey at heq
    exact hne (List.append_cancel_left heq)
  have hstored : ∀ (d : GroupDb G M) (g : GroupId) pre k v post,
      c.kv_pairs = pre ++ (k, v) :: post →
      (∀ kv ∈ post, P.key_string kv.1 ≠ P.key_string k) →
      map_find (MakeLevelDbKey P g k) (put_all P g c.kv_pairs d []).leveldb_ =
        some (P.Serialise v) := by
    intro d g pre k v post hsplit hlast
    rw [hsplit]
    exact put_all_find_last P g pre post k v d (fun kv hkv => hkeys g k kv.1 (hlast kv hkv))
  unfold HandleTransfer ApplyTransfer
  rw [hback]
  rcases FindGroup_cases db c.group_name with ⟨it, hfind⟩ | hfind
  · simp only [hfind]
    refine Or.inl ⟨trivial, it, ?_, hstored db it.1⟩
    rw [FindGroup_returned_iff, put_all_group_map]
    exact (FindGroup_returned_iff db _ it).mp hfind
  · simp only [hfind]
    rcases AddGroupToMap_cases db c.group_name c.metadata env.draws with hc | hc | hc | hc
    · rw [hc.2]
      exact Or.inr ⟨by simp, rfl⟩
    · rw [hc.2.2]
      exact Or.inr ⟨by simp, rfl⟩
    · rw [hc.2.2.2]
      exact Or.inr ⟨by simp, rfl⟩
    · obtain ⟨_, habsent, g, _, heq⟩ := hc
      rw [heq]
      simp only
      refine Or.inl ⟨trivial, (g, c.metadata), ?_, hstored _ g⟩
      rw [FindGroup_returned_iff, put_all_group_map]
      exact map_find_place_self _ _ _ habsent

/-- The two-record transfer applied to `demoDb` with a working backend. -/
theorem handle_transfer_working_backend_witness :
    ((HandleTransfer testPersona demoDb twoPairTransfer (Env.working [5])).1 = .returned () ∧
      ∃ it, FindGroup (HandleTransfer testPersona demoDb twoPairTransfer (Env.working [5])).2
          twoPairTransfer.group_name = .returned it ∧
        ∀ pre k v post, twoPairTransfer.kv_pairs = pre ++ (k, v) :: post →
          (∀ kv ∈ post, testPersona.key_string kv.1 ≠ testPersona.key_string k) →
          map_find (MakeLevelDbKey testPersona it.1 k)
            (HandleTransfer testPersona demoDb twoPairTransfer (Env.working [5])).2.leveldb_ =
            some (testPersona.Serialise v)) ∨
    ((HandleTransfer testPersona demoDb twoPairTransfer (Env.working [5])).1 ≠ .returned () ∧
      (HandleTransfer testPersona demoDb twoPairTransfer (Env.working [5])).2 = demoDb) :=
  handle_transfer_working_backend testPersona demoDb twoPairTransfer (Env.working [5]) rfl

/-- C19 (failing run): the record `[9, 9]` is stored under `demoKey` of the registered group 7;
`HandleTransfer` delivers the pair `(demoKey, [1])`. The call returns normally and `GetValue`
then returns `[1]`: the stored value was overwritten, not kept. -/
theorem handle_transfer_overwrites_stored_value :
    GetValue testPersona demoDbStored demoKey (Env.working []) = .returned [9, 9] ∧
      (HandleTransfer testPersona demoDbStored demoTransfer (Env.working [])).1
        = .returned () ∧
      GetValue testPersona (HandleTransfer testPersona demoDbStored demoTransfer
        (Env.working [])).2 demoKey (Env.working []) = .returned [1] := by
  decide

end Claims

section CodecClaims

variable {G K V M : Type}

/-- C21: for every GroupId `g` below 65536 and every key `k`, `MakeLevelDbKey` gives the two
bytes of `g`, high byte first, followed by the fixed-width string of `k`; `GetGroupId` returns
`g` from it; and `MakeKey` with the group name of `k` returns `k`, given that the key type
rebuilds `k` from its own group name and fixed-width string. -/
theorem level_db_key_round_trip (P : Persona G K V M) (g : Nat) (k : K) (hg : g < 65536)
    (hkey : P.make_key (P.group_name k) (P.key_string k) = k) :
    MakeLevelDbKey P g k = [g / 256, g % 256] ++ P.key_string k ∧
      g / 256 < 256 ∧ g % 256 < 256 ∧
      GetGroupId (MakeLevelDbKey P g k) = g ∧
      MakeKey P (P.group_name k) (MakeLevelDbKey P g k) = k := by
  have hg' : g < kGroupsLimit := by
    rw [kGroupsLimit_eq]
    exact hg
  have hhigh : g / 256 < 256 := by omega
  refine ⟨?_, hhigh, by omega, GetGroupId_MakeLevelDbKey P g k hg', ?_⟩
  · unfold MakeLevelDbKey
    rw [ToFixedWidthString_two, Nat.mod_eq_of_lt hhigh]
  · rw [MakeKey_MakeLevelDbKey, hkey]

/-- C21 (witness): GroupId 65535 and `demoKey`: the key is `[255, 255, 1, 2, 3]`. -/
theorem level_db_key_round_trip_witness :
    MakeLevelDbKey testPersona 65535 demoKey = [65535 / 256, 65535 % 256] ++ [1, 2, 3] ∧
      65535 / 256 < 256 ∧ 65535 % 256 < 256 ∧
      GetGroupId (MakeLevelDbKey testPersona 65535 demoKey) = 65535 ∧
      MakeKey testPersona 7 (MakeLevelDbKey testPersona 65535 demoKey) = demoKey :=
  level_db_key_round_trip testPersona 65535 demoKey (by decide) rfl

end CodecClaims

section RegistryClaims

variable {G K V M : Type} [LinearOrder G]

/-- C30: for every signed 32-bit draw `r`, negative ones included, the candidate GroupId of
`AddGroupToMap` is below 65536 and is the low 16 bits of the two's-complement representation
of `r` (`r + 2^32` for a negative `r`, else `r`, reduced modulo `2^16`); and in every reachable
state every GroupId of the registry is below 65536, which is `256 ^ kPrefixWidth_`. -/
theorem candidate_id_low_bits (P : Persona G K V M) (r : Int) (hlo : -2 ^ 31 ≤ r)
    (hhi : r < 2 ^ 31) :
    candidate_id r < 65536 ∧
      candidate_id r = (if r < 0 then r + 2 ^ 32 else r).toNat % 2 ^ 16 ∧
      ∀ db : GroupDb G M, Reachable P db → ∀ element ∈ db.group_map_,
        element.2.1 < 65536 ∧ element.2.1 < 256 ^ kPrefixWidth_ := by
  refine ⟨?_, ?_, ?_⟩
  · have h : ((r % 2 ^ 64).toNat % 65536 : Nat) < 65536 := by omega
    unfold candidate_id
    rw [kGroupsLimit_eq]
    exact h
  · have h : ((r % 2 ^ 64).toNat % 65536 : Nat) =
        (if r < 0 then r + 2 ^ 32 else r).toNat % 2 ^ 16 := by
      split_ifs <;> omega
    unfold candidate_id
    rw [kGroupsLimit_eq]
    exact h
  · intro db hreach element hmem
    have hlt := (reachable_well_formed P db hreach).ids_lt element hmem
    refine ⟨?_, hlt⟩
    rw [kGroupsLimit_eq] at hlt
    exact hlt

/-- C30 (witness): the draw -1 gives the candidate 65535. -/
theorem candidate_id_low_bits_witness :
    candidate_id (-1) = 65535 ∧
      (candidate_id (-1) < 65536 ∧
        candidate_id (-1) = (if (-1 : Int) < 0 then (-1 : Int) + 2 ^ 32 else -1).toNat % 2 ^ 16 ∧
        ∀ db : GroupDb Nat Nat, Reachable testPersona db → ∀ element ∈ db.group_map_,
          element.2.1 < 65536 ∧ element.2.1 < 256 ^ kPrefixWidth_) :=
  ⟨by decide, candidate_id_low_bits testPersona (-1) (by decide) (by decide)⟩

end RegistryClaims

section DemultiplexerClaims

/-- For the four persona tags that have a case, `HandleMessage` makes exactly one call, to the
corresponding service, with the parsed wrapper and the sender and receiver of the message;
for every tag other than these and VersionHandler it makes no call, as the claim says. -/
theorem HandleMessage_dispatch {S R : Type} (parse : Bytes → MessageWrapper)
    (routing_message : RoutingMessage S R)
    (htag : (parse routing_message.contents).2.1 ≠ nfs.Persona.kVersionHandler) :
    Demultiplexer.HandleMessage parse routing_message =
      (corresponding_service (parse routing_message.contents).2.1).toList.map
        (fun service =>
          { service := service, wrapper_tuple := parse routing_message.contents,
            sender := routing_message.sender, receiver := routing_message.receiver }) := by
  unfold Demultiplexer.HandleMessage
  cases htag' : (parse routing_message.contents).2.1 <;>
    simp_all [corresponding_service]

/-- C22 (failing input): a routing message whose parsed destination persona is VersionHandler.
The service the claim names for it is `version_manager_service_`, and `HandleMessage` calls no
service at all; with the tag MaidManager the same message gives the one call to
`maid_manager_service_`. -/
theorem demultiplexer_drops_version_handler :
    corresponding_service nfs.Persona.kVersionHandler = some ServiceRef.version_manager_service_ ∧
      Demultiplexer.HandleMessage (fun _ => (5, nfs.Persona.kVersionHandler, 1, [9]))
        demoMessage = [] ∧
      Demultiplexer.HandleMessage (fun _ => (5, nfs.Persona.kMaidManager, 1, [9]))
        demoMessage =
        [{ service := ServiceRef.maid_manager_service_,
           wrapper_tuple := (5, nfs.Persona.kMaidManager, 1, [9]), sender := 1, receiver := 2 }] := by
  decide

end DemultiplexerClaims

section CommanderClaims

/-- C26 (counterexample): the flag sets `c l` and `r b` are contradictory by the usage line,
and `CheckOptionValidity` accepts both: it returns the variables map and prints no help. -/
theorem check_option_validity_accepts_contradictory :
    contradictory [OptionName.create, OptionName.load] = true ∧
      (CheckOptionValidity [OptionName.create, OptionName.load]).returned
        = some [OptionName.create, OptionName.load] ∧
      (CheckOptionValidity [OptionName.create, OptionName.load]).printed_help = false ∧
      contradictory [OptionName.run, OptionName.bootstrap] = true ∧
      (CheckOptionValidity [OptionName.run, OptionName.bootstrap]).returned
        = some [OptionName.run, OptionName.bootstrap] ∧
      (CheckOptionValidity [OptionName.run, OptionName.bootstrap]).printed_help = false := by
  decide

/-- C26 (amended): `CheckOptionValidity` prints the help text and throws exactly when help is
requested or no operation flag is selected, and otherwise returns the variables map without
printing; in both cases `selected_ops_` records exactly the selected flags. A flag set with
both `c` and `l` makes `HandleKeys` create keys, and one with both `r` and `b` makes
`HandleNetWork` set up the network with `bootstrap_only = false`. -/
theorem check_option_validity_rejects_help_or_empty (variables_map : VariablesMap) :
    ((CheckOptionValidity variables_map).returned =
        if OptionName.help ∈ variables_map ∨ variables_map = [] then none
        else some variables_map) ∧
      ((CheckOptionValidity variables_map).printed_help =
        decide (OptionName.help ∈ variables_map ∨ variables_map = [])) ∧
      (CheckOptionValidity variables_map).selected_ops_ =
        { do_create := decide (OptionName.create ∈ variables_map),
          do_load := decide (OptionName.load ∈ variables_map),
          do_run := decide (OptionName.run ∈ variables_map),
          do_bootstrap := decide (OptionName.bootstrap ∈ variables_map),
          do_store := decide (OptionName.store ∈ variables_map),
          do_verify := decide (OptionName.verify ∈ variables_map),
          do_test := decide (OptionName.test ∈ variables_map),
          do_extended := decide (OptionName.extended ∈ variables_map),
          do_delete := decide (OptionName.delete ∈ variables_map),
          do_print := decide (OptionName.print ∈ variables_map) } ∧
      (OptionName.create ∈ variables_map →
        HandleKeys (CheckOptionValidity variables_map).selected_ops_ = KeysStep.CreateKeys) ∧
      (OptionName.run ∈ variables_map →
        HandleNetWork (CheckOptionValidity variables_map).selected_ops_ = some false) := by
  have hcount : ∀ name : OptionName,
      (VariablesMap.count variables_map name != 0) = decide (name ∈ variables_map) := by
    intro name
    unfold VariablesMap.count
    split_ifs with h <;> simp [h]
  have hreject : (decide (OptionName.help ∈ variables_map) ||
      conflicting_options
        { do_create := decide (OptionName.create ∈ variables_map),
          do_load := decide (OptionName.load ∈ variables_map),
          do_run := decide (OptionName.run ∈ variables_map),
          do_bootstrap := decide (OptionName.bootstrap ∈ variables_map),
          do_store := decide (OptionName.store ∈ variables_map),
          do_verify := decide (OptionName.verify ∈ variables_map),
          do_test := decide (OptionName.test ∈ variables_map),
          do_extended := decide (OptionName.extended ∈ variables_map),
          do_delete := decide (OptionName.delete ∈ variables_map),
          do_print := decide (OptionName.print ∈ variables_map) }) =
      decide (OptionName.help ∈ variables_map ∨ variables_map = []) := by
    rcases variables_map with _ | ⟨x, t⟩
    · rfl
    · cases x <;> simp [conflicting_options]
  unfold CheckOptionValidity
  simp only [hcount, hreject]
  by_cases h : OptionName.help ∈ variables_map ∨ variables_map = []
  · simp only [h, decide_True, if_true, true_and]
    refine ⟨fun hc => ?_, fun hr => ?_⟩
    · simp [HandleKeys, hc]
    · simp [HandleNetWork, hr]
  · simp only [h, decide_False, if_false, true_and, Bool.false_eq_true]
    refine ⟨fun hc => ?_, fun hr => ?_⟩
    · simp [HandleKeys, hc]
    · simp [HandleNetWork, hr]

end CommanderClaims

/-! ## Lemmas on the version history -/

section VersionLemmas

theorem mem_of_parent_of (nodes : List (VersionName × Option VersionName)) (v : VersionName)
    (q : Option VersionName) (h : parent_of nodes v = some q) : (v, q) ∈ nodes := by
  unfold parent_of at h
  rw [Option.map_eq_some'] at h
  obtain ⟨node, hfind, hq⟩ := h
  have hmem := List.mem_of_find?_eq_some hfind
  have hname := List.find?_some hfind
  have hv : node.1 = v := by simpa using hname
  have hnode : node = (v, q) := by
    rw [← hv, ← hq]
  rw [← hnode]
  exact hmem

theorem parent_of_ne_none (nodes : List (VersionName × Option VersionName))
    (node : VersionName × Option VersionName) (h : node ∈ nodes) :
    parent_of nodes node.1 ≠ none := by
  unfold parent_of
  intro hnone
  rw [Option.map_eq_none', List.find?_eq_none] at hnone
  have := hnone node h
  simp at this

theorem mem_children (nodes : List (VersionName × Option VersionName)) (p c : VersionName) :
    c ∈ children nodes p ↔ (c, some p) ∈ nodes := by
  unfold children
  constructor
  · intro h
    obtain ⟨node, hnode, hc⟩ := List.mem_map.mp h
    have hp : node.2 = some p := by simpa using (List.mem_filter.mp hnode).2
    have : node = (c, some p) := by
      rw [← hc, ← hp]
    rw [← this]
    exact (List.mem_filter.mp hnode).1
  · intro h
    exact List.mem_map.mpr ⟨(c, some p), List.mem_filter.mpr ⟨h, by simp⟩, rfl⟩

theorem mem_tips (nodes : List (VersionName × Option VersionName)) (v : VersionName) :
    v ∈ tips nodes ↔ (∃ q, (v, q) ∈ nodes) ∧ children nodes v = [] := by
  unfold tips
  constructor
  · intro h
    obtain ⟨node, hnode, hv⟩ := List.mem_map.mp h
    have hleaf : children nodes node.1 = [] := by
      simpa using (List.mem_filter.mp hnode).2
    rw [← hv]
    exact ⟨⟨node.2, (List.mem_filter.mp hnode).1⟩, hleaf⟩
  · rintro ⟨⟨q, hq⟩, hleaf⟩
    exact List.mem_map.mpr ⟨(v, q), List.mem_filter.mpr ⟨hq, by simp [hleaf]⟩, rfl⟩

theorem mem_get_versions (versions : StructuredDataVersions) (v : VersionName) :
    v ∈ get_versions versions ↔ v ∈ tips versions.nodes :=
  (List.perm_insertionSort version_before (tips versions.nodes)).mem_iff

/-- A walk with enough fuel collects exactly the nodes of the branch. -/
theorem mem_branch_until_fork (nodes : List (VersionName × Option VersionName))
    (htree : version_tree nodes) :
    ∀ (fuel : Nat) (current : VersionName), current.index ≤ fuel → ∀ x,
      x ∈ branch_until_fork nodes fuel current ↔ on_branch nodes current x := by
  have hindex : ∀ c p, parent_of nodes c = some (some p) → c.index = p.index + 1 := by
    intro c p h
    exact (htree.2.2 (c, some p) (mem_of_parent_of nodes c (some p) h) p rfl).2
  intro fuel
  induction fuel with
  | zero =>
    intro current hfuel x
    unfold branch_until_fork
    rw [List.mem_singleton]
    constructor
    · intro hx
      rw [hx]
      exact on_branch.here current
    · intro hx
      cases hx with
      | here => rfl
      | up _ p _ hpar _ _ =>
        have := hindex current p hpar
        omega
  | succ fuel ih =>
    intro current hfuel x
    unfold branch_until_fork
    cases hpar : parent_of nodes current with
    | none =>
      simp only [List.mem_singleton]
      constructor
      · intro hx
        rw [hx]
        exact on_branch.here current
      · intro hx
        cases hx with
        | here => rfl
        | up _ p _ hpar' _ _ =>
          rw [hpar] at hpar'
          cases hpar'
    | some q =>
      cases q with
      | none =>
        simp only [List.mem_singleton]
        constructor
        · intro hx
          rw [hx]
          exact on_branch.here current
        · intro hx
          cases hx with
          | here => rfl
          | up _ p _ hpar' _ _ =>
            rw [hpar] at hpar'
            cases hpar'
      | some p =>
        simp only
        have hp : p.index ≤ fuel := by
          have := hindex current p hpar
          omega
        split_ifs with hfork
        · rw [List.mem_singleton]
          constructor
          · intro hx
            rw [hx]
            exact on_branch.here current
          · intro hx
            cases hx with
            | here => rfl
            | up _ p' _ hpar' hfew _ =>
              rw [hpar] at hpar'
              cases hpar'
              omega
        · rw [List.mem_cons, ih p hp x]
          constructor
          · rintro (hx | hx)
            · rw [hx]
              exact on_branch.here current
            · exact on_branch.up current p x hpar (by omega) hx
          · intro hx
            cases hx with
            | here => exact Or.inl rfl
            | up _ p' _ hpar' _ hrest =>
              rw [hpar] at hpar'
              cases hpar'
              exact Or.inr hrest

/-- Every node of a branch other than its start has a child. -/
theorem on_branch_has_child (nodes : List (VersionName × Option VersionName))
    (start x : VersionName) (h : on_branch nodes start x) :
    x = start ∨ children nodes x ≠ [] := by
  induction h with
  | here => exact Or.inl rfl
  | up start p x hpar _ _ ih =>
    right
    rcases ih with hx | hx
    · rw [hx]
      intro hnone
      have hmem := (mem_children nodes p start).mpr (mem_of_parent_of nodes start (some p) hpar)
      rw [hnone] at hmem
      cases hmem
    · exact hx

end VersionLemmas

section VersionClaims

/-- C23: for every version name `v`, `put` of `v` with no old version into a new version
history (limits of at least one version and one branch, any eviction policy) succeeds and
leaves the single node `v` without parent; `get_versions` then returns exactly `[v]`, and `v`
is the root and the only tip. -/
theorem put_root_then_get_versions (evict : StructuredDataVersions → StructuredDataVersions)
    (max_versions max_branches max_orphans : Nat) (v : VersionName)
    (hversions : 1 ≤ max_versions) (hbranches : 1 ≤ max_branches) :
    put evict (StructuredDataVersions.create max_versions max_branches max_orphans) none v =
        .ok { max_versions := max_versions, max_branches := max_branches,
              max_orphans := max_orphans, nodes := [(v, none)], orphans := [] } ∧
      get_versions { max_versions := max_versions, max_branches := max_branches,
                     max_orphans := max_orphans, nodes := [(v, none)], orphans := [] } = [v] ∧
      root [(v, none)] = some v ∧ tips [(v, none)] = [v] := by
  have htips : tips [(v, none)] = [v] := by
    simp [tips, children]
  refine ⟨?_, ?_, ?_, htips⟩
  · have hcap : over_capacity
        { max_versions := max_versions, max_branches := max_branches,
          max_orphans := max_orphans, nodes := [(v, none)], orphans := [] } = false := by
      unfold over_capacity
      simp only [htips, List.length_singleton, Bool.or_eq_false_iff, decide_eq_false_iff_not]
      omega
    unfold put put_version StructuredDataVersions.create
    simp only [root, List.find?_nil, Option.map_none', List.nil_append, hcap]
    rfl
  · unfold get_versions
    simp only [htips]
    rfl
  · simp [root]

/-- C23 (witness): `v0_aaa` put into a new history of at most 100 versions and 20 branches. -/
theorem put_root_then_get_versions_witness :
    put evict_oldest_tip (StructuredDataVersions.create 100 20 10) none v0_aaa =
        .ok { max_versions := 100, max_branches := 20, max_orphans := 10,
              nodes := [(v0_aaa, none)], orphans := [] } ∧
      get_versions { max_versions := 100, max_branches := 20, max_orphans := 10,
                     nodes := [(v0_aaa, none)], orphans := [] } = [v0_aaa] ∧
      root [(v0_aaa, none)] = some v0_aaa ∧ tips [(v0_aaa, none)] = [v0_aaa] :=
  put_root_then_get_versions evict_oldest_tip 100 20 10 v0_aaa (by decide) (by decide)

/-- C24: for every version tree and every tip `t`, `delete_branch_until_fork(t)` succeeds and
keeps exactly the nodes, with their parents, that are not on the branch of `t` (the nodes from
`t` towards the root below the nearest ancestor with two or more children, the root included
when there is no such ancestor); limits and orphans are untouched; afterwards `get_versions`
does not contain `t` and still contains every other former tip. -/
theorem delete_branch_until_fork_removes_branch (versions : StructuredDataVersions)
    (t : VersionName) (htree : version_tree versions.nodes) (htip : t ∈ get_versions versions) :
    ∃ pruned, delete_branch_until_fork versions t = .ok pruned ∧
      (∀ node, node ∈ pruned.nodes ↔
        node ∈ versions.nodes ∧ ¬ on_branch versions.nodes t node.1) ∧
      pruned.nodes.Sublist versions.nodes ∧
      pruned.orphans = versions.orphans ∧
      t ∉ get_versions pruned ∧
      ∀ u ∈ get_versions versions, u ≠ t → u ∈ get_versions pruned := by
  have ht := (mem_tips versions.nodes t).mp ((mem_get_versions versions t).mp htip)
  obtain ⟨⟨q, hq⟩, hleaf⟩ := ht
  have hpar : parent_of versions.nodes t ≠ none := parent_of_ne_none versions.nodes (t, q) hq
  have hnodes : ∀ node, node ∈ versions.nodes.filter (fun node =>
      decide (node.1 ∉ branch_until_fork versions.nodes t.index t)) ↔
      node ∈ versions.nodes ∧ ¬ on_branch versions.nodes t node.1 := by
    intro node
    rw [List.mem_filter, decide_eq_true_iff,
      mem_branch_until_fork versions.nodes htree t.index t (le_refl _) node.1]
  let kept := versions.nodes.filter (fun node =>
    decide (node.1 ∉ branch_until_fork versions.nodes t.index t))
  refine ⟨{ versions with nodes := kept }, ?_, hnodes, ?_, rfl, ?_, ?_⟩
  · unfold delete_branch_until_fork
    cases hp : parent_of versions.nodes t with
    | none => exact absurd hp hpar
    | some _ =>
      simp only [hleaf, List.isEmpty_nil, if_true]
  · exact List.filter_sublist _
  · rw [mem_get_versions, mem_tips]
    rintro ⟨⟨q', hq'⟩, _⟩
    exact ((hnodes (t, q')).mp hq').2 (on_branch.here t)
  · intro u hu hne
    obtain ⟨⟨qu, hqu⟩, huleaf⟩ := (mem_tips versions.nodes u).mp ((mem_get_versions versions u).mp hu)
    rw [mem_get_versions, mem_tips]
    constructor
    · refine ⟨qu, (hnodes (u, qu)).mpr ⟨hqu, fun hbranch => ?_⟩⟩
      rcases on_branch_has_child versions.nodes t u hbranch with h | h
      · exact hne h
      · exact h huleaf
    · rw [List.eq_nil_iff_forall_not_mem]
      intro c hc
      have hc' := (mem_children _ u c).mp hc
      have hold := (mem_children versions.nodes u c).mpr ((hnodes (c, some u)).mp hc').1
      rw [huleaf] at hold
      cases hold

/-- C24 (witness): the tree of the test `FUNC_DeleteBranchUntilFork` and its tip `v4_iii`; the
nodes `v4_iii`, `v3_fff`, `v2_ccc` go, the nodes `v0_aaa`, `v1_bbb`, `v2_ddd` stay, and
`get_versions` goes from `[v4_iii, v2_ddd]` to `[v2_ddd]`. -/
theorem delete_branch_until_fork_removes_branch_witness :
    forkTree = .ok (demoVersions forkNodes) ∧
      get_versions (demoVersions forkNodes) = [v4_iii, v2_ddd] ∧
      delete_branch_until_fork (demoVersions forkNodes) v4_iii =
        .ok (demoVersions [(v0_aaa, none), (v1_bbb, some v0_aaa), (v2_ddd, some v1_bbb)]) ∧
      get_versions (demoVersions [(v0_aaa, none), (v1_bbb, some v0_aaa), (v2_ddd, some v1_bbb)])
        = [v2_ddd] ∧
      ∃ pruned, delete_branch_until_fork (demoVersions forkNodes) v4_iii = .ok pruned ∧
        (∀ node, node ∈ pruned.nodes ↔
          node ∈ (demoVersions forkNodes).nodes ∧
            ¬ on_branch (demoVersions forkNodes).nodes v4_iii node.1) ∧
        pruned.nodes.Sublist (demoVersions forkNodes).nodes ∧
        pruned.orphans = (demoVersions forkNodes).orphans ∧
        v4_iii ∉ get_versions pruned ∧
        ∀ u ∈ get_versions (demoVersions forkNodes), u ≠ v4_iii → u ∈ get_versions pruned :=
  ⟨rfl, by decide, rfl, by decide,
    delete_branch_until_fork_removes_branch (demoVersions forkNodes) v4_iii (by decide)
      (by decide)⟩

end VersionClaims

/-! ## Lemmas on the disk-based store -/

section DiskLemmas

theorem put_files_find_other (l : List (FileName × Bytes)) (s : DiskBasedStorage) (k : Nat)
    (hk : k ∉ l.map (fun f => f.1.index)) :
    map_find k (l.foldl (fun storage file => PutFile storage file.1 file.2) s).files =
      map_find k s.files := by
  induction l generalizing s with
  | nil => rfl
  | cons a rest ih =>
    rw [List.map_cons, List.mem_cons, not_or] at hk
    rw [List.foldl_cons, ih _ hk.2]
    unfold PutFile
    exact map_find_put_of_ne _ _ (fun h => hk.1 h.symm)

theorem put_files_find (l : List (FileName × Bytes)) (s : DiskBasedStorage)
    (hnodup : (l.map (fun f => f.1.index)).Nodup) (f : FileName × Bytes) (hf : f ∈ l) :
    map_find f.1.index (l.foldl (fun storage file => PutFile storage file.1 file.2) s).files =
      some (f.1.hash, f.2) := by
  induction l generalizing s with
  | nil => cases hf
  | cons a rest ih =>
    rw [List.map_cons, List.nodup_cons] at hnodup
    rw [List.foldl_cons]
    rcases List.mem_cons.mp hf with h | h
    · rw [h, put_files_find_other rest _ _ hnodup.1]
      unfold PutFile
      exact map_find_put_self _ _ _
    · exact ih _ hnodup.2 h

theorem put_files_ascending (l : List (FileName × Bytes)) (s : DiskBasedStorage)
    (h : keys_ascending s.files) :
    keys_ascending (l.foldl (fun storage file => PutFile storage file.1 file.2) s).files := by
  induction l generalizing s with
  | nil => exact h
  | cons a rest ih =>
    rw [List.foldl_cons]
    exact ih _ (keys_ascending_put _ _ _ h)

theorem keys_nodup_of_ascending {κ β : Type} [LinearOrder κ] (m : List (κ × β))
    (h : keys_ascending m) : (m.map Prod.fst).Nodup := by
  unfold keys_ascending at h
  rw [List.Nodup, List.pairwise_map]
  exact h.imp (fun hlt => ne_of_lt hlt)

theorem mem_keys_iff {κ β : Type} [LinearOrder κ] (m : List (κ × β)) (k : κ) :
    k ∈ m.map Prod.fst ↔ map_find k m ≠ none := by
  rw [Ne, map_find_eq_none_iff]
  simp only [List.mem_map, not_forall, not_not]
  constructor
  · rintro ⟨entry, hmem, hk⟩
    exact ⟨entry, hmem, hk⟩
  · rintro ⟨entry, hmem, hk⟩
    exact ⟨entry, hmem, hk⟩

end DiskLemmas

section DiskClaims

/-- C25: for every `n` of at least one and every list of files, in any order, whose indices
are exactly `0 .. n-1` and whose contents are not empty, put one after the other into a new
`DiskBasedStorage`: `GetFile` returns for each of them the content put at its path, and
`GetFileCount` and the number of names of `GetFileNames` are both `n`. -/
theorem put_files_then_get (n : Nat) (puts : List (FileName × Bytes)) (hn : 1 ≤ n)
    (hindices : (puts.map (fun f => f.1.index)).Perm (List.range n))
    (hcontent : ∀ f ∈ puts, f.2 ≠ []) :
    (∀ f ∈ puts, GetFile (put_files puts) f.1 = .returned f.2) ∧
      GetFileCount (put_files puts) = n ∧ (GetFileNames (put_files puts)).length = n := by
  have hnodup : (puts.map (fun f => f.1.index)).Nodup :=
    hindices.nodup_iff.mpr (List.nodup_range n)
  have hcount : GetFileCount (put_files puts) = n := by
    unfold GetFileCount put_files
    have hasc := put_files_ascending puts DiskBasedStorage.create
      (by simp [keys_ascending, DiskBasedStorage.create])
    have hperm : ((puts.foldl (fun storage file => PutFile storage file.1 file.2)
        DiskBasedStorage.create).files.map Prod.fst).Perm (List.range n) := by
      rw [List.perm_ext_iff_of_nodup (keys_nodup_of_ascending _ hasc) (List.nodup_range n)]
      intro k
      rw [mem_keys_iff, List.mem_range]
      by_cases hk : k ∈ puts.map (fun f => f.1.index)
      · obtain ⟨f, hf, hfk⟩ := List.mem_map.mp hk
        have hlt : k < n := List.mem_range.mp (hindices.mem_iff.mp hk)
        rw [← hfk, put_files_find puts _ hnodup f hf]
        simp only [ne_eq, reduceCtorEq, not_false_eq_true, true_iff]
        rw [hfk]
        exact hlt
      · have hge : ¬ k < n := fun hlt => hk (hindices.mem_iff.mpr (List.mem_range.mpr hlt))
        rw [put_files_find_other puts _ k hk]
        have hk0 : k ≠ 0 := by omega
        simp [DiskBasedStorage.create, map_find, hge, Ne.symm hk0]
    have hlen := hperm.length_eq
    rw [List.length_map, List.length_range] at hlen
    exact hlen
  refine ⟨?_, hcount, ?_⟩
  · intro f hf
    unfold GetFile put_files
    rw [put_files_find puts _ hnodup f hf]
    simp [hcontent f hf]
  · unfold GetFileNames
    rw [List.length_map]
    exact hcount

/-- C25 (witness): three files with the indices 2, 0, 1, put in this order. -/
theorem put_files_then_get_witness :
    (∀ f ∈ demoFiles, GetFile (put_files demoFiles) f.1 = .returned f.2) ∧
      GetFileCount (put_files demoFiles) = 3 ∧ (GetFileNames (put_files demoFiles)).length = 3 :=
  put_files_then_get 3 demoFiles (by decide) (by decide) (by decide)

end DiskClaims

section OwnershipClaims

variable {G K V M : Type} [LinearOrder G]

/-- C27: in every state reachable from a new `GroupDb` by public calls, under any random draws
and whether or not the backend fails, the first two bytes of every key of the store decode to
the GroupId of a registered group. -/
theorem stored_keys_belong_to_registered_groups (P : Persona G K V M) (db : GroupDb G M)
    (hreach : Reachable P db) :
    ∀ entry ∈ db.leveldb_, ∃ group_name it, FindGroup db group_name = .returned it ∧
      FromFixedWidthString (entry.1.take 2) = it.1 := by
  intro entry hentry
  obtain ⟨element, hmem, hid⟩ := reachable_store_owned P db hreach entry hentry
  refine ⟨element.1, element.2, ?_, hid⟩
  rw [FindGroup_returned_iff]
  exact map_find_of_mem _ (reachable_well_formed P db hreach).names_ascending element hmem

/-- C27 (witness): the one record of `twoGroupDb`, stored under the key `[255, 255, 1, 2, 3]`;
group 7 has the GroupId 65535. -/
theorem stored_keys_belong_to_registered_groups_witness :
    twoGroupDb.leveldb_ = [([255, 255, 1, 2, 3], [9, 9])] ∧
      FindGroup twoGroupDb 7 = .returned (65535, 100) ∧
      ∃ group_name it, FindGroup twoGroupDb group_name = .returned it ∧
        FromFixedWidthString (([255, 255, 1, 2, 3], [9, 9]).1.take 2) = it.1 :=
  ⟨by decide, by decide,
    stored_keys_belong_to_registered_groups testPersona twoGroupDb twoGroupDb_reachable
      ([255, 255, 1, 2, 3], [9, 9]) (by decide)⟩

end OwnershipClaims

section TransferFrameClaims

variable {G K V M : Type} [LinearOrder G]

/-- C28: `HandleTransfer` of contents whose group is registered, in a reachable state and
whatever the backend does, returns and leaves the registry as it was, so the group keeps its
GroupId and its metadata and the incoming metadata is dropped; every record of the group whose
key string does not occur in the transfer reads as before; and for every other group the
metadata, the contents and every record read as before. -/
theorem handle_transfer_registered_frame (P : Persona G K V M) (db : GroupDb G M)
    (c : Contents G K V M) (env : Env) (it : GroupId × M) (hreach : Reachable P db)
    (hreg : FindGroup db c.group_name = .returned it) :
    (HandleTransfer P db c env).1 = .returned () ∧
      (HandleTransfer P db c env).2.group_map_ = db.group_map_ ∧
      FindGroup (HandleTransfer P db c env).2 c.group_name = .returned it ∧
      (∀ k, (∀ kv ∈ c.kv_pairs, P.key_string kv.1 ≠ P.key_string k) → ∀ env',
        GetValue P (HandleTransfer P db c env).2 k env' = GetValue P db k env') ∧
      (∀ n', n' ≠ c.group_name →
        GetMetadata (HandleTransfer P db c env).2 n' = GetMetadata db n' ∧
          GetContents P (HandleTransfer P db c env).2 n' = GetContents P db n') ∧
      (∀ k', P.group_name k' ≠ c.group_name → ∀ env',
        GetValue P (HandleTransfer P db c env).2 k' env' = GetValue P db k' env') := by
  have hwf := reachable_well_formed P db hreach
  have hlt := WellFormed_id_lt P db _ it hwf hreg
  have hres : HandleTransfer P db c env =
      (.returned (), put_all P it.1 c.kv_pairs db env.faults) := by
    unfold HandleTransfer ApplyTransfer
    simp only [hreg]
  have hgm : (put_all P it.1 c.kv_pairs db env.faults).group_map_ = db.group_map_ :=
    put_all_group_map P it.1 c.kv_pairs db env.faults
  have hfind : ∀ n, FindGroup (put_all P it.1 c.kv_pairs db env.faults) n = FindGroup db n := by
    intro n
    unfold FindGroup
    rw [hgm]
  have hwf' := WellFormed_put_all P it.1 c.kv_pairs db env.faults hwf hlt
  rw [hres]
  refine ⟨rfl, hgm, ?_, ?_, ?_, ?_⟩
  · rw [hfind]
    exact hreg
  · intro k hk env'
    apply GetValue_congr
    · rw [hgm]
    · intro g
      exact put_all_find_other P it.1 _ c.kv_pairs db env.faults
        (fun kv hkv => MakeLevelDbKey_ne_of_string_ne P it.1 g kv.1 k (hk kv hkv))
  · intro n' hne
    constructor
    · unfold GetMetadata
      rw [hfind]
    · unfold GetContents
      rw [hfind]
      rcases FindGroup_cases db n' with ⟨it', hfind'⟩ | hfind'
      · rw [hfind']
        have hlt' := WellFormed_id_lt P db _ it' hwf hfind'
        have hid : it'.1 ≠ it.1 := fun h =>
          hne (WellFormed_id_inj P db n' c.group_name it' it hwf hfind' hreg h)
        simp only [GetContents_it]
        rw [group_entries_eq_filter P _ it'.1 hlt' hwf'.store_ascending hwf'.store_encoded,
          group_entries_eq_filter P _ it'.1 hlt' hwf.store_ascending hwf.store_encoded,
          put_all_filter_other P it.1 c.kv_pairs db env.faults _ hlt
            (fun entry hentry => by
              rw [hentry]
              simpa using Ne.symm hid)]
      · rw [hfind']
  · intro k' hne env'
    unfold GetValue
    rw [hfind]
    rcases FindGroup_cases db (P.group_name k') with ⟨it', hfind'⟩ | hfind'
    · rw [hfind']
      have hlt' := WellFormed_id_lt P db _ it' hwf hfind'
      have hid : it.1 ≠ it'.1 := fun h =>
        hne (WellFormed_id_inj P db (P.group_name k') c.group_name it' it hwf hfind' hreg
          h.symm)
      unfold Get
      simp only
      rw [put_all_find_other P it.1 _ c.kv_pairs db env.faults
        (fun kv _ => MakeLevelDbKey_ne_of_id_ne P it.1 it'.1 kv.1 k' hlt hlt' hid)]
    · rw [hfind']

/-- C28 (witness): `demoTransfer` (group 7, metadata 5, one record under `demoKey`) handled by
`twoGroupDb`, where group 7 has GroupId 65535 and metadata 100 and group 8 is registered too:
group 7 keeps its entry, and the metadata and the contents of group 8 read as before. -/
theorem handle_transfer_registered_frame_witness :
    (HandleTransfer testPersona twoGroupDb demoTransfer (Env.working [])).1 = .returned () ∧
      (HandleTransfer testPersona twoGroupDb demoTransfer (Env.working [])).2.group_map_
        = twoGroupDb.group_map_ ∧
      FindGroup (HandleTransfer testPersona twoGroupDb demoTransfer (Env.working [])).2 7
        = .returned (65535, 100) ∧
      GetMetadata (HandleTransfer testPersona twoGroupDb demoTransfer (Env.working [])).2 8
        = GetMetadata twoGroupDb 8 ∧
      GetContents testPersona
          (HandleTransfer testPersona twoGroupDb demoTransfer (Env.working [])).2 8
        = GetContents testPersona twoGroupDb 8 :=
  ⟨(handle_transfer_registered_frame testPersona twoGroupDb demoTransfer (Env.working [])
      (65535, 100) twoGroupDb_reachable (by decide)).1,
    (handle_transfer_registered_frame testPersona twoGroupDb demoTransfer (Env.working [])
      (65535, 100) twoGroupDb_reachable (by decide)).2.1,
    (handle_transfer_registered_frame testPersona twoGroupDb demoTransfer (Env.working [])
      (65535, 100) twoGroupDb_reachable (by decide)).2.2.1,
    ((handle_transfer_registered_frame testPersona twoGroupDb demoTransfer (Env.working [])
      (65535, 100) twoGroupDb_reachable (by decide)).2.2.2.2.1 8 (by decide)).1,
    ((handle_transfer_registered_frame testPersona twoGroupDb demoTransfer (Env.working [])
      (65535, 100) twoGroupDb_reachable (by decide)).2.2.2.2.1 8 (by decide)).2⟩

end TransferFrameClaims

section DrawsClaims

variable {G K V M : Type} [LinearOrder G]

/-- C29: two runs from a new `GroupDb` that make the same public calls with the same arguments
and meet the same backend statuses, and differ only in the values of the random source, give
the same observation at every call (return values and errors, metadata, values, contents and
transfer maps), provided the draws let every call of both runs return. -/
theorem random_draws_not_observable (P : Persona G K V M)
    (steps steps' : List (Call G K V M × Env)) (hsame : same_calls steps steps')
    (hreturn : ∀ o ∈ observations P GroupDb.empty steps, o.still_drawing = false)
    (hreturn' : ∀ o ∈ observations P GroupDb.empty steps', o.still_drawing = false) :
    observations P GroupDb.empty steps = observations P GroupDb.empty steps' :=
  same_up_to_ids_observations P steps steps' hsame GroupDb.empty GroupDb.empty
    (WellFormed_empty P) (WellFormed_empty P) store_owned_empty store_owned_empty
    { registry := List.Forall₂.nil
      records := by
        intro n it it' h
        cases h }
    hreturn hreturn'

/-- C29 (witness): the run `demoRun` with the draw -1, which gives group 7 the GroupId 65535,
and with the draw 3, which gives it the GroupId 3. -/
theorem random_draws_not_observable_witness :
    FindGroup (exec testPersona GroupDb.empty (Env.working [-1]) (.add_group 7 100)) 7
        = .returned (65535, 100) ∧
      FindGroup (exec testPersona GroupDb.empty (Env.working [3]) (.add_group 7 100)) 7
        = .returned (3, 100) ∧
      observations testPersona GroupDb.empty (demoRun (-1)) =
        observations testPersona GroupDb.empty (demoRun 3) :=
  ⟨by decide, by decide,
    random_draws_not_observable testPersona (demoRun (-1)) (demoRun 3)
      (List.Forall₂.cons ⟨rfl, rfl⟩ (List.Forall₂.cons ⟨rfl, rfl⟩ (List.Forall₂.cons ⟨rfl, rfl⟩
        (List.Forall₂.cons ⟨rfl, rfl⟩ (List.Forall₂.cons ⟨rfl, rfl⟩ List.Forall₂.nil)))))
      (by decide) (by decide)⟩

end DrawsClaims

end vault
end maidsafe
